import Mathlib

/-!
ASCII folding char filter.

A shallow embedding of `analysis/char/asciifolding/asciifolding.go`: the slice
operations the code performs (index write, reslice within capacity), the
`switch` of `foldToASCII` as the ordered list of its case clauses, the counted
loop, and `Filter` with the byte/rune conversions of the Go language.
Every operation that can fail at run time with a bounds error returns `none`.
-/

namespace AsciiFolding

/-- A Go `rune` (a signed 32-bit integer) as an integer; the code only compares
and copies runes, it does no arithmetic on them. -/
abbrev Rune := Int

/-- A Go slice of runes: `arr` is the backing array from the first element of
the slice up to its capacity, `len` the length of the slice. The capacity is
`arr.length`, and a slice of the program always has `len` at most `arr.length`. -/
structure RuneSlice where
  arr : List Rune
  len : Nat
deriving DecidableEq

namespace RuneSlice

/-- Capacity `cap(s)`. -/
def cap (s : RuneSlice) : Nat := s.arr.length

/-- The elements `s[0], ..., s[len(s)-1]`. -/
def toList (s : RuneSlice) : List Rune := s.arr.take s.len

/-- The assignment `s[i] = v`: fails when `i` is not below `len(s)`. -/
def setIdx (s : RuneSlice) (i : Nat) (v : Rune) : Option RuneSlice :=
  if i < s.len then some ⟨s.arr.set i v, s.len⟩ else none

/-- The reslice `s[:n]`: fails when `n` exceeds `cap(s)`; the backing array is
shared, so its content is kept. -/
def resliceTo (s : RuneSlice) (n : Nat) : Option RuneSlice :=
  if n ≤ s.cap then some ⟨s.arr, n⟩ else none

end RuneSlice

/-- The allocation `make([]rune, len, cap)`: a zeroed backing array. -/
def make (len cap : Nat) : RuneSlice := ⟨List.replicate cap 0, len⟩

/-- One body of the `switch` of `foldToASCII` together with the labels that
reach it: a `case` clause and the clauses before it that end in `fallthrough`.
`grow` is the `k` of the leading statement `output = output[:(len(output) + k)]`
(`0` when the body has no such statement) and `writes` lists the characters of
the statements `output[outputPos] = ch; outputPos++`, in order. -/
structure CaseClause where
  labels : List Rune
  grow : Nat
  writes : List Rune
deriving DecidableEq

/-- The case clauses of the `switch c` in `foldToASCII`, in source order, labels
in the order of their `case` lines. The labels are pairwise distinct, and the
`break` that ends the last body leaves the switch as the end of the body does. -/
def foldCases : List CaseClause := [
  CaseClause.mk [0x00C0, 0x00C1, 0x00C2, 0x00C3, 0x00C4, 0x00C5, 0x0100, 0x0102, 0x0104,
    0x018F, 0x01CD, 0x01DE, 0x01E0, 0x01FA, 0x0200, 0x0202, 0x0226, 0x023A, 0x1D00, 0x1E00,
    0x1EA0, 0x1EA2, 0x1EA4, 0x1EA6, 0x1EA8, 0x1EAA, 0x1EAC, 0x1EAE, 0x1EB0, 0x1EB2, 0x1EB4,
    0x24B6, 0xFF21, 0x1EB6] 0 [0x41],  -- A
  CaseClause.mk [0x00E0, 0x00E1, 0x00E2, 0x00E3, 0x00E4, 0x00E5, 0x0101, 0x0103, 0x0105,
    0x01CE, 0x01DF, 0x01E1, 0x01FB, 0x0201, 0x0203, 0x0227, 0x0250, 0x0259, 0x025A, 0x1D8F,
    0x1D95, 0x1E01, 0x1E9A, 0x1EA1, 0x1EA3, 0x1EA5, 0x1EA7, 0x1EA9, 0x1EAB, 0x1EAD, 0x1EAF,
    0x1EB1, 0x1EB3, 0x1EB5, 0x1EB7, 0x2090, 0x2094, 0x24D0, 0x2C65, 0x2C6F, 0xFF41] 0 [0x61],  -- a
  CaseClause.mk [0xA732] 1 [0x41, 0x41],  -- AA
  CaseClause.mk [0x00C6, 0x01E2, 0x01FC, 0x1D01] 1 [0x41, 0x45],  -- AE
  CaseClause.mk [0xA734] 1 [0x41, 0x4F],  -- AO
  CaseClause.mk [0xA736] 1 [0x41, 0x55],  -- AU
  CaseClause.mk [0xA738, 0xA73A] 1 [0x41, 0x56],  -- AV
  CaseClause.mk [0xA73C] 1 [0x41, 0x59],  -- AY
  CaseClause.mk [0x249C] 2 [0x28, 0x61, 0x29],
  CaseClause.mk [0xA733] 1 [0x61, 0x61],  -- aa
  CaseClause.mk [0x00E6, 0x01E3, 0x01FD, 0x1D02] 1 [0x61, 0x65],  -- ae
  CaseClause.mk [0xA735] 1 [0x61, 0x6F],  -- ao
  CaseClause.mk [0xA737] 1 [0x61, 0x75],  -- au
  CaseClause.mk [0xA739, 0xA73B] 1 [0x61, 0x76],  -- av
  CaseClause.mk [0xA73D] 1 [0x61, 0x79],  -- ay
  CaseClause.mk [0x0181, 0x0182, 0x0243, 0x0299, 0x1D03, 0x1E02, 0x1E04, 0x1E06, 0x24B7,
    0xFF22] 0 [0x42],  -- B
  CaseClause.mk [0x0180, 0x0183, 0x0253, 0x1D6C, 0x1D80, 0x1E03, 0x1E05, 0x1E07, 0x24D1,
    0xFF42] 0 [0x62],  -- b
  CaseClause.mk [0x249D] 2 [0x28, 0x62, 0x29],
  CaseClause.mk [0x00C7, 0x0106, 0x0108, 0x010A, 0x010C, 0x0187, 0x023B, 0x0297, 0x1D04,
    0x1E08, 0x24B8, 0xFF23] 0 [0x43],  -- C
  CaseClause.mk [0x00E7, 0x0107, 0x0109, 0x010B, 0x010D, 0x0188, 0x023C, 0x0255, 0x1E09,
    0x2184, 0x24D2, 0xA73E, 0xA73F, 0xFF43] 0 [0x63],  -- c
  CaseClause.mk [0x249E] 2 [0x28, 0x63, 0x29],
  CaseClause.mk [0x00D0, 0x010E, 0x0110, 0x0189, 0x018A, 0x018B, 0x1D05, 0x1D06, 0x1E0A,
    0x1E0C, 0x1E0E, 0x1E10, 0x1E12, 0x24B9, 0xA779, 0xFF24] 0 [0x44],  -- D
  CaseClause.mk [0x00F0, 0x010F, 0x0111, 0x018C, 0x0221, 0x0256, 0x0257, 0x1D6D, 0x1D81,
    0x1D91, 0x1E0B, 0x1E0D, 0x1E0F, 0x1E11, 0x1E13, 0x24D3, 0xA77A, 0xFF44] 0 [0x64],  -- d
  CaseClause.mk [0x01C4, 0x01F1] 1 [0x44, 0x5A],  -- DZ
  CaseClause.mk [0x01C5, 0x01F2] 1 [0x44, 0x7A],  -- Dz
  CaseClause.mk [0x249F] 2 [0x28, 0x64, 0x29],
  CaseClause.mk [0x0238] 1 [0x64, 0x62],  -- db
  CaseClause.mk [0x01C6, 0x01F3, 0x02A3, 0x02A5] 1 [0x64, 0x7A],  -- dz
  CaseClause.mk [0x00C8, 0x00C9, 0x00CA, 0x00CB, 0x0112, 0x0114, 0x0116, 0x0118, 0x011A,
    0x018E, 0x0190, 0x0204, 0x0206, 0x0228, 0x0246, 0x1D07, 0x1E14, 0x1E16, 0x1E18, 0x1E1A,
    0x1E1C, 0x1EB8, 0x1EBA, 0x1EBC, 0x1EBE, 0x1EC0, 0x1EC2, 0x1EC4, 0x1EC6, 0x24BA, 0x2C7B,
    0xFF25] 0 [0x45],  -- E
  CaseClause.mk [0x00E8, 0x00E9, 0x00EA, 0x00EB, 0x0113, 0x0115, 0x0117, 0x0119, 0x011B,
    0x01DD, 0x0205, 0x0207, 0x0229, 0x0247, 0x0258, 0x025B, 0x025C, 0x025D, 0x025E, 0x029A,
    0x1D08, 0x1D92, 0x1D93, 0x1D94, 0x1E15, 0x1E17, 0x1E19, 0x1E1B, 0x1E1D, 0x1EB9, 0x1EBB,
    0x1EBD, 0x1EBF, 0x1EC1, 0x1EC3, 0x1EC5, 0x1EC7, 0x2091, 0x24D4, 0x2C78, 0xFF45] 0 [0x65],  -- e
  CaseClause.mk [0x24A0] 2 [0x28, 0x65, 0x29],
  CaseClause.mk [0x0191, 0x1E1E, 0x24BB, 0xA730, 0xA77B, 0xA7FB, 0xFF26] 0 [0x46],  -- F
  CaseClause.mk [0x0192, 0x1D6E, 0x1D82, 0x1E1F, 0x1E9B, 0x24D5, 0xA77C, 0xFF46] 0 [0x66],  -- f
  CaseClause.mk [0x24A1] 2 [0x28, 0x66, 0x29],
  CaseClause.mk [0xFB00] 1 [0x66, 0x66],  -- ff
  CaseClause.mk [0xFB03] 2 [0x66, 0x66, 0x69],  -- ffi
  CaseClause.mk [0xFB04] 2 [0x66, 0x66, 0x6C],  -- ffl
  CaseClause.mk [0xFB01] 1 [0x66, 0x69],  -- fi
  CaseClause.mk [0xFB02] 1 [0x66, 0x6C],  -- fl
  CaseClause.mk [0x011C, 0x011E, 0x0120, 0x0122, 0x0193, 0x01E4, 0x01E5, 0x01E6, 0x01E7,
    0x01F4, 0x0262, 0x029B, 0x1E20, 0x24BC, 0xA77D, 0xA77E, 0xFF27] 0 [0x47],  -- G
  CaseClause.mk [0x011D, 0x011F, 0x0121, 0x0123, 0x01F5, 0x0260, 0x0261, 0x1D77, 0x1D79,
    0x1D83, 0x1E21, 0x24D6, 0xA77F, 0xFF47] 0 [0x67],  -- g
  CaseClause.mk [0x24A2] 2 [0x28, 0x67, 0x29],
  CaseClause.mk [0x0124, 0x0126, 0x021E, 0x029C, 0x1E22, 0x1E24, 0x1E26, 0x1E28, 0x1E2A,
    0x24BD, 0x2C67, 0x2C75, 0xFF28] 0 [0x48],  -- H
  CaseClause.mk [0x0125, 0x0127, 0x021F, 0x0265, 0x0266, 0x02AE, 0x02AF, 0x1E23, 0x1E25,
    0x1E27, 0x1E29, 0x1E2B, 0x1E96, 0x24D7, 0x2C68, 0x2C76, 0xFF48] 0 [0x68],  -- h
  CaseClause.mk [0x01F6] 1 [0x48, 0x56],  -- HV
  CaseClause.mk [0x24A3] 2 [0x28, 0x68, 0x29],
  CaseClause.mk [0x0195] 1 [0x68, 0x76],  -- hv
  CaseClause.mk [0x00CC, 0x00CD, 0x00CE, 0x00CF, 0x0128, 0x012A, 0x012C, 0x012E, 0x0130,
    0x0196, 0x0197, 0x01CF, 0x0208, 0x020A, 0x026A, 0x1D7B, 0x1E2C, 0x1E2E, 0x1EC8, 0x1ECA,
    0x24BE, 0xA7FE, 0xFF29] 0 [0x49],  -- I
  CaseClause.mk [0x00EC, 0x00ED, 0x00EE, 0x00EF, 0x0129, 0x012B, 0x012D, 0x012F, 0x0131,
    0x01D0, 0x0209, 0x020B, 0x0268, 0x1D09, 0x1D62, 0x1D7C, 0x1D96, 0x1E2D, 0x1E2F, 0x1EC9,
    0x1ECB, 0x2071, 0x24D8, 0xFF49] 0 [0x69],  -- i
  CaseClause.mk [0x0132] 1 [0x49, 0x4A],  -- IJ
  CaseClause.mk [0x24A4] 2 [0x28, 0x69, 0x29],
  CaseClause.mk [0x0133] 1 [0x69, 0x6A],  -- ij
  CaseClause.mk [0x0134, 0x0248, 0x1D0A, 0x24BF, 0xFF2A] 0 [0x4A],  -- J
  CaseClause.mk [0x0135, 0x01F0, 0x0237, 0x0249, 0x025F, 0x0284, 0x029D, 0x24D9, 0x2C7C,
    0xFF4A] 0 [0x6A],  -- j
  CaseClause.mk [0x24A5] 2 [0x28, 0x6A, 0x29],
  CaseClause.mk [0x0136, 0x0198, 0x01E8, 0x1D0B, 0x1E30, 0x1E32, 0x1E34, 0x24C0, 0x2C69,
    0xA740, 0xA742, 0xA744, 0xFF2B] 0 [0x4B],  -- K
  CaseClause.mk [0x0137, 0x0199, 0x01E9, 0x029E, 0x1D84, 0x1E31, 0x1E33, 0x1E35, 0x24DA,
    0x2C6A, 0xA741, 0xA743, 0xA745, 0xFF4B] 0 [0x6B],  -- k
  CaseClause.mk [0x24A6] 2 [0x28, 0x6B, 0x29],
  CaseClause.mk [0x0139, 0x013B, 0x013D, 0x013F, 0x0141, 0x023D, 0x029F, 0x1D0C, 0x1E36,
    0x1E38, 0x1E3A, 0x1E3C, 0x24C1, 0x2C60, 0x2C62, 0xA746, 0xA748, 0xA780, 0xFF2C] 0 [0x4C],  -- L
  CaseClause.mk [0x013A, 0x013C, 0x013E, 0x0140, 0x0142, 0x019A, 0x0234, 0x026B, 0x026C,
    0x026D, 0x1D85, 0x1E37, 0x1E39, 0x1E3B, 0x1E3D, 0x24DB, 0x2C61, 0xA747, 0xA749, 0xA781,
    0xFF4C] 0 [0x6C],  -- l
  CaseClause.mk [0x01C7] 1 [0x4C, 0x4A],  -- LJ
  CaseClause.mk [0x1EFA] 1 [0x4C, 0x4C],  -- LL
  CaseClause.mk [0x01C8] 1 [0x4C, 0x6A],  -- Lj
  CaseClause.mk [0x24A7] 2 [0x28, 0x6C, 0x29],
  CaseClause.mk [0x01C9] 1 [0x6C, 0x6A],  -- lj
  CaseClause.mk [0x1EFB] 1 [0x6C, 0x6C],  -- ll
  CaseClause.mk [0x02AA] 1 [0x6C, 0x73],  -- ls
  CaseClause.mk [0x02AB] 1 [0x6C, 0x7A],  -- lz
  CaseClause.mk [0x019C, 0x1D0D, 0x1E3E, 0x1E40, 0x1E42, 0x24C2, 0x2C6E, 0xA7FD, 0xA7FF,
    0xFF2D] 0 [0x4D],  -- M
  CaseClause.mk [0x026F, 0x0270, 0x0271, 0x1D6F, 0x1D86, 0x1E3F, 0x1E41, 0x1E43, 0x24DC,
    0xFF4D] 0 [0x6D],  -- m
  CaseClause.mk [0x24A8] 2 [0x28, 0x6D, 0x29],
  CaseClause.mk [0x00D1, 0x0143, 0x0145, 0x0147, 0x014A, 0x019D, 0x01F8, 0x0220, 0x0274,
    0x1D0E, 0x1E44, 0x1E46, 0x1E48, 0x1E4A, 0x24C3, 0xFF2E] 0 [0x4E],  -- N
  CaseClause.mk [0x00F1, 0x0144, 0x0146, 0x0148, 0x0149, 0x014B, 0x019E, 0x01F9, 0x0235,
    0x0272, 0x0273, 0x1D70, 0x1D87, 0x1E45, 0x1E47, 0x1E49, 0x1E4B, 0x207F, 0x24DD, 0xFF4E] 0 [0x6E],  -- n
  CaseClause.mk [0x01CA] 1 [0x4E, 0x4A],  -- NJ
  CaseClause.mk [0x01CB] 1 [0x4E, 0x6A],  -- Nj
  CaseClause.mk [0x24A9] 2 [0x28, 0x6E, 0x29],
  CaseClause.mk [0x01CC] 1 [0x6E, 0x6A],  -- nj
  CaseClause.mk [0x00D2, 0x00D3, 0x00D4, 0x00D5, 0x00D6, 0x00D8, 0x014C, 0x014E, 0x0150,
    0x0186, 0x019F, 0x01A0, 0x01D1, 0x01EA, 0x01EC, 0x01FE, 0x020C, 0x020E, 0x022A, 0x022C,
    0x022E, 0x0230, 0x1D0F, 0x1D10, 0x1E4C, 0x1E4E, 0x1E50, 0x1E52, 0x1ECC, 0x1ECE, 0x1ED0,
    0x1ED2, 0x1ED4, 0x1ED6, 0x1ED8, 0x1EDA, 0x1EDC, 0x1EDE, 0x1EE0, 0x1EE2, 0x24C4, 0xA74A,
    0xA74C, 0xFF2F] 0 [0x4F],  -- O
  CaseClause.mk [0x00F2, 0x00F3, 0x00F4, 0x00F5, 0x00F6, 0x00F8, 0x014D, 0x014F, 0x0151,
    0x01A1, 0x01D2, 0x01EB, 0x01ED, 0x01FF, 0x020D, 0x020F, 0x022B, 0x022D, 0x022F, 0x0231,
    0x0254, 0x0275, 0x1D16, 0x1D17, 0x1D97, 0x1E4D, 0x1E4F, 0x1E51, 0x1E53, 0x1ECD, 0x1ECF,
    0x1ED1, 0x1ED3, 0x1ED5, 0x1ED7, 0x1ED9, 0x1EDB, 0x1EDD, 0x1EDF, 0x1EE1, 0x1EE3, 0x2092,
    0x24DE, 0x2C7A, 0xA74B, 0xA74D, 0xFF4F] 0 [0x6F],  -- o
  CaseClause.mk [0x0152, 0x0276] 1 [0x4F, 0x45],  -- OE
  CaseClause.mk [0xA74E] 1 [0x4F, 0x4F],  -- OO
  CaseClause.mk [0x0222, 0x1D15] 1 [0x4F, 0x55],  -- OU
  CaseClause.mk [0x24AA] 2 [0x28, 0x6F, 0x29],
  CaseClause.mk [0x0153, 0x1D14] 1 [0x6F, 0x65],  -- oe
  CaseClause.mk [0xA74F] 1 [0x6F, 0x6F],  -- oo
  CaseClause.mk [0x0223] 1 [0x6F, 0x75],  -- ou
  CaseClause.mk [0x01A4, 0x1D18, 0x1E54, 0x1E56, 0x24C5, 0x2C63, 0xA750, 0xA752, 0xA754,
    0xFF30] 0 [0x50],  -- P
  CaseClause.mk [0x01A5, 0x1D71, 0x1D7D, 0x1D88, 0x1E55, 0x1E57, 0x24DF, 0xA751, 0xA753,
    0xA755, 0xA7FC, 0xFF50] 0 [0x70],  -- p
  CaseClause.mk [0x24AB] 2 [0x28, 0x70, 0x29],
  CaseClause.mk [0x024A, 0x24C6, 0xA756, 0xA758, 0xFF31] 0 [0x51],  -- Q
  CaseClause.mk [0x0138, 0x024B, 0x02A0, 0x24E0, 0xA757, 0xA759, 0xFF51] 0 [0x71],  -- q
  CaseClause.mk [0x24AC] 2 [0x28, 0x71, 0x29],
  CaseClause.mk [0x0239] 1 [0x71, 0x70],  -- qp
  CaseClause.mk [0x0154, 0x0156, 0x0158, 0x0210, 0x0212, 0x024C, 0x0280, 0x0281, 0x1D19,
    0x1D1A, 0x1E58, 0x1E5A, 0x1E5C, 0x1E5E, 0x24C7, 0x2C64, 0xA75A, 0xA782, 0xFF32] 0 [0x52],  -- R
  CaseClause.mk [0x0155, 0x0157, 0x0159, 0x0211, 0x0213, 0x024D, 0x027C, 0x027D, 0x027E,
    0x027F, 0x1D63, 0x1D72, 0x1D73, 0x1D89, 0x1E59, 0x1E5B, 0x1E5D, 0x1E5F, 0x24E1, 0xA75B,
    0xA783, 0xFF52] 0 [0x72],  -- r
  CaseClause.mk [0x24AD] 2 [0x28, 0x72, 0x29],
  CaseClause.mk [0x015A, 0x015C, 0x015E, 0x0160, 0x0218, 0x1E60, 0x1E62, 0x1E64, 0x1E66,
    0x1E68, 0x24C8, 0xA731, 0xA785, 0xFF33] 0 [0x53],  -- S
  CaseClause.mk [0x015B, 0x015D, 0x015F, 0x0161, 0x017F, 0x0219, 0x023F, 0x0282, 0x1D74,
    0x1D8A, 0x1E61, 0x1E63, 0x1E65, 0x1E67, 0x1E69, 0x1E9C, 0x1E9D, 0x24E2, 0xA784, 0xFF53] 0 [0x73],  -- s
  CaseClause.mk [0x1E9E] 1 [0x53, 0x53],  -- SS
  CaseClause.mk [0x24AE] 2 [0x28, 0x73, 0x29],
  CaseClause.mk [0x00DF] 1 [0x73, 0x73],  -- ss
  CaseClause.mk [0xFB06] 1 [0x73, 0x74],  -- st
  CaseClause.mk [0x0162, 0x0164, 0x0166, 0x01AC, 0x01AE, 0x021A, 0x023E, 0x1D1B, 0x1E6A,
    0x1E6C, 0x1E6E, 0x1E70, 0x24C9, 0xA786, 0xFF34] 0 [0x54],  -- T
  CaseClause.mk [0x0163, 0x0165, 0x0167, 0x01AB, 0x01AD, 0x021B, 0x0236, 0x0287, 0x0288,
    0x1D75, 0x1E6B, 0x1E6D, 0x1E6F, 0x1E71, 0x1E97, 0x24E3, 0x2C66, 0xFF54] 0 [0x74],  -- t
  CaseClause.mk [0x00DE, 0xA766] 1 [0x54, 0x48],  -- TH
  CaseClause.mk [0xA728] 1 [0x54, 0x5A],  -- TZ
  CaseClause.mk [0x24AF] 2 [0x28, 0x74, 0x29],
  CaseClause.mk [0x02A8] 1 [0x74, 0x63],  -- tc
  CaseClause.mk [0x00FE, 0x1D7A, 0xA767] 1 [0x74, 0x68],  -- th
  CaseClause.mk [0x02A6] 1 [0x74, 0x73],  -- ts
  CaseClause.mk [0xA729] 1 [0x74, 0x7A],  -- tz
  CaseClause.mk [0x00D9, 0x00DA, 0x00DB, 0x00DC, 0x0168, 0x016A, 0x016C, 0x016E, 0x0170,
    0x0172, 0x01AF, 0x01D3, 0x01D5, 0x01D7, 0x01D9, 0x01DB, 0x0214, 0x0216, 0x0244, 0x1D1C,
    0x1D7E, 0x1E72, 0x1E74, 0x1E76, 0x1E78, 0x1E7A, 0x1EE4, 0x1EE6, 0x1EE8, 0x1EEA, 0x1EEC,
    0x1EEE, 0x1EF0, 0x24CA, 0xFF35] 0 [0x55],  -- U
  CaseClause.mk [0x00F9, 0x00FA, 0x00FB, 0x00FC, 0x0169, 0x016B, 0x016D, 0x016F, 0x0171,
    0x0173, 0x01B0, 0x01D4, 0x01D6, 0x01D8, 0x01DA, 0x01DC, 0x0215, 0x0217, 0x0289, 0x1D64,
    0x1D99, 0x1E73, 0x1E75, 0x1E77, 0x1E79, 0x1E7B, 0x1EE5, 0x1EE7, 0x1EE9, 0x1EEB, 0x1EED,
    0x1EEF, 0x1EF1, 0x24E4, 0xFF55] 0 [0x75],  -- u
  CaseClause.mk [0x24B0] 2 [0x28, 0x75, 0x29],
  CaseClause.mk [0x1D6B] 1 [0x75, 0x65],  -- ue
  CaseClause.mk [0x01B2, 0x0245, 0x1D20, 0x1E7C, 0x1E7E, 0x1EFC, 0x24CB, 0xA75E, 0xA768,
    0xFF36] 0 [0x56],  -- V
  CaseClause.mk [0x028B, 0x028C, 0x1D65, 0x1D8C, 0x1E7D, 0x1E7F, 0x24E5, 0x2C71, 0x2C74,
    0xA75F, 0xFF56] 0 [0x76],  -- v
  CaseClause.mk [0xA760] 1 [0x56, 0x59],  -- VY
  CaseClause.mk [0x24B1] 2 [0x28, 0x76, 0x29],
  CaseClause.mk [0xA761] 1 [0x76, 0x79],  -- vy
  CaseClause.mk [0x0174, 0x01F7, 0x1D21, 0x1E80, 0x1E82, 0x1E84, 0x1E86, 0x1E88, 0x24CC,
    0x2C72, 0xFF37] 0 [0x57],  -- W
  CaseClause.mk [0x0175, 0x01BF, 0x028D, 0x1E81, 0x1E83, 0x1E85, 0x1E87, 0x1E89, 0x1E98,
    0x24E6, 0x2C73, 0xFF57] 0 [0x77],  -- w
  CaseClause.mk [0x24B2] 2 [0x28, 0x77, 0x29],
  CaseClause.mk [0x1E8A, 0x1E8C, 0x24CD, 0xFF38] 0 [0x58],  -- X
  CaseClause.mk [0x1D8D, 0x1E8B, 0x1E8D, 0x2093, 0x24E7, 0xFF58] 0 [0x78],  -- x
  CaseClause.mk [0x24B3] 2 [0x28, 0x78, 0x29],
  CaseClause.mk [0x00DD, 0x0176, 0x0178, 0x01B3, 0x0232, 0x024E, 0x028F, 0x1E8E, 0x1EF2,
    0x1EF4, 0x1EF6, 0x1EF8, 0x1EFE, 0x24CE, 0xFF39] 0 [0x59],  -- Y
  CaseClause.mk [0x00FD, 0x00FF, 0x0177, 0x01B4, 0x0233, 0x024F, 0x028E, 0x1E8F, 0x1E99,
    0x1EF3, 0x1EF5, 0x1EF7, 0x1EF9, 0x1EFF, 0x24E8, 0xFF59] 0 [0x79],  -- y
  CaseClause.mk [0x24B4] 2 [0x28, 0x79, 0x29],
  CaseClause.mk [0x0179, 0x017B, 0x017D, 0x01B5, 0x021C, 0x0224, 0x1D22, 0x1E90, 0x1E92,
    0x1E94, 0x24CF, 0x2C6B, 0xA762, 0xFF3A] 0 [0x5A],  -- Z
  CaseClause.mk [0x017A, 0x017C, 0x017E, 0x01B6, 0x021D, 0x0225, 0x0240, 0x0290, 0x0291,
    0x1D76, 0x1D8E, 0x1E91, 0x1E93, 0x1E95, 0x24E9, 0x2C6C, 0xA763, 0xFF5A] 0 [0x7A],  -- z
  CaseClause.mk [0x24B5] 2 [0x28, 0x7A, 0x29],
  CaseClause.mk [0x2070, 0x2080, 0x24EA, 0x24FF, 0xFF10] 0 [0x30],  -- 0
  CaseClause.mk [0x00B9, 0x2081, 0x2460, 0x24F5, 0x2776, 0x2780, 0x278A, 0xFF11] 0 [0x31],  -- 1
  CaseClause.mk [0x2488] 1 [0x31, 0x2E],
  CaseClause.mk [0x2474] 2 [0x28, 0x31, 0x29],
  CaseClause.mk [0x00B2, 0x2082, 0x2461, 0x24F6, 0x2777, 0x2781, 0x278B, 0xFF12] 0 [0x32],  -- 2
  CaseClause.mk [0x2489] 1 [0x32, 0x2E],
  CaseClause.mk [0x2475] 2 [0x28, 0x32, 0x29],
  CaseClause.mk [0x00B3, 0x2083, 0x2462, 0x24F7, 0x2778, 0x2782, 0x278C, 0xFF13] 0 [0x33],  -- 3
  CaseClause.mk [0x248A] 1 [0x33, 0x2E],
  CaseClause.mk [0x2476] 2 [0x28, 0x33, 0x29],
  CaseClause.mk [0x2074, 0x2084, 0x2463, 0x24F8, 0x2779, 0x2783, 0x278D, 0xFF14] 0 [0x34],  -- 4
  CaseClause.mk [0x248B] 1 [0x34, 0x2E],
  CaseClause.mk [0x2477] 2 [0x28, 0x34, 0x29],
  CaseClause.mk [0x2075, 0x2085, 0x2464, 0x24F9, 0x277A, 0x2784, 0x278E, 0xFF15] 0 [0x35],  -- 5
  CaseClause.mk [0x248C] 1 [0x35, 0x2E],
  CaseClause.mk [0x2478] 2 [0x28, 0x35, 0x29],
  CaseClause.mk [0x2076, 0x2086, 0x2465, 0x24FA, 0x277B, 0x2785, 0x278F, 0xFF16] 0 [0x36],  -- 6
  CaseClause.mk [0x248D] 1 [0x36, 0x2E],
  CaseClause.mk [0x2479] 2 [0x28, 0x36, 0x29],
  CaseClause.mk [0x2077, 0x2087, 0x2466, 0x24FB, 0x277C, 0x2786, 0x2790, 0xFF17] 0 [0x37],  -- 7
  CaseClause.mk [0x248E] 1 [0x37, 0x2E],
  CaseClause.mk [0x247A] 2 [0x28, 0x37, 0x29],
  CaseClause.mk [0x2078, 0x2088, 0x2467, 0x24FC, 0x277D, 0x2787, 0x2791, 0xFF18] 0 [0x38],  -- 8
  CaseClause.mk [0x248F] 1 [0x38, 0x2E],
  CaseClause.mk [0x247B] 2 [0x28, 0x38, 0x29],
  CaseClause.mk [0x2079, 0x2089, 0x2468, 0x24FD, 0x277E, 0x2788, 0x2792, 0xFF19] 0 [0x39],  -- 9
  CaseClause.mk [0x2490] 1 [0x39, 0x2E],
  CaseClause.mk [0x247C] 2 [0x28, 0x39, 0x29],
  CaseClause.mk [0x2469, 0x24FE, 0x277F, 0x2789, 0x2793] 1 [0x31, 0x30],  -- 10
  CaseClause.mk [0x2491] 2 [0x31, 0x30, 0x2E],
  CaseClause.mk [0x247D] 3 [0x28, 0x31, 0x30, 0x29],
  CaseClause.mk [0x246A, 0x24EB] 1 [0x31, 0x31],  -- 11
  CaseClause.mk [0x2492] 2 [0x31, 0x31, 0x2E],
  CaseClause.mk [0x247E] 3 [0x28, 0x31, 0x31, 0x29],
  CaseClause.mk [0x246B, 0x24EC] 1 [0x31, 0x32],  -- 12
  CaseClause.mk [0x2493] 2 [0x31, 0x32, 0x2E],
  CaseClause.mk [0x247F] 3 [0x28, 0x31, 0x32, 0x29],
  CaseClause.mk [0x246C, 0x24ED] 1 [0x31, 0x33],  -- 13
  CaseClause.mk [0x2494] 2 [0x31, 0x33, 0x2E],
  CaseClause.mk [0x2480] 3 [0x28, 0x31, 0x33, 0x29],
  CaseClause.mk [0x246D, 0x24EE] 1 [0x31, 0x34],  -- 14
  CaseClause.mk [0x2495] 2 [0x31, 0x34, 0x2E],
  CaseClause.mk [0x2481] 3 [0x28, 0x31, 0x34, 0x29],
  CaseClause.mk [0x246E, 0x24EF] 1 [0x31, 0x35],  -- 15
  CaseClause.mk [0x2496] 2 [0x31, 0x35, 0x2E],
  CaseClause.mk [0x2482] 3 [0x28, 0x31, 0x35, 0x29],
  CaseClause.mk [0x246F, 0x24F0] 1 [0x31, 0x36],  -- 16
  CaseClause.mk [0x2497] 2 [0x31, 0x36, 0x2E],
  CaseClause.mk [0x2483] 3 [0x28, 0x31, 0x36, 0x29],
  CaseClause.mk [0x2470, 0x24F1] 1 [0x31, 0x37],  -- 17
  CaseClause.mk [0x2498] 2 [0x31, 0x37, 0x2E],
  CaseClause.mk [0x2484] 3 [0x28, 0x31, 0x37, 0x29],
  CaseClause.mk [0x2471, 0x24F2] 1 [0x31, 0x38],  -- 18
  CaseClause.mk [0x2499] 2 [0x31, 0x38, 0x2E],
  CaseClause.mk [0x2485] 3 [0x28, 0x31, 0x38, 0x29],
  CaseClause.mk [0x2472, 0x24F3] 1 [0x31, 0x39],  -- 19
  CaseClause.mk [0x249A] 2 [0x31, 0x39, 0x2E],
  CaseClause.mk [0x2486] 3 [0x28, 0x31, 0x39, 0x29],
  CaseClause.mk [0x2473, 0x24F4] 1 [0x32, 0x30],  -- 20
  CaseClause.mk [0x249B] 2 [0x32, 0x30, 0x2E],
  CaseClause.mk [0x2487] 3 [0x28, 0x32, 0x30, 0x29],
  CaseClause.mk [0x00AB, 0x00BB, 0x201C, 0x201D, 0x201E, 0x2033, 0x2036, 0x275D, 0x275E,
    0x276E, 0x276F, 0xFF02] 0 [0x22],
  CaseClause.mk [0x2018, 0x2019, 0x201A, 0x201B, 0x2032, 0x2035, 0x2039, 0x203A, 0x275B,
    0x275C, 0xFF07] 0 [0x27],
  CaseClause.mk [0x2010, 0x2011, 0x2012, 0x2013, 0x2014, 0x207B, 0x208B, 0xFF0D] 0 [0x2D],
  CaseClause.mk [0x2045, 0x2772, 0xFF3B] 0 [0x5B],
  CaseClause.mk [0x2046, 0x2773, 0xFF3D] 0 [0x5D],
  CaseClause.mk [0x207D, 0x208D, 0x2768, 0x276A, 0xFF08] 0 [0x28],
  CaseClause.mk [0x2E28] 1 [0x28, 0x28],
  CaseClause.mk [0x207E, 0x208E, 0x2769, 0x276B, 0xFF09] 0 [0x29],
  CaseClause.mk [0x2E29] 1 [0x29, 0x29],
  CaseClause.mk [0x276C, 0x2770, 0xFF1C] 0 [0x3C],
  CaseClause.mk [0x276D, 0x2771, 0xFF1E] 0 [0x3E],
  CaseClause.mk [0x2774, 0xFF5B] 0 [0x7B],
  CaseClause.mk [0x2775, 0xFF5D] 0 [0x7D],
  CaseClause.mk [0x207A, 0x208A, 0xFF0B] 0 [0x2B],
  CaseClause.mk [0x207C, 0x208C, 0xFF1D] 0 [0x3D],
  CaseClause.mk [0xFF01] 0 [0x21],
  CaseClause.mk [0x203C] 1 [0x21, 0x21],
  CaseClause.mk [0x2049] 1 [0x21, 0x3F],
  CaseClause.mk [0xFF03] 0 [0x23],
  CaseClause.mk [0xFF04] 0 [0x24],
  CaseClause.mk [0x2052, 0xFF05] 0 [0x25],
  CaseClause.mk [0xFF06] 0 [0x26],
  CaseClause.mk [0x204E, 0xFF0A] 0 [0x2A],
  CaseClause.mk [0xFF0C] 0 [0x2C],
  CaseClause.mk [0xFF0E] 0 [0x2E],
  CaseClause.mk [0x2044, 0xFF0F] 0 [0x2F],
  CaseClause.mk [0xFF1A] 0 [0x3A],
  CaseClause.mk [0x204F, 0xFF1B] 0 [0x3B],
  CaseClause.mk [0xFF1F] 0 [0x3F],
  CaseClause.mk [0x2047] 1 [0x3F, 0x3F],
  CaseClause.mk [0x2048] 1 [0x3F, 0x21],
  CaseClause.mk [0xFF20] 0 [0x40],
  CaseClause.mk [0xFF3C] 0 [0x5C],
  CaseClause.mk [0x2038, 0xFF3E] 0 [0x5E],
  CaseClause.mk [0xFF3F] 0 [0x5F],
  CaseClause.mk [0x2053, 0xFF5E] 0 [0x7E]
]

/-- The clause a `switch c` over `cases` selects: the first one listing `c`. -/
def selectCase (cases : List CaseClause) (c : Rune) : Option CaseClause :=
  cases.find? (fun cl => cl.labels.contains c)

/-- The statements `output[outputPos] = w; outputPos++` for each `w` of a list. -/
def writeRunes : List Rune → RuneSlice → Nat → Option (RuneSlice × Nat)
  | [], output, outputPos => some (output, outputPos)
  | w :: ws, output, outputPos =>
    match output.setIdx outputPos w with
    | none => none
    | some output1 => writeRunes ws output1 (outputPos + 1)

/-- The body of a case clause: the reslice, when present, then the writes. -/
def runClause (cl : CaseClause) (output : RuneSlice) (outputPos : Nat) :
    Option (RuneSlice × Nat) :=
  match (if cl.grow = 0 then some output else output.resliceTo (output.len + cl.grow)) with
  | none => none
  | some output1 => writeRunes cl.writes output1 outputPos

/-- One iteration of the loop of `foldToASCII` on the code point `c`, with the
`switch` ranging over `cases`: the quick test, the selected clause, or the
`default` clause. -/
def foldStepWith (cases : List CaseClause) (c : Rune) (output : RuneSlice) (outputPos : Nat) :
    Option (RuneSlice × Nat) :=
  if c < 0x80 then
    writeRunes [c] output outputPos
  else
    match selectCase cases c with
    | some cl => runClause cl output outputPos
    | none => writeRunes [c] output outputPos

/-- One iteration of the loop of `foldToASCII`. -/
def foldStep (c : Rune) (output : RuneSlice) (outputPos : Nat) : Option (RuneSlice × Nat) :=
  foldStepWith foldCases c output outputPos

/-- The loop `for pos := inputPos; pos < end; pos++` with `n = end - pos`
iterations left; reading `input[pos]` fails past the end of `input`. -/
def foldLoop (input : List Rune) : Nat → Nat → RuneSlice → Nat → Option RuneSlice
  | 0, _, output, _ => some output
  | n + 1, pos, output, outputPos =>
    match input[pos]? with
    | none => none
    | some c =>
      match foldStep c output outputPos with
      | none => none
      | some (output1, outputPos1) => foldLoop input n (pos + 1) output1 outputPos1

/-- The function `foldToASCII(input, inputPos, output, outputPos, length)` for
non-negative positions and length within the lengths of the slices, where the
`int` arithmetic of the source (`inputPos + length`, `pos++`, `outputPos++`)
does not wrap. -/
def foldToASCII (input : List Rune) (inputPos : Nat) (output : RuneSlice) (outputPos : Nat)
    (length : Nat) : Option RuneSlice :=
  foldLoop input length inputPos output outputPos

/-- The characters one iteration of the loop writes for the code point `c`. -/
def foldRune (c : Rune) : List Rune :=
  if c < 0x80 then [c]
  else
    match selectCase foldCases c with
    | some cl => cl.writes
    | none => [c]

/-- Continuation byte of a UTF-8 sequence. -/
def isCont (b : Nat) : Bool := 0x80 ≤ b && b ≤ 0xBF

/-- The first rune of a byte string and its width, as Go decodes UTF-8: an
ill-formed or truncated sequence gives U+FFFD with width 1. -/
def decodeRune : List Nat → Rune × Nat
  | [] => (0xFFFD, 0)
  | b0 :: rest =>
    if b0 < 0x80 then (Int.ofNat b0, 1)
    else if 0xC2 ≤ b0 ∧ b0 ≤ 0xDF then
      match rest with
      | b1 :: _ =>
        if isCont b1 then (Int.ofNat ((b0 % 0x20) * 0x40 + b1 % 0x40), 2) else (0xFFFD, 1)
      | _ => (0xFFFD, 1)
    else if 0xE0 ≤ b0 ∧ b0 ≤ 0xEF then
      match rest with
      | b1 :: b2 :: _ =>
        if (if b0 = 0xE0 then 0xA0 else 0x80) ≤ b1 ∧ b1 ≤ (if b0 = 0xED then 0x9F else 0xBF)
            ∧ isCont b2 then
          (Int.ofNat ((b0 % 0x10) * 0x1000 + (b1 % 0x40) * 0x40 + b2 % 0x40), 3)
        else (0xFFFD, 1)
      | _ => (0xFFFD, 1)
    else if 0xF0 ≤ b0 ∧ b0 ≤ 0xF4 then
      match rest with
      | b1 :: b2 :: b3 :: _ =>
        if (if b0 = 0xF0 then 0x90 else 0x80) ≤ b1 ∧ b1 ≤ (if b0 = 0xF4 then 0x8F else 0xBF)
            ∧ isCont b2 ∧ isCont b3 then
          (Int.ofNat ((b0 % 0x08) * 0x40000 + (b1 % 0x40) * 0x1000 + (b2 % 0x40) * 0x40
            + b3 % 0x40), 4)
        else (0xFFFD, 1)
      | _ => (0xFFFD, 1)
    else (0xFFFD, 1)

/-- Decoding with `skip` bytes of the current rune still to pass over. -/
def decodeFrom : Nat → List Nat → List Rune
  | _, [] => []
  | 0, b :: rest => (decodeRune (b :: rest)).1 :: decodeFrom ((decodeRune (b :: rest)).2 - 1) rest
  | k + 1, _ :: rest => decodeFrom k rest

/-- The conversion `[]rune(string(input))` of a byte sequence. -/
def decodeRunes (input : List Nat) : List Rune := decodeFrom 0 input

/-- The UTF-8 bytes Go writes for one rune in `string(out)`: a rune that is not
a Unicode scalar value is written as U+FFFD. -/
def encodeRune (r : Rune) : List Nat :=
  if r < 0 then [0xEF, 0xBF, 0xBD]
  else if r < 0x80 then [r.toNat]
  else if r < 0x800 then [0xC0 + r.toNat / 0x40, 0x80 + r.toNat % 0x40]
  else if 0xD800 ≤ r ∧ r ≤ 0xDFFF then [0xEF, 0xBF, 0xBD]
  else if r < 0x10000 then
    [0xE0 + r.toNat / 0x1000, 0x80 + r.toNat / 0x40 % 0x40, 0x80 + r.toNat % 0x40]
  else if r ≤ 0x10FFFF then
    [0xF0 + r.toNat / 0x40000, 0x80 + r.toNat / 0x1000 % 0x40, 0x80 + r.toNat / 0x40 % 0x40,
      0x80 + r.toNat % 0x40]
  else [0xEF, 0xBF, 0xBD]

/-- The conversion `[]byte(string(out))` of a rune sequence. -/
def encodeRunes (out : List Rune) : List Nat := out.flatMap encodeRune

/-- The method `Filter` with the function it calls for the folding left open. -/
def FilterVia (callee : List Rune → Nat → RuneSlice → Nat → Nat → Option RuneSlice)
    (input : List Nat) : Option (List Nat) :=
  if input.length = 0 then some input
  else
    match callee (decodeRunes input) 0
        (make (decodeRunes input).length ((decodeRunes input).length * 4)) 0
        (decodeRunes input).length with
    | none => none
    | some out => some (encodeRunes out.toList)

/-- The method `AsciiFoldingFilter.Filter`. -/
def Filter (input : List Nat) : Option (List Nat) := FilterVia foldToASCII input

/-- The folding as `Filter` runs it on the decoded input: `foldToASCII` from
position 0 into a fresh slice of length `len(in)` and capacity `4 * len(in)`,
read back as the list of the elements of the result. -/
def fold (inp : List Rune) : Option (List Rune) :=
  (foldToASCII inp 0 (make inp.length (inp.length * 4)) 0 inp.length).map RuneSlice.toList

/-- The check run over every case clause: the reslice adds one less than the
number of writes, a body writes between one and four characters, each of them
a printable ASCII character, and every label is at or above U+0080. -/
def clauseOk (cl : CaseClause) : Bool :=
  cl.grow + 1 == cl.writes.length && decide (cl.writes.length ≤ 4)
    && cl.writes.all (fun w => decide (0x21 ≤ w) && decide (w ≤ 0x7E))
    && cl.labels.all (fun l => decide (0x80 ≤ l))


/-- The union of the ranges U+00AB..U+02AF, U+1D00..U+1EFF, U+2010..U+2094,
U+2184, U+2460..U+24FF, U+275B..U+2793, U+2C60..U+2C7C, U+2E28..U+2E29,
U+A728..U+A7FF, U+FB00..U+FB06 and U+FF01..U+FF5E. -/
def inCoveredRange (c : Int) : Bool :=
  (decide (0x00AB ≤ c) && decide (c ≤ 0x02AF))
    || (decide (0x1D00 ≤ c) && decide (c ≤ 0x1EFF))
    || (decide (0x2010 ≤ c) && decide (c ≤ 0x2094))
    || decide (c = 0x2184)
    || (decide (0x2460 ≤ c) && decide (c ≤ 0x24FF))
    || (decide (0x275B ≤ c) && decide (c ≤ 0x2793))
    || (decide (0x2C60 ≤ c) && decide (c ≤ 0x2C7C))
    || (decide (0x2E28 ≤ c) && decide (c ≤ 0x2E29))
    || (decide (0xA728 ≤ c) && decide (c ≤ 0xA7FF))
    || (decide (0xFB00 ≤ c) && decide (c ≤ 0xFB06))
    || (decide (0xFF01 ≤ c) && decide (c ≤ 0xFF5E))

/-- The same union of ranges on natural numbers. -/
def coveredNat (n : Nat) : Bool :=
  (decide (0x00AB ≤ n) && decide (n ≤ 0x02AF))
    || (decide (0x1D00 ≤ n) && decide (n ≤ 0x1EFF))
    || (decide (0x2010 ≤ n) && decide (n ≤ 0x2094))
    || decide (n = 0x2184)
    || (decide (0x2460 ≤ n) && decide (n ≤ 0x24FF))
    || (decide (0x275B ≤ n) && decide (n ≤ 0x2793))
    || (decide (0x2C60 ≤ n) && decide (n ≤ 0x2C7C))
    || (decide (0x2E28 ≤ n) && decide (n ≤ 0x2E29))
    || (decide (0xA728 ≤ n) && decide (n ≤ 0xA7FF))
    || (decide (0xFB00 ≤ n) && decide (n ≤ 0xFB06))
    || (decide (0xFF01 ≤ n) && decide (n ≤ 0xFF5E))

/-- The check run over every label of the switch: it is not negative and lies
in the union of ranges. -/
def labelCovered : Rune → Bool
  | Int.ofNat n => coveredNat n
  | Int.negSucc _ => false

/-- Unicode scalar value: a code point up to U+10FFFF that is not a surrogate. -/
def isScalar (c : Int) : Bool :=
  decide (0 ≤ c) && decide (c ≤ 0x10FFFF) && !(decide (0xD800 ≤ c) && decide (c ≤ 0xDFFF))

/-- The labels of the switch that satisfy `p`, each with the characters its
clause writes, in source order. -/
def casesWhere (p : Rune → Bool) : List (Rune × List Rune) :=
  foldCases.flatMap (fun cl => (cl.labels.filter p).map (fun l => (l, cl.writes)))

/-- The fullwidth block U+FF01..U+FF5E. -/
def inFullwidth : Rune → Bool
  | Int.ofNat n => decide (0xFF01 ≤ n) && decide (n ≤ 0xFF5E)
  | Int.negSucc _ => false

/-- The labels of the switch in U+FF01..U+FF5E with the characters written for
them, in source order. -/
def fullwidthCases : List (Rune × List Rune) := [
  (0xFF21, [0x41]), (0xFF41, [0x61]), (0xFF22, [0x42]), (0xFF42, [0x62]), (0xFF23, [0x43]),
  (0xFF43, [0x63]), (0xFF24, [0x44]), (0xFF44, [0x64]), (0xFF25, [0x45]), (0xFF45, [0x65]),
  (0xFF26, [0x46]), (0xFF46, [0x66]), (0xFF27, [0x47]), (0xFF47, [0x67]), (0xFF28, [0x48]),
  (0xFF48, [0x68]), (0xFF29, [0x49]), (0xFF49, [0x69]), (0xFF2A, [0x4A]), (0xFF4A, [0x6A]),
  (0xFF2B, [0x4B]), (0xFF4B, [0x6B]), (0xFF2C, [0x4C]), (0xFF4C, [0x6C]), (0xFF2D, [0x4D]),
  (0xFF4D, [0x6D]), (0xFF2E, [0x4E]), (0xFF4E, [0x6E]), (0xFF2F, [0x4F]), (0xFF4F, [0x6F]),
  (0xFF30, [0x50]), (0xFF50, [0x70]), (0xFF31, [0x51]), (0xFF51, [0x71]), (0xFF32, [0x52]),
  (0xFF52, [0x72]), (0xFF33, [0x53]), (0xFF53, [0x73]), (0xFF34, [0x54]), (0xFF54, [0x74]),
  (0xFF35, [0x55]), (0xFF55, [0x75]), (0xFF36, [0x56]), (0xFF56, [0x76]), (0xFF37, [0x57]),
  (0xFF57, [0x77]), (0xFF38, [0x58]), (0xFF58, [0x78]), (0xFF39, [0x59]), (0xFF59, [0x79]),
  (0xFF3A, [0x5A]), (0xFF5A, [0x7A]), (0xFF10, [0x30]), (0xFF11, [0x31]), (0xFF12, [0x32]),
  (0xFF13, [0x33]), (0xFF14, [0x34]), (0xFF15, [0x35]), (0xFF16, [0x36]), (0xFF17, [0x37]),
  (0xFF18, [0x38]), (0xFF19, [0x39]), (0xFF02, [0x22]), (0xFF07, [0x27]), (0xFF0D, [0x2D]),
  (0xFF3B, [0x5B]), (0xFF3D, [0x5D]), (0xFF08, [0x28]), (0xFF09, [0x29]), (0xFF1C, [0x3C]),
  (0xFF1E, [0x3E]), (0xFF5B, [0x7B]), (0xFF5D, [0x7D]), (0xFF0B, [0x2B]), (0xFF1D, [0x3D]),
  (0xFF01, [0x21]), (0xFF03, [0x23]), (0xFF04, [0x24]), (0xFF05, [0x25]), (0xFF06, [0x26]),
  (0xFF0A, [0x2A]), (0xFF0C, [0x2C]), (0xFF0E, [0x2E]), (0xFF0F, [0x2F]), (0xFF1A, [0x3A]),
  (0xFF1B, [0x3B]), (0xFF1F, [0x3F]), (0xFF20, [0x40]), (0xFF3C, [0x5C]), (0xFF3E, [0x5E]),
  (0xFF3F, [0x5F]), (0xFF5E, [0x7E])
]

/-- The check run over `i < 94`: the code point U+FF01 + i is U+FF40 or U+FF5C,
or it is a label listed in `fullwidthCases`. -/
def fullwidthListed (i : Nat) : Bool :=
  i == 0x3F || i == 0x5B
    || fullwidthCases.any (fun q => match q.1 with
        | Int.ofNat n => n == 0xFF01 + i
        | Int.negSucc _ => false)

/-- The check run over the entries of `fullwidthCases`: the label is neither
U+FF40 nor U+FF5C, and the one character written is the label minus 0xFEE0. -/
def fullwidthEntryOk (q : Rune × List Rune) : Bool :=
  match q.1 with
  | Int.ofNat n => n != 0xFF40 && n != 0xFF5C && decide (0xFEE0 ≤ n)
      && q.2 == [Int.ofNat (n - 0xFEE0)]
  | Int.negSucc _ => false

/-- The receiver type `AsciiFoldingFilter struct{}`: a struct without fields.
The package declares no variable, so the receiver is all the state a call of
`Filter` could read or leave behind. -/
structure AsciiFoldingFilter where
deriving DecidableEq

/-- A call `s.Filter(input)` with the receiver threaded through: the result and
the receiver after the call. -/
def AsciiFoldingFilter.call (s : AsciiFoldingFilter) (input : List Nat) :
    Option (List Nat) × AsciiFoldingFilter :=
  (Filter input, s)

/-- The receiver after a sequence of calls of `Filter` on it. -/
def AsciiFoldingFilter.calls (s : AsciiFoldingFilter) : List (List Nat) → AsciiFoldingFilter
  | [] => s
  | b :: bs => AsciiFoldingFilter.calls (s.call b).2 bs

/-- The state at the start of one iteration of the loop of `foldToASCII`: the
input position, `len(output)` and the write cursor. -/
structure IterStart where
  pos : Nat
  outLen : Nat
  outputPos : Nat
deriving DecidableEq

/-- The loop `for pos := inputPos; pos < end; pos++` of `foldToASCII` run as the
source writes it, the condition tested before each iteration, with `fuel`
bounding the number of tests (`none` when it runs out). The result lists the
state at the start of every iteration entered, in order, and ends in the
returned slice with the final cursor, or in `none` when an index or a reslice
fails in the last iteration listed. -/
def foldWhile (input : List Rune) (endPos : Nat) :
    Nat → Nat → RuneSlice → Nat → Option (List IterStart × Option (RuneSlice × Nat))
  | 0, _, _, _ => none
  | fuel + 1, pos, output, outputPos =>
    if pos < endPos then
      match input[pos]? with
      | none => some ([IterStart.mk pos output.len outputPos], none)
      | some c =>
        match foldStep c output outputPos with
        | none => some ([IterStart.mk pos output.len outputPos], none)
        | some (output1, outputPos1) =>
          match foldWhile input endPos fuel (pos + 1) output1 outputPos1 with
          | none => none
          | some (starts, last) => some (IterStart.mk pos output.len outputPos :: starts, last)
    else some ([], some (output, outputPos))

/-- The slice `out` that `Filter` allocates for a non-empty input:
`make([]rune, length, length*4)` with `length` the number of decoded runes. -/
def FilterOut (input : List Nat) : RuneSlice :=
  make (decodeRunes input).length ((decodeRunes input).length * 4)

/-- The code points from `lo` to `hi`. -/
def inNatRange (lo hi : Nat) : Rune → Bool
  | Int.ofNat n => decide (lo ≤ n) && decide (n ≤ hi)
  | Int.negSucc _ => false

/-- The check that an entry of a list of labels is the label `n`. -/
def labelIs (n : Nat) (q : Rune × List Rune) : Bool :=
  match q.1 with
  | Int.ofNat k => k == n
  | Int.negSucc _ => false

/-- The check that the code point `lo + i` is a label listed in `l`. -/
def listedFrom (l : List (Rune × List Rune)) (lo i : Nat) : Bool :=
  l.any (labelIs (lo + i))

/-- The check run over the entries of a list of labels: every label is not
negative and `ok` holds of it and of the characters written for it. -/
def entriesOk (ok : Nat → List Rune → Bool) (l : List (Rune × List Rune)) : Bool :=
  l.all (fun q => match q.1 with
    | Int.ofNat k => ok k q.2
    | Int.negSucc _ => false)

/-- The decimal digits of a number below 100, as ASCII characters. -/
def decimalDigits (n : Nat) : List Rune :=
  if n < 10 then [Int.ofNat (0x30 + n)]
  else [Int.ofNat (0x30 + n / 10), Int.ofNat (0x30 + n % 10)]

/-- The characters expected for the code point `n` of U+2460..U+24E9: the
numeral for a circled number, the numeral in parentheses for a parenthesized
number, the numeral and a full stop for a number with full stop (each for
1..20), the letter in parentheses for a parenthesized small letter, the letter
for a circled capital or small letter. -/
def enclosedExpected (n : Nat) : List Rune :=
  if n ≤ 0x2473 then decimalDigits (n - 0x245F)
  else if n ≤ 0x2487 then 0x28 :: decimalDigits (n - 0x2473) ++ [0x29]
  else if n ≤ 0x249B then decimalDigits (n - 0x2487) ++ [0x2E]
  else if n ≤ 0x24B5 then [0x28, Int.ofNat (0x61 + (n - 0x249C)), 0x29]
  else if n ≤ 0x24CF then [Int.ofNat (0x41 + (n - 0x24B6))]
  else [Int.ofNat (0x61 + (n - 0x24D0))]

/-- The check of an entry of U+2460..U+24E9 against the expected characters. -/
def enclosedEntryOk (n : Nat) (ws : List Rune) : Bool := ws == enclosedExpected n

/-- ASCII letter `A`..`Z` or `a`..`z`. -/
def isAsciiLetter : Rune → Bool
  | Int.ofNat k => (decide (0x41 ≤ k) && decide (k ≤ 0x5A)) || (decide (0x61 ≤ k) && decide (k ≤ 0x7A))
  | Int.negSucc _ => false

/-- The check of an entry of U+00C0..U+00FF: the label is neither U+00D7 nor
U+00F7 and one or two ASCII letters are written for it. -/
def latin1EntryOk (n : Nat) (ws : List Rune) : Bool :=
  n != 0xD7 && n != 0xF7 && (ws.length == 1 || ws.length == 2) && ws.all isAsciiLetter

/-- The labels of the switch in U+2460..U+24E9 with the characters written for
them, in source order. -/
def enclosedCases : List (Rune × List Rune) := [
  (0x24B6, [0x41]), (0x24D0, [0x61]), (0x249C, [0x28, 0x61, 0x29]), (0x24B7, [0x42]),
  (0x24D1, [0x62]), (0x249D, [0x28, 0x62, 0x29]), (0x24B8, [0x43]), (0x24D2, [0x63]),
  (0x249E, [0x28, 0x63, 0x29]), (0x24B9, [0x44]), (0x24D3, [0x64]),
  (0x249F, [0x28, 0x64, 0x29]), (0x24BA, [0x45]), (0x24D4, [0x65]),
  (0x24A0, [0x28, 0x65, 0x29]), (0x24BB, [0x46]), (0x24D5, [0x66]),
  (0x24A1, [0x28, 0x66, 0x29]), (0x24BC, [0x47]), (0x24D6, [0x67]),
  (0x24A2, [0x28, 0x67, 0x29]), (0x24BD, [0x48]), (0x24D7, [0x68]),
  (0x24A3, [0x28, 0x68, 0x29]), (0x24BE, [0x49]), (0x24D8, [0x69]),
  (0x24A4, [0x28, 0x69, 0x29]), (0x24BF, [0x4A]), (0x24D9, [0x6A]),
  (0x24A5, [0x28, 0x6A, 0x29]), (0x24C0, [0x4B]), (0x24DA, [0x6B]),
  (0x24A6, [0x28, 0x6B, 0x29]), (0x24C1, [0x4C]), (0x24DB, [0x6C]),
  (0x24A7, [0x28, 0x6C, 0x29]), (0x24C2, [0x4D]), (0x24DC, [0x6D]),
  (0x24A8, [0x28, 0x6D, 0x29]), (0x24C3, [0x4E]), (0x24DD, [0x6E]),
  (0x24A9, [0x28, 0x6E, 0x29]), (0x24C4, [0x4F]), (0x24DE, [0x6F]),
  (0x24AA, [0x28, 0x6F, 0x29]), (0x24C5, [0x50]), (0x24DF, [0x70]),
  (0x24AB, [0x28, 0x70, 0x29]), (0x24C6, [0x51]), (0x24E0, [0x71]),
  (0x24AC, [0x28, 0x71, 0x29]), (0x24C7, [0x52]), (0x24E1, [0x72]),
  (0x24AD, [0x28, 0x72, 0x29]), (0x24C8, [0x53]), (0x24E2, [0x73]),
  (0x24AE, [0x28, 0x73, 0x29]), (0x24C9, [0x54]), (0x24E3, [0x74]),
  (0x24AF, [0x28, 0x74, 0x29]), (0x24CA, [0x55]), (0x24E4, [0x75]),
  (0x24B0, [0x28, 0x75, 0x29]), (0x24CB, [0x56]), (0x24E5, [0x76]),
  (0x24B1, [0x28, 0x76, 0x29]), (0x24CC, [0x57]), (0x24E6, [0x77]),
  (0x24B2, [0x28, 0x77, 0x29]), (0x24CD, [0x58]), (0x24E7, [0x78]),
  (0x24B3, [0x28, 0x78, 0x29]), (0x24CE, [0x59]), (0x24E8, [0x79]),
  (0x24B4, [0x28, 0x79, 0x29]), (0x24CF, [0x5A]), (0x24E9, [0x7A]),
  (0x24B5, [0x28, 0x7A, 0x29]), (0x2460, [0x31]), (0x2488, [0x31, 0x2E]),
  (0x2474, [0x28, 0x31, 0x29]), (0x2461, [0x32]), (0x2489, [0x32, 0x2E]),
  (0x2475, [0x28, 0x32, 0x29]), (0x2462, [0x33]), (0x248A, [0x33, 0x2E]),
  (0x2476, [0x28, 0x33, 0x29]), (0x2463, [0x34]), (0x248B, [0x34, 0x2E]),
  (0x2477, [0x28, 0x34, 0x29]), (0x2464, [0x35]), (0x248C, [0x35, 0x2E]),
  (0x2478, [0x28, 0x35, 0x29]), (0x2465, [0x36]), (0x248D, [0x36, 0x2E]),
  (0x2479, [0x28, 0x36, 0x29]), (0x2466, [0x37]), (0x248E, [0x37, 0x2E]),
  (0x247A, [0x28, 0x37, 0x29]), (0x2467, [0x38]), (0x248F, [0x38, 0x2E]),
  (0x247B, [0x28, 0x38, 0x29]), (0x2468, [0x39]), (0x2490, [0x39, 0x2E]),
  (0x247C, [0x28, 0x39, 0x29]), (0x2469, [0x31, 0x30]), (0x2491, [0x31, 0x30, 0x2E]),
  (0x247D, [0x28, 0x31, 0x30, 0x29]), (0x246A, [0x31, 0x31]), (0x2492, [0x31, 0x31, 0x2E]),
  (0x247E, [0x28, 0x31, 0x31, 0x29]), (0x246B, [0x31, 0x32]), (0x2493, [0x31, 0x32, 0x2E]),
  (0x247F, [0x28, 0x31, 0x32, 0x29]), (0x246C, [0x31, 0x33]), (0x2494, [0x31, 0x33, 0x2E]),
  (0x2480, [0x28, 0x31, 0x33, 0x29]), (0x246D, [0x31, 0x34]), (0x2495, [0x31, 0x34, 0x2E]),
  (0x2481, [0x28, 0x31, 0x34, 0x29]), (0x246E, [0x31, 0x35]), (0x2496, [0x31, 0x35, 0x2E]),
  (0x2482, [0x28, 0x31, 0x35, 0x29]), (0x246F, [0x31, 0x36]), (0x2497, [0x31, 0x36, 0x2E]),
  (0x2483, [0x28, 0x31, 0x36, 0x29]), (0x2470, [0x31, 0x37]), (0x2498, [0x31, 0x37, 0x2E]),
  (0x2484, [0x28, 0x31, 0x37, 0x29]), (0x2471, [0x31, 0x38]), (0x2499, [0x31, 0x38, 0x2E]),
  (0x2485, [0x28, 0x31, 0x38, 0x29]), (0x2472, [0x31, 0x39]), (0x249A, [0x31, 0x39, 0x2E]),
  (0x2486, [0x28, 0x31, 0x39, 0x29]), (0x2473, [0x32, 0x30]), (0x249B, [0x32, 0x30, 0x2E]),
  (0x2487, [0x28, 0x32, 0x30, 0x29])
]

/-- The labels of the switch in U+00C0..U+00FF with the characters written for
them, in source order. -/
def latin1Cases : List (Rune × List Rune) := [
  (0x00C0, [0x41]), (0x00C1, [0x41]), (0x00C2, [0x41]), (0x00C3, [0x41]), (0x00C4, [0x41]),
  (0x00C5, [0x41]), (0x00E0, [0x61]), (0x00E1, [0x61]), (0x00E2, [0x61]), (0x00E3, [0x61]),
  (0x00E4, [0x61]), (0x00E5, [0x61]), (0x00C6, [0x41, 0x45]), (0x00E6, [0x61, 0x65]),
  (0x00C7, [0x43]), (0x00E7, [0x63]), (0x00D0, [0x44]), (0x00F0, [0x64]), (0x00C8, [0x45]),
  (0x00C9, [0x45]), (0x00CA, [0x45]), (0x00CB, [0x45]), (0x00E8, [0x65]), (0x00E9, [0x65]),
  (0x00EA, [0x65]), (0x00EB, [0x65]), (0x00CC, [0x49]), (0x00CD, [0x49]), (0x00CE, [0x49]),
  (0x00CF, [0x49]), (0x00EC, [0x69]), (0x00ED, [0x69]), (0x00EE, [0x69]), (0x00EF, [0x69]),
  (0x00D1, [0x4E]), (0x00F1, [0x6E]), (0x00D2, [0x4F]), (0x00D3, [0x4F]), (0x00D4, [0x4F]),
  (0x00D5, [0x4F]), (0x00D6, [0x4F]), (0x00D8, [0x4F]), (0x00F2, [0x6F]), (0x00F3, [0x6F]),
  (0x00F4, [0x6F]), (0x00F5, [0x6F]), (0x00F6, [0x6F]), (0x00F8, [0x6F]),
  (0x00DF, [0x73, 0x73]), (0x00DE, [0x54, 0x48]), (0x00FE, [0x74, 0x68]), (0x00D9, [0x55]),
  (0x00DA, [0x55]), (0x00DB, [0x55]), (0x00DC, [0x55]), (0x00F9, [0x75]), (0x00FA, [0x75]),
  (0x00FB, [0x75]), (0x00FC, [0x75]), (0x00DD, [0x59]), (0x00FD, [0x79]), (0x00FF, [0x79])
]

/-- The check run over `i < 64`: the code point U+00C0 + i is U+00D7 or U+00F7,
or it is a label listed in `latin1Cases`. -/
def latin1Listed (i : Nat) : Bool :=
  i == 0x17 || i == 0x37 || listedFrom latin1Cases 0xC0 i

/-- Whitespace or control character of ASCII: a code point up to U+0020, or
U+007F. -/
def isSpaceOrControl (c : Rune) : Bool := decide (c ≤ 0x20) || decide (c = 0x7F)

/-- The number of bytes of the UTF-8 encoding of the scalar value `n`. -/
def utf8Size (n : Nat) : Nat :=
  if n < 0x80 then 1 else if n < 0x800 then 2 else if n < 0x10000 then 3 else 4

/-- The check run over every case clause: for each label the number of
characters written is at most the UTF-8 size of the label, or the label is one
of U+247D..U+2487. -/
def clauseSizeOk (cl : CaseClause) : Bool :=
  cl.labels.all (fun l => match l with
    | Int.ofNat n => decide (cl.writes.length ≤ utf8Size n)
        || (decide (0x247D ≤ n) && decide (n ≤ 0x2487))
    | Int.negSucc _ => false)

/-! Properties of the case table -/

theorem foldCases_ok : foldCases.all clauseOk = true := by decide

theorem clauseOk_of_mem {cl : CaseClause} (h : cl ∈ foldCases) : clauseOk cl = true :=
  List.all_eq_true.mp foldCases_ok cl h

theorem selectCase_mem {cases : List CaseClause} {c : Rune} {cl : CaseClause}
    (h : selectCase cases c = some cl) : cl ∈ cases ∧ c ∈ cl.labels := by
  unfold selectCase at h
  refine ⟨List.mem_of_find?_eq_some h, ?_⟩
  have hp := List.find?_some h
  simpa using hp

theorem clause_grow {cl : CaseClause} (h : clauseOk cl = true) :
    cl.grow + 1 = cl.writes.length := by
  simp [clauseOk] at h
  exact h.1.1.1

theorem clause_len_le {cl : CaseClause} (h : clauseOk cl = true) : cl.writes.length ≤ 4 := by
  simp [clauseOk] at h
  exact h.1.1.2

theorem clause_printable {cl : CaseClause} (h : clauseOk cl = true) {w : Rune}
    (hw : w ∈ cl.writes) : 0x21 ≤ w ∧ w ≤ 0x7E := by
  simp [clauseOk] at h
  exact h.1.2 w hw

/-! Length of the characters written for one code point -/

theorem foldRune_of_lt {c : Rune} (h : c < 0x80) : foldRune c = [c] := by
  simp [foldRune, h]

theorem foldRune_length_pos (c : Rune) : 1 ≤ (foldRune c).length := by
  unfold foldRune
  split
  · simp
  · split
    · rename_i cl hsel
      have := clause_grow (clauseOk_of_mem (selectCase_mem hsel).1)
      omega
    · simp

theorem foldRune_length_le (c : Rune) : (foldRune c).length ≤ 4 := by
  unfold foldRune
  split
  · simp
  · split
    · rename_i cl hsel
      exact clause_len_le (clauseOk_of_mem (selectCase_mem hsel).1)
    · simp

theorem flatMap_foldRune_length_ge (l : List Rune) : l.length ≤ (l.flatMap foldRune).length := by
  induction l with
  | nil => simp
  | cons c t ih =>
    have := foldRune_length_pos c
    simp only [List.flatMap_cons, List.length_append, List.length_cons]
    omega

theorem flatMap_foldRune_length_le (l : List Rune) :
    (l.flatMap foldRune).length ≤ 4 * l.length := by
  induction l with
  | nil => simp
  | cons c t ih =>
    have := foldRune_length_le c
    simp only [List.flatMap_cons, List.length_append, List.length_cons]
    omega

/-! The writes of one iteration -/

theorem writeRunes_append (ws : List Rune) :
    ∀ (pre mid post : List Rune) (len : Nat), mid.length = ws.length →
      pre.length + ws.length ≤ len →
      writeRunes ws ⟨pre ++ mid ++ post, len⟩ pre.length
        = some (⟨pre ++ ws ++ post, len⟩, pre.length + ws.length) := by
  induction ws with
  | nil =>
    intro pre mid post len hmid _
    have : mid = [] := List.length_eq_zero.mp (by simpa using hmid)
    subst this
    simp [writeRunes]
  | cons w ws ih =>
    intro pre mid post len hmid hlen
    cases mid with
    | nil => simp at hmid
    | cons m mid =>
      simp only [List.length_cons] at hmid hlen
      have hlt : pre.length < len := by omega
      have hset : (pre ++ m :: mid ++ post).set pre.length w = (pre ++ [w]) ++ mid ++ post := by
        simp
      have hrec := ih (pre ++ [w]) mid post len (by omega)
        (by simp only [List.length_append, List.length_cons, List.length_nil]; omega)
      simp only [writeRunes, RuneSlice.setIdx, hlt, if_true, hset]
      simp only [List.length_append, List.length_cons, List.length_nil] at hrec
      rw [hrec]
      simp [Nat.add_assoc, Nat.add_comm 1]

theorem runClause_append (cl : CaseClause) (hok : clauseOk cl = true)
    (pre mid post : List Rune) (len : Nat) (hmid : mid.length = cl.writes.length)
    (hlen : pre.length < len) (hcap : len + cl.grow ≤ (pre ++ mid ++ post).length) :
    runClause cl ⟨pre ++ mid ++ post, len⟩ pre.length
      = some (⟨pre ++ cl.writes ++ post, len + cl.grow⟩, pre.length + cl.writes.length) := by
  have hg := clause_grow hok
  unfold runClause
  by_cases h0 : cl.grow = 0
  · simp only [h0, if_true, Nat.add_zero]
    exact writeRunes_append cl.writes pre mid post len hmid (by omega)
  · simp only [h0, if_false, RuneSlice.resliceTo, RuneSlice.cap, hcap, if_true]
    exact writeRunes_append cl.writes pre mid post (len + cl.grow) hmid (by omega)

theorem foldStep_append (c : Rune) (pre mid post : List Rune) (len : Nat)
    (hmid : mid.length = (foldRune c).length) (hlen : pre.length < len)
    (hcap : len + (foldRune c).length ≤ (pre ++ mid ++ post).length + 1) :
    foldStep c ⟨pre ++ mid ++ post, len⟩ pre.length
      = some (⟨pre ++ foldRune c ++ post, len + (foldRune c).length - 1⟩,
          pre.length + (foldRune c).length) := by
  unfold foldStep foldStepWith
  unfold foldRune at hmid hcap ⊢
  by_cases hc : c < 0x80
  · simp only [hc, if_true] at hmid hcap ⊢
    have := writeRunes_append [c] pre mid post len hmid (by simpa using hlen)
    simpa using this
  · simp only [hc, if_false] at hmid hcap ⊢
    cases hsel : selectCase foldCases c with
    | none =>
      simp only [hsel] at hmid hcap ⊢
      have := writeRunes_append [c] pre mid post len hmid (by simpa using hlen)
      simpa using this
    | some cl =>
      simp only [hsel] at hmid hcap ⊢
      have hok := clauseOk_of_mem (selectCase_mem hsel).1
      have hg := clause_grow hok
      have := runClause_append cl hok pre mid post len hmid hlen (by omega)
      rw [this]
      have : len + cl.grow = len + cl.writes.length - 1 := by omega
      rw [this]


/-! The loop -/

theorem foldLoop_append (input : List Rune) :
    ∀ (n pos : Nat) (pre mid post : List Rune), pos + n ≤ input.length →
      mid.length = (((input.drop pos).take n).flatMap foldRune).length →
      foldLoop input n pos ⟨pre ++ mid ++ post, pre.length + n⟩ pre.length
        = some ⟨pre ++ ((input.drop pos).take n).flatMap foldRune ++ post,
            pre.length + (((input.drop pos).take n).flatMap foldRune).length⟩ := by
  intro n
  induction n with
  | zero =>
    intro pos pre mid post _ hmid
    have : mid = [] := List.length_eq_zero.mp (by simpa using hmid)
    subst this
    simp [foldLoop]
  | succ n ih =>
    intro pos pre mid post hpos hmid
    have hlt : pos < input.length := by omega
    have hdrop : (input.drop pos).take (n + 1) = input[pos] :: (input.drop (pos + 1)).take n := by
      rw [List.drop_eq_getElem_cons hlt, List.take_succ_cons]
    rw [hdrop, List.flatMap_cons] at hmid ⊢
    rw [List.length_append] at hmid
    have hge := flatMap_foldRune_length_ge ((input.drop (pos + 1)).take n)
    have htk : ((input.drop (pos + 1)).take n).length = n := by
      rw [List.length_take, List.length_drop]; omega
    have hk := foldRune_length_pos input[pos]
    -- split the cells about to be written into those of this iteration and the rest
    have hsplit : mid = mid.take (foldRune input[pos]).length
        ++ mid.drop (foldRune input[pos]).length := (List.take_append_drop _ _).symm
    have hm1 : (mid.take (foldRune input[pos]).length).length = (foldRune input[pos]).length := by
      rw [List.length_take]; omega
    have hm2 : (mid.drop (foldRune input[pos]).length).length
        = (((input.drop (pos + 1)).take n).flatMap foldRune).length := by
      rw [List.length_drop]; omega
    have hstep := foldStep_append input[pos] pre (mid.take (foldRune input[pos]).length)
      (mid.drop (foldRune input[pos]).length ++ post) (pre.length + (n + 1)) hm1 (by omega)
      (by simp only [List.length_append, hm1, hm2]; omega)
    have harr : pre ++ mid ++ post = pre ++ mid.take (foldRune input[pos]).length
        ++ (mid.drop (foldRune input[pos]).length ++ post) := by
      rw [List.append_assoc pre (List.take _ mid), ← List.append_assoc (List.take _ mid),
        List.take_append_drop, List.append_assoc]
    have hrec := ih (pos + 1) (pre ++ foldRune input[pos])
      (mid.drop (foldRune input[pos]).length) post (by omega) hm2
    simp only [foldLoop, List.getElem?_eq_getElem hlt]
    rw [harr, hstep]
    simp only
    have hlen : pre.length + (n + 1) + (foldRune input[pos]).length - 1
        = (pre ++ foldRune input[pos]).length + n := by
      rw [List.length_append]; omega
    have hpos2 : pre.length + (foldRune input[pos]).length
        = (pre ++ foldRune input[pos]).length := by
      rw [List.length_append]
    rw [hlen, hpos2, ← List.append_assoc, hrec]
    simp only [List.length_append, List.append_assoc, Nat.add_assoc]

/-- The result of `foldToASCII` from the start of `input` into a slice whose
length is `len(input)` and whose capacity holds every character written. -/
theorem foldToASCII_from_start (input : List Rune) (out : RuneSlice)
    (hlen : out.len = input.length)
    (hcap : (input.flatMap foldRune).length ≤ out.cap) :
    foldToASCII input 0 out 0 input.length
      = some ⟨input.flatMap foldRune ++ out.arr.drop (input.flatMap foldRune).length,
          (input.flatMap foldRune).length⟩ := by
  have h := foldLoop_append input input.length 0 []
    (out.arr.take (input.flatMap foldRune).length)
    (out.arr.drop (input.flatMap foldRune).length) (by simp)
    (by
      rw [List.length_take]
      simp only [List.drop_zero, List.take_length]
      exact Nat.min_eq_left hcap)
  simp only [List.nil_append, List.take_append_drop, List.length_nil, Nat.zero_add,
    List.drop_zero, List.take_length] at h
  unfold foldToASCII
  cases out with
  | mk arr len =>
    simp only at hlen h ⊢
    rw [hlen]
    exact h

theorem fold_eq (inp : List Rune) : fold inp = some (inp.flatMap foldRune) := by
  have hcap : (inp.flatMap foldRune).length ≤ (make inp.length (inp.length * 4)).cap := by
    have := flatMap_foldRune_length_le inp
    simp only [make, RuneSlice.cap, List.length_replicate]
    omega
  unfold fold
  rw [foldToASCII_from_start inp _ rfl hcap]
  simp [RuneSlice.toList]


/-! Folding twice, and the size of the output -/

theorem foldRune_ascii_fixed {ws : List Rune} (h : ∀ w ∈ ws, w < 0x80) :
    ws.flatMap foldRune = ws := by
  induction ws with
  | nil => rfl
  | cons w t ih =>
    rw [List.flatMap_cons, foldRune_of_lt (h w (List.mem_cons_self w t)),
      ih (fun x hx => h x (List.mem_cons_of_mem w hx))]
    rfl

theorem foldRune_foldRune (c : Rune) : (foldRune c).flatMap foldRune = foldRune c := by
  by_cases hc : c < 0x80
  · rw [foldRune_of_lt hc]
    simp [foldRune_of_lt hc]
  · cases hsel : selectCase foldCases c with
    | none =>
      have h1 : foldRune c = [c] := by simp [foldRune, hc, hsel]
      rw [h1]
      simp [h1]
    | some cl =>
      have h1 : foldRune c = cl.writes := by simp [foldRune, hc, hsel]
      rw [h1]
      apply foldRune_ascii_fixed
      intro w hw
      have := clause_printable (clauseOk_of_mem (selectCase_mem hsel).1) hw
      exact lt_of_le_of_lt this.2 (by decide)

theorem encodeRune_length_le (r : Rune) : (encodeRune r).length ≤ 4 := by
  unfold encodeRune
  split_ifs <;> simp

theorem encodeRunes_ascii_length {ws : List Rune} (h : ∀ w ∈ ws, 0 ≤ w ∧ w < 0x80) :
    (encodeRunes ws).length = ws.length := by
  induction ws with
  | nil => rfl
  | cons w t ih =>
    have hw := h w (List.mem_cons_self w t)
    have h1 : encodeRune w = [w.toNat] := by
      have hn : ¬ w < 0 := not_lt.mpr hw.1
      simp [encodeRune, hn, hw.2]
    have ht := ih (fun x hx => h x (List.mem_cons_of_mem w hx))
    unfold encodeRunes at ht ⊢
    rw [List.flatMap_cons, List.length_append, ht, h1]
    simp [Nat.add_comm]

theorem encode_foldRune_length_le (c : Rune) : (encodeRunes (foldRune c)).length ≤ 4 := by
  by_cases hc : c < 0x80
  · rw [foldRune_of_lt hc]
    simpa [encodeRunes] using encodeRune_length_le c
  · cases hsel : selectCase foldCases c with
    | none =>
      have h1 : foldRune c = [c] := by simp [foldRune, hc, hsel]
      rw [h1]
      simpa [encodeRunes] using encodeRune_length_le c
    | some cl =>
      have h1 : foldRune c = cl.writes := by simp [foldRune, hc, hsel]
      have hok := clauseOk_of_mem (selectCase_mem hsel).1
      rw [h1, encodeRunes_ascii_length]
      · exact clause_len_le hok
      · intro w hw
        have := clause_printable hok hw
        exact ⟨le_trans (by decide) this.1, lt_of_le_of_lt this.2 (by decide)⟩

theorem encode_fold_length_le (l : List Rune) :
    (encodeRunes (l.flatMap foldRune)).length ≤ 4 * l.length := by
  induction l with
  | nil => simp [encodeRunes]
  | cons c t ih =>
    have hc := encode_foldRune_length_le c
    unfold encodeRunes at ih hc ⊢
    rw [List.flatMap_cons, List.flatMap_append, List.length_append, List.length_cons]
    omega

/-! The claims -/

/-- C1: for every rune sequence and every initial content of an output slice of
length `len(in)` and capacity `4 * len(in)`, `foldToASCII(in, 0, out, 0, len(in))`
returns the slice whose elements are the concatenation, in input order, of the
characters `foldRune c` one iteration writes for each code point `c`. -/
theorem foldToASCII_concat (inp : List Rune) (out : RuneSlice)
    (hlen : out.len = inp.length) (hcap : out.cap = 4 * inp.length) :
    ∃ r, foldToASCII inp 0 out 0 inp.length = some r
      ∧ r.toList = inp.flatMap foldRune ∧ r.len = (inp.flatMap foldRune).length := by
  have hle : (inp.flatMap foldRune).length ≤ out.cap := by
    rw [hcap]; exact flatMap_foldRune_length_le inp
  refine ⟨_, foldToASCII_from_start inp out hlen hle, ?_, rfl⟩
  simp [RuneSlice.toList]

/-- The result above on three code points and a slice filled with sevens. -/
theorem foldToASCII_concat_witness :
    (RuneSlice.mk (List.replicate 12 7) 3).len = [(0x63 : Rune), 0xC6, 0x247D].length
      ∧ (RuneSlice.mk (List.replicate 12 7) 3).cap = 4 * [(0x63 : Rune), 0xC6, 0x247D].length
      ∧ ∃ r, foldToASCII [0x63, 0xC6, 0x247D] 0 (RuneSlice.mk (List.replicate 12 7) 3) 0
            [(0x63 : Rune), 0xC6, 0x247D].length = some r
          ∧ r.toList = [(0x63 : Rune), 0xC6, 0x247D].flatMap foldRune
          ∧ r.len = ([(0x63 : Rune), 0xC6, 0x247D].flatMap foldRune).length :=
  ⟨rfl, rfl, foldToASCII_concat [0x63, 0xC6, 0x247D] (RuneSlice.mk (List.replicate 12 7) 3)
    rfl rfl⟩

/-- C2: a rune sequence whose code points are all below U+0080 is folded to
itself, and the iteration for such a code point is the plain write of it
whatever the case clauses of the switch are. -/
theorem fold_ascii_identity (inp : List Rune) (h : ∀ c ∈ inp, c < 0x80) :
    fold inp = some inp
      ∧ ∀ c ∈ inp, ∀ (cases : List CaseClause) (out : RuneSlice) (outputPos : Nat),
          foldStepWith cases c out outputPos = writeRunes [c] out outputPos := by
  refine ⟨?_, ?_⟩
  · rw [fold_eq, foldRune_ascii_fixed h]
  · intro c hc cases out outputPos
    simp [foldStepWith, h c hc]

/-- The identity above on three ASCII code points. -/
theorem fold_ascii_identity_witness :
    (∀ c ∈ [(0x48 : Rune), 0x69, 0x7F], c < 0x80)
      ∧ fold [0x48, 0x69, 0x7F] = some [0x48, 0x69, 0x7F]
      ∧ ∀ c ∈ [(0x48 : Rune), 0x69, 0x7F],
          ∀ (cases : List CaseClause) (out : RuneSlice) (outputPos : Nat),
            foldStepWith cases c out outputPos = writeRunes [c] out outputPos :=
  ⟨by decide, fold_ascii_identity [0x48, 0x69, 0x7F] (by decide)⟩

/-- C3: for a code point at or above U+0080 the characters written are either
the code point itself, when no case matches, or the writes of the matching
case, which are not empty and are all ASCII; folding the one-element sequence
returns exactly these characters. -/
theorem foldRune_nonascii (c : Rune) (h : 0x80 ≤ c) :
    fold [c] = some (foldRune c)
      ∧ ((selectCase foldCases c = none ∧ foldRune c = [c])
        ∨ ((∃ cl, selectCase foldCases c = some cl ∧ foldRune c = cl.writes)
          ∧ foldRune c ≠ [] ∧ ∀ x ∈ foldRune c, 0 ≤ x ∧ x < 0x80)) := by
  have hc : ¬ c < 0x80 := not_lt.mpr h
  refine ⟨by rw [fold_eq]; simp, ?_⟩
  cases hsel : selectCase foldCases c with
  | none =>
    left
    exact ⟨rfl, by simp [foldRune, hc, hsel]⟩
  | some cl =>
    right
    have h1 : foldRune c = cl.writes := by simp [foldRune, hc, hsel]
    have hok := clauseOk_of_mem (selectCase_mem hsel).1
    refine ⟨⟨cl, rfl, h1⟩, ?_, ?_⟩
    · intro hnil
      have := foldRune_length_pos c
      rw [hnil] at this
      simp at this
    · intro x hx
      rw [h1] at hx
      have := clause_printable hok hx
      exact ⟨le_trans (by decide) this.1, lt_of_le_of_lt this.2 (by decide)⟩

/-- The alternative above at U+00C6. -/
theorem foldRune_nonascii_witness :
    (0x80 : Rune) ≤ 0xC6
      ∧ fold [0xC6] = some (foldRune 0xC6)
      ∧ ((selectCase foldCases 0xC6 = none ∧ foldRune 0xC6 = [0xC6])
        ∨ ((∃ cl, selectCase foldCases 0xC6 = some cl ∧ foldRune 0xC6 = cl.writes)
          ∧ foldRune 0xC6 ≠ [] ∧ ∀ x ∈ foldRune 0xC6, 0 ≤ x ∧ x < 0x80)) :=
  ⟨by decide, foldRune_nonascii 0xC6 (by decide)⟩


/-- C4: `Filter` returns a result on every byte sequence: on the slice it
allocates (length `n`, capacity `4 * n` for `n` decoded code points) no index
write and no reslice of `foldToASCII` fails, and the returned slice stays
within the capacity; so it is on an input of parenthesized numbers, each of
which is written as four characters. -/
theorem Filter_total (input : List Nat) :
    (∃ r, foldToASCII (decodeRunes input) 0
          (make (decodeRunes input).length ((decodeRunes input).length * 4)) 0
          (decodeRunes input).length = some r
        ∧ r.len ≤ r.cap ∧ r.cap = (decodeRunes input).length * 4)
      ∧ (∃ out, Filter input = some out)
      ∧ Filter [0xE2, 0x91, 0xBD, 0xE2, 0x92, 0x87]
          = some [0x28, 0x31, 0x30, 0x29, 0x28, 0x32, 0x30, 0x29] := by
  have hle := flatMap_foldRune_length_le (decodeRunes input)
  have hcap : ((decodeRunes input).flatMap foldRune).length
      ≤ (make (decodeRunes input).length ((decodeRunes input).length * 4)).cap := by
    simp only [make, RuneSlice.cap, List.length_replicate]
    omega
  have hrun := foldToASCII_from_start (decodeRunes input)
    (make (decodeRunes input).length ((decodeRunes input).length * 4)) rfl hcap
  refine ⟨⟨_, hrun, ?_, ?_⟩, ?_, by decide⟩
  · simp only [make, RuneSlice.cap, List.length_append, List.length_drop,
      List.length_replicate]
    omega
  · simp only [make, RuneSlice.cap, List.length_append, List.length_drop,
      List.length_replicate]
    omega
  · unfold Filter FilterVia
    split
    · exact ⟨_, rfl⟩
    · rw [hrun]
      exact ⟨_, rfl⟩

/-- C5: folding is idempotent: the fold of a rune sequence is a result that the
fold maps to itself. -/
theorem fold_idempotent (x : List Rune) : ∃ y, fold x = some y ∧ fold y = some y := by
  refine ⟨x.flatMap foldRune, fold_eq x, ?_⟩
  rw [fold_eq, List.flatMap_assoc]
  congr 1
  induction x with
  | nil => rfl
  | cons c t ih => rw [List.flatMap_cons, List.flatMap_cons, foldRune_foldRune, ih]

/-- C6 as stated fails: the parenthesized number ten U+247D alone is folded to
the four characters `(10)`, more than three times the input length. -/
theorem fold_length_le_three_fails :
    fold [0x247D] = some [0x28, 0x31, 0x30, 0x29]
      ∧ ¬ ((fold [0x247D]).getD []).length ≤ 3 * [(0x247D : Rune)].length := by
  decide

/-- C6, amended: the fold of a rune sequence has at most four times as many
characters as the input, and every code point is written as between one and
four characters. -/
theorem fold_length_le_four (inp : List Rune) :
    (∃ out, fold inp = some out ∧ out.length ≤ 4 * inp.length)
      ∧ ∀ c : Rune, 1 ≤ (foldRune c).length ∧ (foldRune c).length ≤ 4 :=
  ⟨⟨_, fold_eq inp, flatMap_foldRune_length_le inp⟩,
    fun c => ⟨foldRune_length_pos c, foldRune_length_le c⟩⟩

/-- C7: the fold of a rune sequence, of Unicode scalar values in particular,
has at most `4 * len(in)` runes and its UTF-8 encoding at most `4 * len(in)`
bytes; every code point is written as at most four runes and no rune is
encoded in more than four bytes. -/
theorem fold_utf8_size (inp : List Rune) :
    (∃ out, fold inp = some out ∧ out.length ≤ 4 * inp.length
        ∧ (encodeRunes out).length ≤ 4 * inp.length)
      ∧ ∀ c : Rune, (foldRune c).length ≤ 4 ∧ (encodeRune c).length ≤ 4 :=
  ⟨⟨_, fold_eq inp, flatMap_foldRune_length_le inp, encode_fold_length_le inp⟩,
    fun c => ⟨foldRune_length_le c, encodeRune_length_le c⟩⟩

/-- C8: the fold of a rune sequence is at least as long as the input: every
code point, with a matching case or not, is written as at least one character. -/
theorem fold_length_ge (inp : List Rune) :
    (∃ out, fold inp = some out ∧ inp.length ≤ out.length)
      ∧ ∀ c : Rune, 1 ≤ (foldRune c).length :=
  ⟨⟨_, fold_eq inp, flatMap_foldRune_length_ge inp⟩, foldRune_length_pos⟩

/-- C9: `Filter` on the empty byte sequence returns the empty byte sequence,
whatever function stands in the place of `foldToASCII`. -/
theorem Filter_empty :
    Filter [] = some []
      ∧ ∀ callee : List Rune → Nat → RuneSlice → Nat → Nat → Option RuneSlice,
          FilterVia callee [] = some [] :=
  ⟨rfl, fun _ => rfl⟩

/-- C10 as stated fails: the three circled digits are not folded to the nine
characters `(1)(2)(3)`. -/
theorem fold_circled_digits_not_parenthesized :
    fold [0x2460, 0x2461, 0x2462]
      ≠ some [0x28, 0x31, 0x29, 0x28, 0x32, 0x29, 0x28, 0x33, 0x29] := by
  decide

/-- C10, amended: the three circled digits U+2460, U+2461, U+2462 are folded to
the three characters `123`, one digit each; the expansion to an opening
parenthesis, the digit and a closing parenthesis is that of the parenthesized
digits U+2474, U+2475, U+2476, whose fold is `(1)(2)(3)`. -/
theorem fold_circled_digits :
    fold [0x2460, 0x2461, 0x2462] = some [0x31, 0x32, 0x33]
      ∧ fold [0x2474, 0x2475, 0x2476]
          = some [0x28, 0x31, 0x29, 0x28, 0x32, 0x29, 0x28, 0x33, 0x29] := by
  decide

/-! Coverage of the case table -/

theorem foldCases_labels_covered :
    foldCases.all (fun cl => cl.labels.all labelCovered) = true := by decide!

theorem inCoveredRange_of_labelCovered {c : Rune} (h : labelCovered c = true) :
    inCoveredRange c = true := by
  cases c with
  | ofNat n =>
    simp only [labelCovered, coveredNat, Bool.or_eq_true, Bool.and_eq_true,
      decide_eq_true_eq] at h
    simp only [inCoveredRange, Bool.or_eq_true, Bool.and_eq_true, decide_eq_true_eq,
      Int.ofNat_eq_coe]
    omega
  | negSucc n => simp [labelCovered] at h

theorem selectCase_none_of_not_covered {c : Rune} (h : inCoveredRange c = false) :
    selectCase foldCases c = none := by
  cases hsel : selectCase foldCases c with
  | none => rfl
  | some cl =>
    have hm := selectCase_mem hsel
    have := inCoveredRange_of_labelCovered
      (List.all_eq_true.mp (List.all_eq_true.mp foldCases_labels_covered cl hm.1) c hm.2)
    rw [h] at this
    exact absurd this (by decide)

theorem foldRune_of_select_none {c : Rune} (h : selectCase foldCases c = none) :
    foldRune c = [c] := by
  unfold foldRune
  split
  · rfl
  · rw [h]

theorem foldRune_of_select_some {c : Rune} {cl : CaseClause} (hc : 0x80 ≤ c)
    (h : selectCase foldCases c = some cl) : foldRune c = cl.writes := by
  unfold foldRune
  rw [if_neg (not_lt.mpr hc), h]

theorem combining_not_covered (d : Int) (h1 : 0x0300 ≤ d) (h2 : d ≤ 0x036F) :
    inCoveredRange d = false := by
  simp only [inCoveredRange, Bool.or_eq_false_iff, Bool.and_eq_false_iff,
    decide_eq_false_iff_not]
  omega

/-! The labels of the switch in a range -/

theorem mem_casesWhere_of_select {p : Rune → Bool} {c : Rune} {cl : CaseClause}
    (h : selectCase foldCases c = some cl) (hp : p c = true) :
    (c, cl.writes) ∈ casesWhere p := by
  have hm := selectCase_mem h
  unfold casesWhere
  rw [List.mem_flatMap]
  refine ⟨cl, hm.1, ?_⟩
  rw [List.mem_map]
  exact ⟨c, List.mem_filter.mpr ⟨hm.2, hp⟩, rfl⟩

theorem select_of_mem_casesWhere {p : Rune → Bool} {c : Rune} {ws : List Rune}
    (h : (c, ws) ∈ casesWhere p) : ∃ cl, selectCase foldCases c = some cl := by
  unfold casesWhere at h
  rw [List.mem_flatMap] at h
  obtain ⟨cl, hcl, hq⟩ := h
  rw [List.mem_map] at hq
  obtain ⟨l, hl, heq⟩ := hq
  have hlc : l = c := congrArg Prod.fst heq
  have hmem : c ∈ cl.labels := hlc ▸ (List.mem_filter.mp hl).1
  cases hsel : selectCase foldCases c with
  | some cl1 => exact ⟨cl1, rfl⟩
  | none =>
    unfold selectCase at hsel
    have := List.find?_eq_none.mp hsel cl hcl
    simp [hmem] at this

theorem casesWhere_fullwidth : casesWhere inFullwidth = fullwidthCases := by decide!

theorem fullwidthCases_entries : fullwidthCases.all fullwidthEntryOk = true := by decide!

theorem fullwidthCases_listed : (List.range 94).all fullwidthListed = true := by decide!

theorem fullwidth_entry_of_select {c : Rune} {cl : CaseClause} (hfw : inFullwidth c = true)
    (h : selectCase foldCases c = some cl) : fullwidthEntryOk (c, cl.writes) = true := by
  have hm := mem_casesWhere_of_select h hfw
  rw [casesWhere_fullwidth] at hm
  exact List.all_eq_true.mp fullwidthCases_entries _ hm

theorem select_fullwidth (n : Nat) (h1 : 0xFF01 ≤ n) (h2 : n ≤ 0xFF5E) (h3 : n ≠ 0xFF40)
    (h4 : n ≠ 0xFF5C) :
    ∃ cl, selectCase foldCases (Int.ofNat n) = some cl
      ∧ cl.writes = [Int.ofNat (n - 0xFEE0)] := by
  have hi : n - 0xFF01 ∈ List.range 94 := List.mem_range.mpr (by omega)
  have hl := List.all_eq_true.mp fullwidthCases_listed _ hi
  have hadd : 0xFF01 + (n - 0xFF01) = n := by omega
  simp only [fullwidthListed, Bool.or_eq_true, beq_iff_eq, List.any_eq_true, hadd] at hl
  rcases hl with (h | h) | ⟨q, hq, hqn⟩
  · omega
  · omega
  · obtain ⟨q1, q2⟩ := q
    cases q1 with
    | negSucc k => simp at hqn
    | ofNat k =>
      simp only [beq_iff_eq] at hqn
      subst hqn
      rw [← casesWhere_fullwidth] at hq
      obtain ⟨cl, hcl⟩ := select_of_mem_casesWhere hq
      have hfw : inFullwidth (Int.ofNat k) = true := by
        simp only [inFullwidth, Bool.and_eq_true, decide_eq_true_eq]
        omega
      have hok := fullwidth_entry_of_select hfw hcl
      simp only [fullwidthEntryOk, Bool.and_eq_true, beq_iff_eq] at hok
      exact ⟨cl, hcl, hok.2⟩

theorem select_fullwidth_none (n : Nat) (h : n = 0xFF40 ∨ n = 0xFF5C) :
    selectCase foldCases (Int.ofNat n) = none := by
  cases hsel : selectCase foldCases (Int.ofNat n) with
  | none => rfl
  | some cl =>
    have hfw : inFullwidth (Int.ofNat n) = true := by
      simp only [inFullwidth, Bool.and_eq_true, decide_eq_true_eq]
      omega
    have hok := fullwidth_entry_of_select hfw hsel
    simp only [fullwidthEntryOk, Bool.and_eq_true, bne_iff_ne, ne_eq] at hok
    omega

/-! The conversions between bytes and runes -/

theorem decodeFrom_skip (xs rest : List Nat) :
    decodeFrom xs.length (xs ++ rest) = decodeFrom 0 rest := by
  induction xs with
  | nil => rfl
  | cons x xs ih => simpa [decodeFrom] using ih

theorem decodeRunes_ascii (b : List Nat) (h : ∀ x ∈ b, x < 0x80) :
    decodeRunes b = b.map Int.ofNat := by
  unfold decodeRunes
  induction b with
  | nil => rfl
  | cons x t ih =>
    have hx := h x (List.mem_cons_self x t)
    have ht := ih (fun y hy => h y (List.mem_cons_of_mem x hy))
    simp only [decodeFrom, decodeRune, hx, if_true, Nat.sub_self, List.map_cons]
    rw [ht]

theorem encodeRunes_ascii (b : List Nat) (h : ∀ x ∈ b, x < 0x80) :
    encodeRunes (b.map Int.ofNat) = b := by
  unfold encodeRunes
  induction b with
  | nil => rfl
  | cons x t ih =>
    have hx := h x (List.mem_cons_self x t)
    have ht := ih (fun y hy => h y (List.mem_cons_of_mem x hy))
    have h0 : ¬ (Int.ofNat x : Int) < 0 := by simp only [Int.ofNat_eq_coe]; omega
    have h1 : (Int.ofNat x : Int) < 0x80 := by simp only [Int.ofNat_eq_coe]; omega
    have he : encodeRune (Int.ofNat x) = [x] := by
      unfold encodeRune
      rw [if_neg h0, if_pos h1]
      rfl
    rw [List.map_cons, List.flatMap_cons, ht, he]
    rfl

theorem decodeRune_encodeRune (n : Nat) (h : isScalar (Int.ofNat n) = true) (rest : List Nat) :
    decodeRune (encodeRune (Int.ofNat n) ++ rest)
      = (Int.ofNat n, (encodeRune (Int.ofNat n)).length) := by
  simp only [isScalar, Bool.and_eq_true, decide_eq_true_eq, Bool.not_eq_true',
    Bool.and_eq_false_iff, decide_eq_false_iff_not, Int.ofNat_eq_coe] at h
  have hmax : n ≤ 0x10FFFF := by omega
  have hsur : ¬ (0xD800 ≤ n ∧ n ≤ 0xDFFF) := by omega
  have h0 : ¬ (Int.ofNat n : Int) < 0 := by simp only [Int.ofNat_eq_coe]; omega
  unfold encodeRune
  rw [if_neg h0]
  have htn : (Int.ofNat n).toNat = n := rfl
  simp only [htn]
  by_cases c1 : n < 0x80
  · have e1 : (Int.ofNat n : Int) < 0x80 := by simp only [Int.ofNat_eq_coe]; omega
    rw [if_pos e1]
    simp [decodeRune, c1]
  · have e1 : ¬ (Int.ofNat n : Int) < 0x80 := by simp only [Int.ofNat_eq_coe]; omega
    rw [if_neg e1]
    by_cases c2 : n < 0x800
    · have e2 : (Int.ofNat n : Int) < 0x800 := by simp only [Int.ofNat_eq_coe]; omega
      rw [if_pos e2]
      have a1 : ¬ (0xC0 + n / 0x40 < 0x80) := by omega
      have a2 : 0xC2 ≤ 0xC0 + n / 0x40 ∧ 0xC0 + n / 0x40 ≤ 0xDF := by omega
      have a3 : isCont (0x80 + n % 0x40) = true := by
        simp only [isCont, Bool.and_eq_true, decide_eq_true_eq]; omega
      have a4 : (0xC0 + n / 0x40) % 0x20 * 0x40 + (0x80 + n % 0x40) % 0x40 = n := by omega
      simp only [List.cons_append, List.nil_append, decodeRune, a1, a2, a3, a4, if_true,
        if_false, and_self, List.length_cons, List.length_nil]
    · have e2 : ¬ (Int.ofNat n : Int) < 0x800 := by simp only [Int.ofNat_eq_coe]; omega
      rw [if_neg e2]
      have e3 : ¬ ((0xD800 : Int) ≤ Int.ofNat n ∧ (Int.ofNat n : Int) ≤ 0xDFFF) := by
        simp only [Int.ofNat_eq_coe]; omega
      rw [if_neg e3]
      by_cases c3 : n < 0x10000
      · have e4 : (Int.ofNat n : Int) < 0x10000 := by simp only [Int.ofNat_eq_coe]; omega
        rw [if_pos e4]
        have a1 : ¬ (0xE0 + n / 0x1000 < 0x80) := by omega
        have a2 : ¬ (0xC2 ≤ 0xE0 + n / 0x1000 ∧ 0xE0 + n / 0x1000 ≤ 0xDF) := by omega
        have a3 : 0xE0 ≤ 0xE0 + n / 0x1000 ∧ 0xE0 + n / 0x1000 ≤ 0xEF := by omega
        have a4 : isCont (0x80 + n % 0x40) = true := by
          simp only [isCont, Bool.and_eq_true, decide_eq_true_eq]; omega
        have a5 : (if 0xE0 + n / 0x1000 = 0xE0 then 0xA0 else 0x80) ≤ 0x80 + n / 0x40 % 0x40
            ∧ 0x80 + n / 0x40 % 0x40 ≤ (if 0xE0 + n / 0x1000 = 0xED then 0x9F else 0xBF) := by
          constructor
          · split <;> omega
          · split <;> omega
        have a6 : (0xE0 + n / 0x1000) % 0x10 * 0x1000 + (0x80 + n / 0x40 % 0x40) % 0x40 * 0x40
            + (0x80 + n % 0x40) % 0x40 = n := by omega
        simp only [List.cons_append, List.nil_append, decodeRune, a1, a2, a3, a4, a5, a6,
          if_true, if_false, and_self, List.length_cons, List.length_nil]
      · have e4 : ¬ (Int.ofNat n : Int) < 0x10000 := by simp only [Int.ofNat_eq_coe]; omega
        have e5 : (Int.ofNat n : Int) ≤ 0x10FFFF := by simp only [Int.ofNat_eq_coe]; omega
        rw [if_neg e4, if_pos e5]
        have a1 : ¬ (0xF0 + n / 0x40000 < 0x80) := by omega
        have a2 : ¬ (0xC2 ≤ 0xF0 + n / 0x40000 ∧ 0xF0 + n / 0x40000 ≤ 0xDF) := by omega
        have a3 : ¬ (0xE0 ≤ 0xF0 + n / 0x40000 ∧ 0xF0 + n / 0x40000 ≤ 0xEF) := by omega
        have a4 : 0xF0 ≤ 0xF0 + n / 0x40000 ∧ 0xF0 + n / 0x40000 ≤ 0xF4 := by omega
        have a5 : isCont (0x80 + n % 0x40) = true := by
          simp only [isCont, Bool.and_eq_true, decide_eq_true_eq]; omega
        have a6 : isCont (0x80 + n / 0x40 % 0x40) = true := by
          simp only [isCont, Bool.and_eq_true, decide_eq_true_eq]; omega
        have a7 : (if 0xF0 + n / 0x40000 = 0xF0 then 0x90 else 0x80) ≤ 0x80 + n / 0x1000 % 0x40
            ∧ 0x80 + n / 0x1000 % 0x40
              ≤ (if 0xF0 + n / 0x40000 = 0xF4 then 0x8F else 0xBF) := by
          constructor
          · split <;> omega
          · split <;> omega
        have a8 : (0xF0 + n / 0x40000) % 0x08 * 0x40000
            + (0x80 + n / 0x1000 % 0x40) % 0x40 * 0x1000
            + (0x80 + n / 0x40 % 0x40) % 0x40 * 0x40 + (0x80 + n % 0x40) % 0x40 = n := by omega
        simp only [List.cons_append, List.nil_append, decodeRune, a1, a2, a3, a4, a5, a6, a7,
          a8, if_true, if_false, and_self, List.length_cons, List.length_nil]

theorem decodeFrom_encodeRune (c : Rune) (h : isScalar c = true) (rest : List Nat) :
    decodeFrom 0 (encodeRune c ++ rest) = c :: decodeFrom 0 rest := by
  cases c with
  | negSucc k => simp [isScalar] at h
  | ofNat n =>
    have hd := decodeRune_encodeRune n h rest
    have hlen : 1 ≤ (encodeRune (Int.ofNat n)).length := by
      unfold encodeRune
      split_ifs <;> simp
    cases henc : encodeRune (Int.ofNat n) with
    | nil => rw [henc] at hlen; simp at hlen
    | cons b tl =>
      rw [henc] at hd
      rw [List.cons_append] at hd ⊢
      simp only [decodeFrom, hd, List.length_cons, Nat.add_sub_cancel]
      rw [decodeFrom_skip]

theorem decodeRunes_encodeRunes (cs : List Rune) (h : ∀ c ∈ cs, isScalar c = true) :
    decodeRunes (encodeRunes cs) = cs := by
  unfold decodeRunes encodeRunes
  induction cs with
  | nil => rfl
  | cons c t ih =>
    rw [List.flatMap_cons, decodeFrom_encodeRune c (h c (List.mem_cons_self c t)),
      ih (fun x hx => h x (List.mem_cons_of_mem c hx))]

theorem Filter_eq (b : List Nat) : Filter b = (fold (decodeRunes b)).map encodeRunes := by
  unfold Filter FilterVia fold
  split
  · rename_i h0
    have hb : b = [] := List.length_eq_zero.mp h0
    subst hb
    rfl
  · cases foldToASCII (decodeRunes b) 0
        (make (decodeRunes b).length ((decodeRunes b).length * 4)) 0 (decodeRunes b).length with
    | none => rfl
    | some out => rfl

theorem Filter_ascii (b : List Nat) (h : ∀ x ∈ b, x < 0x80) : Filter b = some b := by
  have hlt : ∀ w ∈ b.map Int.ofNat, w < 0x80 := by
    intro w hw
    obtain ⟨x, hx, rfl⟩ := List.mem_map.mp hw
    have := h x hx
    show (Int.ofNat x : Int) < 0x80
    simp only [Int.ofNat_eq_coe]
    omega
  rw [Filter_eq, decodeRunes_ascii b h, fold_eq, foldRune_ascii_fixed hlt, Option.map_some',
    encodeRunes_ascii b h]

/-! The frame of one iteration -/

theorem foldStep_frame_aux (c : Rune) (out : RuneSlice) (outputPos : Nat)
    (hpos : outputPos < out.len) (hcap : out.len + (foldRune c).length ≤ out.cap + 1) :
    foldStep c out outputPos
      = some (⟨out.arr.take outputPos ++ foldRune c
            ++ out.arr.drop (outputPos + (foldRune c).length),
          out.len + (foldRune c).length - 1⟩, outputPos + (foldRune c).length) := by
  have hk := foldRune_length_pos c
  have hcap2 : outputPos + (foldRune c).length ≤ out.arr.length := by
    unfold RuneSlice.cap at hcap; omega
  have hpre : (out.arr.take outputPos).length = outputPos := by
    rw [List.length_take]; omega
  have hmid : ((out.arr.drop outputPos).take (foldRune c).length).length
      = (foldRune c).length := by
    rw [List.length_take, List.length_drop]; omega
  have harr : out.arr = out.arr.take outputPos
      ++ (out.arr.drop outputPos).take (foldRune c).length
      ++ out.arr.drop (outputPos + (foldRune c).length) := by
    rw [List.append_assoc, ← List.drop_drop, List.take_append_drop, List.take_append_drop]
  have h := foldStep_append c (out.arr.take outputPos)
    ((out.arr.drop outputPos).take (foldRune c).length)
    (out.arr.drop (outputPos + (foldRune c).length)) out.len hmid (by rw [hpre]; exact hpos)
    (by rw [← harr]; exact hcap)
  rw [← harr, hpre] at h
  cases out with
  | mk arr len => exact h

/-! The claims, continued -/

/-- C11: the sequence U+0063 U+0061 U+0066 U+00E9 is folded to `cafe` and
U+006E U+0061 U+00EF U+0076 U+0065 to `naive`: U+00E9 is written as the one
character `e`, U+00EF as the one character `i`, and the ASCII characters
around them are kept. -/
theorem fold_cafe_naive :
    fold [0x63, 0x61, 0x66, 0xE9] = some [0x63, 0x61, 0x66, 0x65]
      ∧ fold [0x6E, 0x61, 0xEF, 0x76, 0x65] = some [0x6E, 0x61, 0x69, 0x76, 0x65]
      ∧ foldRune 0xE9 = [0x65] ∧ foldRune 0xEF = [0x69] := by
  decide!

/-- C12: the sequence U+00C6 `T` `H` `E` `R` is folded to the six characters
`AETHER`: U+00C6 is written as `A`, `E` and the four characters after it
follow, each one position further than in the input. -/
theorem fold_aether :
    fold [0xC6, 0x54, 0x48, 0x45, 0x52] = some [0x41, 0x45, 0x54, 0x48, 0x45, 0x52]
      ∧ foldRune 0xC6 = [0x41, 0x45]
      ∧ (fold [0xC6, 0x54, 0x48, 0x45, 0x52]).map (List.drop 2) = some [0x54, 0x48, 0x45, 0x52] := by
  decide!

/-- C13: the three code points U+65E5 U+672C U+8A9E are returned unchanged. -/
theorem fold_cjk_unchanged :
    fold [0x65E5, 0x672C, 0x8A9E] = some [0x65E5, 0x672C, 0x8A9E] := by
  decide!

/-- C14: a code point outside the union of the covered ranges matches no case
and is written unchanged; so are the code points of U+0370..U+06FF (Greek,
Cyrillic, Hebrew, Arabic among them), of U+4E00..U+9FFF (CJK), of
U+AC00..U+D7A3 (Hangul) and every code point above U+FFFF. -/
theorem fold_outside_ranges (c : Rune) (h : inCoveredRange c = false) :
    (selectCase foldCases c = none ∧ foldRune c = [c] ∧ fold [c] = some [c])
      ∧ ∀ d : Int, (0x0370 ≤ d ∧ d ≤ 0x06FF) ∨ (0x4E00 ≤ d ∧ d ≤ 0x9FFF)
          ∨ (0xAC00 ≤ d ∧ d ≤ 0xD7A3) ∨ 0xFFFF < d → foldRune d = [d] := by
  have hnone := selectCase_none_of_not_covered h
  have hfr := foldRune_of_select_none hnone
  refine ⟨⟨hnone, hfr, by rw [fold_eq]; simp [hfr]⟩, ?_⟩
  intro d hd
  apply foldRune_of_select_none
  apply selectCase_none_of_not_covered
  simp only [inCoveredRange, Bool.or_eq_false_iff, Bool.and_eq_false_iff,
    decide_eq_false_iff_not]
  omega

/-- The pass-through above at U+0416, a Cyrillic letter. -/
theorem fold_outside_ranges_witness :
    inCoveredRange 0x0416 = false
      ∧ (selectCase foldCases 0x0416 = none ∧ foldRune 0x0416 = [0x0416]
          ∧ fold [0x0416] = some [0x0416])
      ∧ ∀ d : Int, (0x0370 ≤ d ∧ d ≤ 0x06FF) ∨ (0x4E00 ≤ d ∧ d ≤ 0x9FFF)
          ∨ (0xAC00 ≤ d ∧ d ≤ 0xD7A3) ∨ 0xFFFF < d → foldRune d = [d] :=
  ⟨by decide, fold_outside_ranges 0x0416 (by decide)⟩

/-- C15: the fold of a concatenation is the concatenation of the folds, and a
code point between two sequences contributes the characters written for it
alone, whatever comes before and after it. -/
theorem fold_append (xs ys : List Rune) :
    ∃ a b, fold xs = some a ∧ fold ys = some b ∧ fold (xs ++ ys) = some (a ++ b)
      ∧ ∀ c : Rune, fold (xs ++ c :: ys) = some (a ++ foldRune c ++ b) := by
  refine ⟨_, _, fold_eq xs, fold_eq ys, ?_, ?_⟩
  · rw [fold_eq, List.flatMap_append]
  · intro c
    rw [fold_eq, List.flatMap_append, List.flatMap_cons, List.append_assoc]

/-- C16: for a sequence `cs` of Unicode scalar values, the UTF-8 encoding of
`cs` decodes to `cs` and `Filter` maps it to the encoding of the fold of `cs`;
`Filter` returns a byte sequence whose bytes are all below 0x80 unchanged; and
on every byte sequence `Filter` is the encoding of the fold of the decoding. -/
theorem Filter_utf8 (cs : List Rune) (hcs : ∀ c ∈ cs, isScalar c = true) :
    decodeRunes (encodeRunes cs) = cs
      ∧ Filter (encodeRunes cs) = (fold cs).map encodeRunes
      ∧ (∀ b : List Nat, (∀ x ∈ b, x < 0x80) → Filter b = some b)
      ∧ ∀ b : List Nat, Filter b = (fold (decodeRunes b)).map encodeRunes := by
  refine ⟨decodeRunes_encodeRunes cs hcs, ?_, Filter_ascii, Filter_eq⟩
  rw [Filter_eq, decodeRunes_encodeRunes cs hcs]

/-- The statement above on the scalar values U+0063, U+00E9, U+247D, U+1F600. -/
theorem Filter_utf8_witness :
    (∀ c ∈ [(0x63 : Rune), 0xE9, 0x247D, 0x1F600], isScalar c = true)
      ∧ decodeRunes (encodeRunes [0x63, 0xE9, 0x247D, 0x1F600])
          = [0x63, 0xE9, 0x247D, 0x1F600]
      ∧ Filter (encodeRunes [0x63, 0xE9, 0x247D, 0x1F600])
          = (fold [0x63, 0xE9, 0x247D, 0x1F600]).map encodeRunes
      ∧ (∀ b : List Nat, (∀ x ∈ b, x < 0x80) → Filter b = some b)
      ∧ ∀ b : List Nat, Filter b = (fold (decodeRunes b)).map encodeRunes :=
  ⟨by decide, Filter_utf8 [0x63, 0xE9, 0x247D, 0x1F600] (by decide)⟩

/-- C17 as stated fails: U+FF40, the fullwidth grave accent, lies in
U+FF01..U+FF5E and is not replaced by U+0060 but returned unchanged. -/
theorem fold_fullwidth_grave_unchanged :
    ((0xFF01 : Rune) ≤ 0xFF40 ∧ (0xFF40 : Rune) ≤ 0xFF5E)
      ∧ fold [0xFF40] = some [0xFF40]
      ∧ foldRune 0xFF40 ≠ [0xFF40 - 0xFEE0] := by
  decide!

/-- C17, amended: every code point of U+FF01..U+FF5E other than U+FF40 and
U+FF5C is folded to the single character `c - 0xFEE0`; U+FF40 and U+FF5C match
no case and are written unchanged. -/
theorem fold_fullwidth (c : Rune) (h1 : 0xFF01 ≤ c) (h2 : c ≤ 0xFF5E) (h3 : c ≠ 0xFF40)
    (h4 : c ≠ 0xFF5C) :
    (foldRune c = [c - 0xFEE0] ∧ fold [c] = some [c - 0xFEE0])
      ∧ foldRune 0xFF40 = [0xFF40] ∧ foldRune 0xFF5C = [0xFF5C] := by
  refine ⟨?_, foldRune_of_select_none (select_fullwidth_none 0xFF40 (Or.inl rfl)),
    foldRune_of_select_none (select_fullwidth_none 0xFF5C (Or.inr rfl))⟩
  have h0 : (0 : Int) ≤ c := le_trans (by decide) h1
  obtain ⟨n, rfl⟩ := Int.eq_ofNat_of_zero_le h0
  have h1i : (0xFF01 : Int) ≤ (n : Int) := h1
  have h2i : (n : Int) ≤ (0xFF5E : Int) := h2
  have h3i : (n : Int) ≠ (0xFF40 : Int) := h3
  have h4i : (n : Int) ≠ (0xFF5C : Int) := h4
  obtain ⟨cl, hcl, hw⟩ := select_fullwidth n (by omega) (by omega) (by omega) (by omega)
  have hcl2 : selectCase foldCases (n : Int) = some cl := hcl
  have hge : (0x80 : Rune) ≤ (n : Int) := le_trans (by decide) h1
  have hsub : (Int.ofNat (n - 0xFEE0) : Int) = (n : Int) - 0xFEE0 := by
    simp only [Int.ofNat_eq_coe]; omega
  have hfr : foldRune (n : Int) = [(n : Int) - 0xFEE0] := by
    rw [foldRune_of_select_some hge hcl2, hw, hsub]
  exact ⟨hfr, by rw [fold_eq]; simp [hfr]⟩

/-- The replacement above at U+FF21, the fullwidth capital A. -/
theorem fold_fullwidth_witness :
    ((0xFF01 : Rune) ≤ 0xFF21 ∧ (0xFF21 : Rune) ≤ 0xFF5E ∧ (0xFF21 : Rune) ≠ 0xFF40
        ∧ (0xFF21 : Rune) ≠ 0xFF5C)
      ∧ (foldRune 0xFF21 = [0xFF21 - 0xFEE0] ∧ fold [0xFF21] = some [0xFF21 - 0xFEE0])
      ∧ foldRune 0xFF40 = [0xFF40] ∧ foldRune 0xFF5C = [0xFF5C] :=
  ⟨by decide, fold_fullwidth 0xFF21 (by decide) (by decide) (by decide) (by decide)⟩

/-- C18: the iteration for one code point with the write cursor at `outputPos`,
writing the `k` characters of `foldRune c`, moves the cursor by `k`, extends the
length of the output by `k - 1` within the same backing array, leaves every
index below `outputPos` and every index from `outputPos + k` on as it was, and
puts the `k` characters at the indices `outputPos`, ..., `outputPos + k - 1`. -/
theorem foldStep_frame (c : Rune) (out : RuneSlice) (outputPos : Nat)
    (hpos : outputPos < out.len) (hcap : out.len + (foldRune c).length ≤ out.cap + 1) :
    ∃ out1, foldStep c out outputPos = some (out1, outputPos + (foldRune c).length)
      ∧ out1.len = out.len + ((foldRune c).length - 1)
      ∧ out1.cap = out.cap
      ∧ (∀ i, i < outputPos → out1.arr[i]? = out.arr[i]?)
      ∧ (∀ i, outputPos + (foldRune c).length ≤ i → out1.arr[i]? = out.arr[i]?)
      ∧ ∀ j, j < (foldRune c).length → out1.arr[outputPos + j]? = (foldRune c)[j]? := by
  have hk := foldRune_length_pos c
  have hcap2 : outputPos + (foldRune c).length ≤ out.arr.length := by
    unfold RuneSlice.cap at hcap; omega
  have hpre : (out.arr.take outputPos).length = outputPos := by
    rw [List.length_take]; omega
  refine ⟨_, foldStep_frame_aux c out outputPos hpos hcap, ?_, ?_, ?_, ?_, ?_⟩
  · show out.len + (foldRune c).length - 1 = out.len + ((foldRune c).length - 1)
    omega
  · show (out.arr.take outputPos ++ foldRune c
        ++ out.arr.drop (outputPos + (foldRune c).length)).length = out.arr.length
    rw [List.length_append, List.length_append, hpre, List.length_drop]
    omega
  · intro i hi
    show (out.arr.take outputPos ++ foldRune c
        ++ out.arr.drop (outputPos + (foldRune c).length))[i]? = out.arr[i]?
    rw [List.append_assoc, List.getElem?_append_left (by rw [hpre]; exact hi),
      List.getElem?_take_of_lt hi]
  · intro i hi
    show (out.arr.take outputPos ++ foldRune c
        ++ out.arr.drop (outputPos + (foldRune c).length))[i]? = out.arr[i]?
    have hl : (out.arr.take outputPos ++ foldRune c).length
        = outputPos + (foldRune c).length := by
      rw [List.length_append, hpre]
    rw [List.getElem?_append_right (by rw [hl]; exact hi), hl, List.getElem?_drop]
    congr 1
    omega
  · intro j hj
    show (out.arr.take outputPos ++ foldRune c
        ++ out.arr.drop (outputPos + (foldRune c).length))[outputPos + j]? = (foldRune c)[j]?
    have hl : (out.arr.take outputPos ++ foldRune c).length
        = outputPos + (foldRune c).length := by
      rw [List.length_append, hpre]
    rw [List.getElem?_append_left (by rw [hl]; omega),
      List.getElem?_append_right (by rw [hpre]; omega), hpre]
    congr 1
    omega

/-- The frame above for U+00C6, a step that reslices, with the cursor at 1 in a
slice of length 3 and capacity 8. -/
theorem foldStep_frame_witness :
    (1 < (RuneSlice.mk [11, 12, 13, 14, 15, 16, 17, 18] 3).len
        ∧ (RuneSlice.mk [11, 12, 13, 14, 15, 16, 17, 18] 3).len + (foldRune 0xC6).length
          ≤ (RuneSlice.mk [11, 12, 13, 14, 15, 16, 17, 18] 3).cap + 1)
      ∧ ∃ out1, foldStep 0xC6 (RuneSlice.mk [11, 12, 13, 14, 15, 16, 17, 18] 3) 1
            = some (out1, 1 + (foldRune 0xC6).length)
          ∧ out1.len = (RuneSlice.mk [11, 12, 13, 14, 15, 16, 17, 18] 3).len
              + ((foldRune 0xC6).length - 1)
          ∧ out1.cap = (RuneSlice.mk [11, 12, 13, 14, 15, 16, 17, 18] 3).cap
          ∧ (∀ i, i < 1 → out1.arr[i]?
              = (RuneSlice.mk [11, 12, 13, 14, 15, 16, 17, 18] 3).arr[i]?)
          ∧ (∀ i, 1 + (foldRune 0xC6).length ≤ i → out1.arr[i]?
              = (RuneSlice.mk [11, 12, 13, 14, 15, 16, 17, 18] 3).arr[i]?)
          ∧ ∀ j, j < (foldRune 0xC6).length → out1.arr[1 + j]? = (foldRune 0xC6)[j]? :=
  ⟨by decide!, foldStep_frame 0xC6 (RuneSlice.mk [11, 12, 13, 14, 15, 16, 17, 18] 3) 1
    (by decide!) (by decide!)⟩

/-- C19: every combining diacritical mark of U+0300..U+036F is written
unchanged, so the decomposed sequence U+0065 U+0301 is returned as it is while
the precomposed U+00E9 is folded to U+0065: the two forms of the same text are
not folded to the same result. -/
theorem fold_combining_marks (c : Rune) (h1 : 0x0300 ≤ c) (h2 : c ≤ 0x036F) :
    (foldRune c = [c] ∧ fold [c] = some [c])
      ∧ fold [0x65, 0x0301] = some [0x65, 0x0301]
      ∧ fold [0xE9] = some [0x65]
      ∧ fold [0x65, 0x0301] ≠ fold [0xE9] := by
  have hnc : inCoveredRange c = false := combining_not_covered c h1 h2
  have hfr := foldRune_of_select_none (selectCase_none_of_not_covered hnc)
  exact ⟨⟨hfr, by rw [fold_eq]; simp [hfr]⟩, by decide!⟩

/-- The pass-through above at U+0301, the combining acute accent. -/
theorem fold_combining_marks_witness :
    ((0x0300 : Rune) ≤ 0x0301 ∧ (0x0301 : Rune) ≤ 0x036F)
      ∧ (foldRune 0x0301 = [0x0301] ∧ fold [0x0301] = some [0x0301])
      ∧ fold [0x65, 0x0301] = some [0x65, 0x0301]
      ∧ fold [0xE9] = some [0x65]
      ∧ fold [0x65, 0x0301] ≠ fold [0xE9] :=
  ⟨by decide, fold_combining_marks 0x0301 (by decide) (by decide)⟩

/-- C20: a call of `Filter` on a byte sequence returns the same result after
any calls made on the same receiver in between as before them; the result is
the concatenation, over the decoded code points, of the encoding of the
characters written for each code point alone; and the elements `foldToASCII`
returns do not depend on the content the output slice had before the call. -/
theorem Filter_deterministic (s : AsciiFoldingFilter) (between : List (List Nat))
    (b : List Nat) :
    ((AsciiFoldingFilter.calls (s.call b).2 between).call b).1 = (s.call b).1
      ∧ (s.call b).1 = some ((decodeRunes b).flatMap (fun c => encodeRunes (foldRune c)))
      ∧ ∀ out : RuneSlice, out.len = (decodeRunes b).length
          → out.cap = 4 * (decodeRunes b).length
          → (foldToASCII (decodeRunes b) 0 out 0 (decodeRunes b).length).map RuneSlice.toList
              = fold (decodeRunes b) := by
  refine ⟨rfl, ?_, ?_⟩
  · show Filter b = _
    rw [Filter_eq, fold_eq, Option.map_some']
    unfold encodeRunes
    rw [List.flatMap_assoc]
  · intro out hlen hcap
    have hle : ((decodeRunes b).flatMap foldRune).length ≤ out.cap := by
      rw [hcap]; exact flatMap_foldRune_length_le (decodeRunes b)
    rw [foldToASCII_from_start (decodeRunes b) out hlen hle, fold_eq]
    simp [RuneSlice.toList]

/-! Labels of the switch in a range, by a list of them -/

theorem casesWhere_enclosed : casesWhere (inNatRange 0x2460 0x24E9) = enclosedCases := by decide!

theorem casesWhere_latin1 : casesWhere (inNatRange 0xC0 0xFF) = latin1Cases := by decide!

theorem enclosedCases_entries : entriesOk enclosedEntryOk enclosedCases = true := by decide!

theorem enclosedCases_listed : (List.range 138).all (listedFrom enclosedCases 0x2460) = true := by
  decide!

theorem latin1Cases_entries : entriesOk latin1EntryOk latin1Cases = true := by decide!

theorem latin1Cases_listed : (List.range 64).all latin1Listed = true := by decide!

theorem entry_of_select {p : Rune → Bool} {l : List (Rune × List Rune)}
    {ok : Nat → List Rune → Bool} (hl : casesWhere p = l) (he : entriesOk ok l = true)
    {n : Nat} {cl : CaseClause} (hp : p (Int.ofNat n) = true)
    (hsel : selectCase foldCases (Int.ofNat n) = some cl) : ok n cl.writes = true := by
  have hm := mem_casesWhere_of_select hsel hp
  rw [hl] at hm
  exact List.all_eq_true.mp he _ hm

theorem select_of_listed {p : Rune → Bool} {l : List (Rune × List Rune)}
    (hl : casesWhere p = l) {lo i : Nat} (h : listedFrom l lo i = true) :
    ∃ cl, selectCase foldCases (Int.ofNat (lo + i)) = some cl := by
  unfold listedFrom at h
  obtain ⟨q, hq, hqn⟩ := List.any_eq_true.mp h
  obtain ⟨q1, q2⟩ := q
  cases q1 with
  | negSucc k => simp [labelIs] at hqn
  | ofNat k =>
    simp only [labelIs, beq_iff_eq] at hqn
    subst hqn
    rw [← hl] at hq
    exact select_of_mem_casesWhere hq

theorem inNatRange_ofNat {lo hi n : Nat} (h1 : lo ≤ n) (h2 : n ≤ hi) :
    inNatRange lo hi (Int.ofNat n) = true := by
  simp only [inNatRange, Bool.and_eq_true, decide_eq_true_eq]
  exact ⟨h1, h2⟩

theorem ofNat_ge_80 {n : Nat} (h : 0x80 ≤ n) : (0x80 : Rune) ≤ Int.ofNat n := by
  show (0x80 : Int) ≤ (n : Int)
  omega

theorem foldRune_enclosed (k : Nat) (h1 : 0x2460 ≤ k) (h2 : k ≤ 0x24E9) :
    foldRune (Int.ofNat k) = enclosedExpected k := by
  have hi : k - 0x2460 ∈ List.range 138 := List.mem_range.mpr (by omega)
  have hl := List.all_eq_true.mp enclosedCases_listed _ hi
  obtain ⟨cl, hcl⟩ := select_of_listed casesWhere_enclosed hl
  have hk : 0x2460 + (k - 0x2460) = k := by omega
  rw [hk] at hcl
  have hok := entry_of_select casesWhere_enclosed enclosedCases_entries
    (inNatRange_ofNat h1 h2) hcl
  rw [foldRune_of_select_some (ofNat_ge_80 (by omega)) hcl]
  exact eq_of_beq hok

theorem foldRune_fullwidth_nat (k : Nat) (h1 : 0xFF01 ≤ k) (h2 : k ≤ 0xFF5E) (h3 : k ≠ 0xFF40)
    (h4 : k ≠ 0xFF5C) : foldRune (Int.ofNat k) = [Int.ofNat (k - 0xFEE0)] := by
  obtain ⟨cl, hcl, hw⟩ := select_fullwidth k h1 h2 h3 h4
  rw [foldRune_of_select_some (ofNat_ge_80 (by omega)) hcl, hw]

theorem latin1_select (k : Nat) (h1 : 0xC0 ≤ k) (h2 : k ≤ 0xFF) {cl : CaseClause}
    (hcl : selectCase foldCases (Int.ofNat k) = some cl) : latin1EntryOk k cl.writes = true :=
  entry_of_select casesWhere_latin1 latin1Cases_entries (inNatRange_ofNat h1 h2) hcl

theorem foldRune_latin1 (k : Nat) (h1 : 0xC0 ≤ k) (h2 : k ≤ 0xFF) (h3 : k ≠ 0xD7)
    (h4 : k ≠ 0xF7) :
    ((foldRune (Int.ofNat k)).length = 1 ∨ (foldRune (Int.ofNat k)).length = 2)
      ∧ ∀ w ∈ foldRune (Int.ofNat k), isAsciiLetter w = true := by
  have hi : k - 0xC0 ∈ List.range 64 := List.mem_range.mpr (by omega)
  have hl := List.all_eq_true.mp latin1Cases_listed _ hi
  simp only [latin1Listed, Bool.or_eq_true, beq_iff_eq] at hl
  rcases hl with (h | h) | h
  · omega
  · omega
  · obtain ⟨cl, hcl⟩ := select_of_listed casesWhere_latin1 h
    have hk : 0xC0 + (k - 0xC0) = k := by omega
    rw [hk] at hcl
    have hok := latin1_select k h1 h2 hcl
    simp only [latin1EntryOk, Bool.and_eq_true, Bool.or_eq_true, beq_iff_eq,
      List.all_eq_true] at hok
    rw [foldRune_of_select_some (ofNat_ge_80 (by omega)) hcl]
    exact ⟨hok.1.2, hok.2⟩

theorem foldRune_latin1_sign (k : Nat) (h : k = 0xD7 ∨ k = 0xF7) :
    foldRune (Int.ofNat k) = [Int.ofNat k] := by
  apply foldRune_of_select_none
  cases hsel : selectCase foldCases (Int.ofNat k) with
  | none => rfl
  | some cl =>
    have hok := latin1_select k (by omega) (by omega) hsel
    simp only [latin1EntryOk, Bool.and_eq_true, bne_iff_ne, ne_eq] at hok
    omega

theorem isAsciiLetter_bounds {w : Rune} (h : isAsciiLetter w = true) :
    (0x41 ≤ w ∧ w ≤ 0x5A) ∨ (0x61 ≤ w ∧ w ≤ 0x7A) := by
  cases w with
  | negSucc k => simp [isAsciiLetter] at h
  | ofNat k =>
    simp only [isAsciiLetter, Bool.or_eq_true, Bool.and_eq_true, decide_eq_true_eq] at h
    show ((0x41 : Int) ≤ (k : Int) ∧ (k : Int) ≤ 0x5A) ∨ ((0x61 : Int) ≤ (k : Int) ∧ (k : Int) ≤ 0x7A)
    omega

theorem filter_foldRune (c : Rune) :
    (foldRune c).filter isSpaceOrControl = [c].filter isSpaceOrControl := by
  by_cases hc : c < 0x80
  · rw [foldRune_of_lt hc]
  · cases hsel : selectCase foldCases c with
    | none => rw [foldRune_of_select_none hsel]
    | some cl =>
      have hge : (0x80 : Rune) ≤ c := not_lt.mp hc
      rw [foldRune_of_select_some hge hsel]
      have hok := clauseOk_of_mem (selectCase_mem hsel).1
      have hl : cl.writes.filter isSpaceOrControl = [] := by
        rw [List.filter_eq_nil_iff]
        intro w hw
        have hp := clause_printable hok hw
        have h1 : ¬ w ≤ 0x20 := not_le.mpr (lt_of_lt_of_le (by decide) hp.1)
        have h2 : ¬ w = 0x7F := fun h => absurd (h ▸ hp.2) (by decide)
        simp [isSpaceOrControl, h1, h2]
      have hr : [c].filter isSpaceOrControl = [] := by
        have h1 : ¬ c ≤ 0x20 := not_le.mpr (lt_of_lt_of_le (by decide) hge)
        have h2 : ¬ c = 0x7F := fun h => absurd (h ▸ hge) (by decide)
        simp [isSpaceOrControl, h1, h2]
      rw [hl, hr]

theorem filter_flatMap_foldRune (l : List Rune) :
    (l.flatMap foldRune).filter isSpaceOrControl = l.filter isSpaceOrControl := by
  induction l with
  | nil => rfl
  | cons c t ih =>
    have hc := filter_foldRune c
    rw [List.flatMap_cons, List.filter_append, ih, hc]
    show List.filter isSpaceOrControl [c] ++ List.filter isSpaceOrControl t
      = List.filter isSpaceOrControl ([c] ++ t)
    rw [List.filter_append]

theorem decimalDigits_table :
    (List.range 100).all (fun n =>
      decimalDigits n == (Nat.repr n).toList.map (fun ch => Int.ofNat ch.toNat)) = true := by
  decide!

theorem decimalDigits_repr (n : Nat) (h : n < 100) :
    decimalDigits n = (Nat.repr n).toList.map (fun ch => Int.ofNat ch.toNat) :=
  eq_of_beq (List.all_eq_true.mp decimalDigits_table n (List.mem_range.mpr h))

theorem fold_single (c : Rune) : fold [c] = some (foldRune c) := by
  rw [fold_eq]
  simp

/-! The claims on single entries of the table -/

/-- C24: the code at the code points the claim names. U+01E5 and U+01E7, which
the comments of their `case` lines call small letters, stand in the clause of
the capital letters U+01E4 and U+01E6 and are written as `G`, while the small
letters of the next clause, U+01F5 among them, are written as `g`. -/
theorem fold_small_g_with_stroke_caron :
    fold [0x01E5] = some [0x47] ∧ fold [0x01E7] = some [0x47]
      ∧ fold [0x01E4] = some [0x47] ∧ fold [0x01E6] = some [0x47]
      ∧ fold [0x01F5] = some [0x67]
      ∧ Filter [0xC7, 0xA5] = some [0x47] := by
  decide!

/-- C25: the code at the insular S pair. U+A784, which the comment of its `case`
line calls the capital letter, is written as `s`, and U+A785, called the small
letter, as `S`. -/
theorem fold_insular_s :
    fold [0xA784] = some [0x73] ∧ fold [0xA785] = some [0x53]
      ∧ Filter [0xEA, 0x9E, 0x84] = some [0x73] := by
  decide!

/-- C27: for `n` from 1 to 20 the circled number U+245F + n is folded to the
decimal numeral of `n`, the parenthesized number U+2473 + n to the numeral in
parentheses and the number with full stop U+2487 + n to the numeral and a full
stop; the numeral has one or two digits, so the three outputs have 1 to 2, 3 to
4 and 2 to 3 characters. -/
theorem fold_enclosed_numbers (n : Nat) (h1 : 1 ≤ n) (h2 : n ≤ 20) :
    foldRune (Int.ofNat (0x245F + n)) = decimalDigits n
      ∧ foldRune (Int.ofNat (0x2473 + n)) = 0x28 :: decimalDigits n ++ [0x29]
      ∧ foldRune (Int.ofNat (0x2487 + n)) = decimalDigits n ++ [0x2E]
      ∧ (1 ≤ (decimalDigits n).length ∧ (decimalDigits n).length ≤ 2)
      ∧ decimalDigits n = (Nat.repr n).toList.map (fun ch => Int.ofNat ch.toNat)
      ∧ fold [Int.ofNat (0x245F + n), Int.ofNat (0x2473 + n), Int.ofNat (0x2487 + n)]
          = some (decimalDigits n ++ (0x28 :: decimalDigits n ++ [0x29])
              ++ (decimalDigits n ++ [0x2E])) := by
  have e1 : foldRune (Int.ofNat (0x245F + n)) = decimalDigits n := by
    rw [foldRune_enclosed _ (by omega) (by omega)]
    have : 0x245F + n ≤ 0x2473 := by omega
    simp only [enclosedExpected, this, if_true, Nat.add_sub_cancel_left]
  have e2 : foldRune (Int.ofNat (0x2473 + n)) = 0x28 :: decimalDigits n ++ [0x29] := by
    rw [foldRune_enclosed _ (by omega) (by omega)]
    have a1 : ¬ 0x2473 + n ≤ 0x2473 := by omega
    have a2 : 0x2473 + n ≤ 0x2487 := by omega
    simp only [enclosedExpected, a1, a2, if_true, if_false, Nat.add_sub_cancel_left]
  have e3 : foldRune (Int.ofNat (0x2487 + n)) = decimalDigits n ++ [0x2E] := by
    rw [foldRune_enclosed _ (by omega) (by omega)]
    have a1 : ¬ 0x2487 + n ≤ 0x2473 := by omega
    have a2 : ¬ 0x2487 + n ≤ 0x2487 := by omega
    have a3 : 0x2487 + n ≤ 0x249B := by omega
    simp only [enclosedExpected, a1, a2, a3, if_true, if_false, Nat.add_sub_cancel_left]
  refine ⟨e1, e2, e3, ?_, decimalDigits_repr n (by omega), ?_⟩
  · unfold decimalDigits
    split <;> simp
  · rw [fold_eq]
    simp only [List.flatMap_cons, List.flatMap_nil, List.append_nil, e1, e2, e3,
      List.append_assoc]

/-- The statement above at 10, with the numeral written out. -/
theorem fold_enclosed_numbers_witness :
    (1 ≤ 10 ∧ 10 ≤ 20)
      ∧ decimalDigits 10 = [0x31, 0x30]
      ∧ foldRune (Int.ofNat (0x245F + 10)) = decimalDigits 10
      ∧ foldRune (Int.ofNat (0x2473 + 10)) = 0x28 :: decimalDigits 10 ++ [0x29]
      ∧ foldRune (Int.ofNat (0x2487 + 10)) = decimalDigits 10 ++ [0x2E]
      ∧ (1 ≤ (decimalDigits 10).length ∧ (decimalDigits 10).length ≤ 2)
      ∧ decimalDigits 10 = (Nat.repr 10).toList.map (fun ch => Int.ofNat ch.toNat)
      ∧ fold [Int.ofNat (0x245F + 10), Int.ofNat (0x2473 + 10), Int.ofNat (0x2487 + 10)]
          = some (decimalDigits 10 ++ (0x28 :: decimalDigits 10 ++ [0x29])
              ++ (decimalDigits 10 ++ [0x2E])) :=
  ⟨by decide, by decide, fold_enclosed_numbers 10 (by decide) (by decide)⟩

theorem foldRune_letters_by_offset (i d : Nat) (hi : i ≤ 25) (hd : d ≤ 9) :
    foldRune (Int.ofNat (0x24B6 + i)) = [Int.ofNat (0x41 + i)]
      ∧ foldRune (Int.ofNat (0x24D0 + i)) = [Int.ofNat (0x61 + i)]
      ∧ foldRune (Int.ofNat (0x249C + i)) = [0x28, Int.ofNat (0x61 + i), 0x29]
      ∧ foldRune (Int.ofNat (0xFF21 + i)) = [Int.ofNat (0x41 + i)]
      ∧ foldRune (Int.ofNat (0xFF41 + i)) = [Int.ofNat (0x61 + i)]
      ∧ foldRune (Int.ofNat (0xFF10 + d)) = [Int.ofNat (0x30 + d)] := by
  refine ⟨?_, ?_, ?_, ?_, ?_, ?_⟩
  · rw [foldRune_enclosed _ (by omega) (by omega)]
    have a1 : ¬ 0x24B6 + i ≤ 0x2473 := by omega
    have a2 : ¬ 0x24B6 + i ≤ 0x2487 := by omega
    have a3 : ¬ 0x24B6 + i ≤ 0x249B := by omega
    have a4 : ¬ 0x24B6 + i ≤ 0x24B5 := by omega
    have a5 : 0x24B6 + i ≤ 0x24CF := by omega
    simp only [enclosedExpected, a1, a2, a3, a4, a5, if_true, if_false,
      Nat.add_sub_cancel_left]
  · rw [foldRune_enclosed _ (by omega) (by omega)]
    have a1 : ¬ 0x24D0 + i ≤ 0x2473 := by omega
    have a2 : ¬ 0x24D0 + i ≤ 0x2487 := by omega
    have a3 : ¬ 0x24D0 + i ≤ 0x249B := by omega
    have a4 : ¬ 0x24D0 + i ≤ 0x24B5 := by omega
    have a5 : ¬ 0x24D0 + i ≤ 0x24CF := by omega
    simp only [enclosedExpected, a1, a2, a3, a4, a5, if_false, Nat.add_sub_cancel_left]
  · rw [foldRune_enclosed _ (by omega) (by omega)]
    have a1 : ¬ 0x249C + i ≤ 0x2473 := by omega
    have a2 : ¬ 0x249C + i ≤ 0x2487 := by omega
    have a3 : ¬ 0x249C + i ≤ 0x249B := by omega
    have a4 : 0x249C + i ≤ 0x24B5 := by omega
    simp only [enclosedExpected, a1, a2, a3, a4, if_true, if_false, Nat.add_sub_cancel_left]
  · rw [foldRune_fullwidth_nat _ (by omega) (by omega) (by omega) (by omega)]
    have : 0xFF21 + i - 0xFEE0 = 0x41 + i := by omega
    rw [this]
  · rw [foldRune_fullwidth_nat _ (by omega) (by omega) (by omega) (by omega)]
    have : 0xFF41 + i - 0xFEE0 = 0x61 + i := by omega
    rw [this]
  · rw [foldRune_fullwidth_nat _ (by omega) (by omega) (by omega) (by omega)]
    have : 0xFF10 + d - 0xFEE0 = 0x30 + d := by omega
    rw [this]

/-- C28: for `i` from 0 to 25 the circled capital letter U+24B6 + i and the
fullwidth capital letter U+FF21 + i are folded to the letter `A` + i, the
circled small letter U+24D0 + i and the fullwidth small letter U+FF41 + i to
the letter `a` + i, the parenthesized small letter U+249C + i to `a` + i in
parentheses; for `d` from 0 to 9 the fullwidth digit U+FF10 + d is folded to
the digit `0` + d. Each is stated of the characters one iteration writes and of
the result of the fold of the one code point. -/
theorem fold_letters_by_offset (i d : Nat) (hi : i ≤ 25) (hd : d ≤ 9) :
    (foldRune (Int.ofNat (0x24B6 + i)) = [Int.ofNat (0x41 + i)]
        ∧ foldRune (Int.ofNat (0x24D0 + i)) = [Int.ofNat (0x61 + i)]
        ∧ foldRune (Int.ofNat (0x249C + i)) = [0x28, Int.ofNat (0x61 + i), 0x29]
        ∧ foldRune (Int.ofNat (0xFF21 + i)) = [Int.ofNat (0x41 + i)]
        ∧ foldRune (Int.ofNat (0xFF41 + i)) = [Int.ofNat (0x61 + i)]
        ∧ foldRune (Int.ofNat (0xFF10 + d)) = [Int.ofNat (0x30 + d)])
      ∧ (fold [Int.ofNat (0x24B6 + i)] = some [Int.ofNat (0x41 + i)]
        ∧ fold [Int.ofNat (0x24D0 + i)] = some [Int.ofNat (0x61 + i)]
        ∧ fold [Int.ofNat (0x249C + i)] = some [0x28, Int.ofNat (0x61 + i), 0x29]
        ∧ fold [Int.ofNat (0xFF21 + i)] = some [Int.ofNat (0x41 + i)]
        ∧ fold [Int.ofNat (0xFF41 + i)] = some [Int.ofNat (0x61 + i)]
        ∧ fold [Int.ofNat (0xFF10 + d)] = some [Int.ofNat (0x30 + d)]) := by
  have h := foldRune_letters_by_offset i d hi hd
  refine ⟨h, ?_, ?_, ?_, ?_, ?_, ?_⟩
  · rw [fold_single, h.1]
  · rw [fold_single, h.2.1]
  · rw [fold_single, h.2.2.1]
  · rw [fold_single, h.2.2.2.1]
  · rw [fold_single, h.2.2.2.2.1]
  · rw [fold_single, h.2.2.2.2.2]

/-- The statement above at the letter of index 25 and the digit 9. -/
theorem fold_letters_by_offset_witness :
    (25 ≤ 25 ∧ 9 ≤ 9)
      ∧ (foldRune (Int.ofNat (0x24B6 + 25)) = [Int.ofNat (0x41 + 25)]
        ∧ foldRune (Int.ofNat (0x24D0 + 25)) = [Int.ofNat (0x61 + 25)]
        ∧ foldRune (Int.ofNat (0x249C + 25)) = [0x28, Int.ofNat (0x61 + 25), 0x29]
        ∧ foldRune (Int.ofNat (0xFF21 + 25)) = [Int.ofNat (0x41 + 25)]
        ∧ foldRune (Int.ofNat (0xFF41 + 25)) = [Int.ofNat (0x61 + 25)]
        ∧ foldRune (Int.ofNat (0xFF10 + 9)) = [Int.ofNat (0x30 + 9)])
      ∧ (fold [Int.ofNat (0x24B6 + 25)] = some [Int.ofNat (0x41 + 25)]
        ∧ fold [Int.ofNat (0x24D0 + 25)] = some [Int.ofNat (0x61 + 25)]
        ∧ fold [Int.ofNat (0x249C + 25)] = some [0x28, Int.ofNat (0x61 + 25), 0x29]
        ∧ fold [Int.ofNat (0xFF21 + 25)] = some [Int.ofNat (0x41 + 25)]
        ∧ fold [Int.ofNat (0xFF41 + 25)] = some [Int.ofNat (0x61 + 25)]
        ∧ fold [Int.ofNat (0xFF10 + 9)] = some [Int.ofNat (0x30 + 9)]) :=
  ⟨by decide, fold_letters_by_offset 25 9 (by decide) (by decide)⟩

/-- C29: every code point of U+00C0..U+00FF other than U+00D7 and U+00F7 is
folded to one or two ASCII letters; U+00D7 and U+00F7 are returned unchanged. -/
theorem fold_latin1_letters (c : Rune) (h1 : 0xC0 ≤ c) (h2 : c ≤ 0xFF) (h3 : c ≠ 0xD7)
    (h4 : c ≠ 0xF7) :
    (fold [c] = some (foldRune c)
        ∧ ((foldRune c).length = 1 ∨ (foldRune c).length = 2)
        ∧ ∀ w ∈ foldRune c, (0x41 ≤ w ∧ w ≤ 0x5A) ∨ (0x61 ≤ w ∧ w ≤ 0x7A))
      ∧ fold [0xD7] = some [0xD7] ∧ fold [0xF7] = some [0xF7] := by
  have s1 : foldRune 0xD7 = [0xD7] := foldRune_latin1_sign 0xD7 (Or.inl rfl)
  have s2 : foldRune 0xF7 = [0xF7] := foldRune_latin1_sign 0xF7 (Or.inr rfl)
  refine ⟨⟨by rw [fold_eq]; simp, ?_⟩, by rw [fold_eq]; simp [s1], by rw [fold_eq]; simp [s2]⟩
  have h0 : (0 : Int) ≤ c := le_trans (by decide) h1
  obtain ⟨k, rfl⟩ := Int.eq_ofNat_of_zero_le h0
  have h1i : (0xC0 : Int) ≤ (k : Int) := h1
  have h2i : (k : Int) ≤ (0xFF : Int) := h2
  have h3i : (k : Int) ≠ (0xD7 : Int) := h3
  have h4i : (k : Int) ≠ (0xF7 : Int) := h4
  have hk := foldRune_latin1 k (by omega) (by omega) (by omega) (by omega)
  exact ⟨hk.1, fun w hw => isAsciiLetter_bounds (hk.2 w hw)⟩

/-- The statement above at U+00DF, the sharp s, folded to two letters. -/
theorem fold_latin1_letters_witness :
    ((0xC0 : Rune) ≤ 0xDF ∧ (0xDF : Rune) ≤ 0xFF ∧ (0xDF : Rune) ≠ 0xD7 ∧ (0xDF : Rune) ≠ 0xF7)
      ∧ (fold [0xDF] = some (foldRune 0xDF)
        ∧ ((foldRune 0xDF).length = 1 ∨ (foldRune 0xDF).length = 2)
        ∧ ∀ w ∈ foldRune 0xDF, (0x41 ≤ w ∧ w ≤ 0x5A) ∨ (0x61 ≤ w ∧ w ≤ 0x7A))
      ∧ fold [0xD7] = some [0xD7] ∧ fold [0xF7] = some [0xF7] :=
  ⟨by decide, fold_latin1_letters 0xDF (by decide) (by decide) (by decide) (by decide)⟩

/-- C30: every character a case clause writes lies in U+0021..U+007E, and the
code points up to U+0020 and U+007F of the fold of an input are those of the
input, in the same order. -/
theorem fold_keeps_space_control (inp : List Rune) :
    (∃ out, fold inp = some out
        ∧ out.filter isSpaceOrControl = inp.filter isSpaceOrControl)
      ∧ ∀ cl ∈ foldCases, ∀ w ∈ cl.writes, 0x21 ≤ w ∧ w ≤ 0x7E :=
  ⟨⟨_, fold_eq inp, filter_flatMap_foldRune inp⟩,
    fun _ hcl _ hw => clause_printable (clauseOk_of_mem hcl) hw⟩

/-! The loop as the source writes it -/

theorem writeRunes_some (ws : List Rune) :
    ∀ (out : RuneSlice) (op : Nat) (o1 : RuneSlice) (p1 : Nat),
      writeRunes ws out op = some (o1, p1) →
      o1.len = out.len ∧ p1 = op + ws.length ∧ o1.cap = out.cap
        ∧ (ws ≠ [] → op + ws.length ≤ out.len) := by
  induction ws with
  | nil =>
    intro out op o1 p1 h
    simp only [writeRunes, Option.some.injEq, Prod.mk.injEq] at h
    obtain ⟨rfl, rfl⟩ := h
    simp
  | cons w ws ih =>
    intro out op o1 p1 h
    simp only [writeRunes, RuneSlice.setIdx] at h
    by_cases hlt : op < out.len
    · simp only [hlt, if_true] at h
      have hr := ih _ _ _ _ h
      simp only [RuneSlice.cap, List.length_set] at hr
      refine ⟨hr.1, ?_, hr.2.2.1, ?_⟩
      · rw [hr.2.1, List.length_cons]; omega
      · intro _
        rw [List.length_cons]
        by_cases hws : ws = []
        · subst hws; simp only [List.length_nil]; omega
        · have := hr.2.2.2 hws; omega
    · simp [hlt] at h

theorem foldStep_some {c : Rune} {out o1 : RuneSlice} {op p1 : Nat}
    (h : foldStep c out op = some (o1, p1)) :
    p1 = op + (foldRune c).length ∧ o1.len + 1 = out.len + (foldRune c).length
      ∧ o1.cap = out.cap ∧ op < out.len
      ∧ (out.len ≤ out.cap → out.len + (foldRune c).length ≤ out.cap + 1) := by
  unfold foldStep foldStepWith at h
  unfold foldRune
  by_cases hc : c < 0x80
  · simp only [hc, if_true] at h ⊢
    have hr := writeRunes_some [c] _ _ _ _ h
    have := hr.2.2.2 (by simp)
    simp only [List.length_cons, List.length_nil] at hr this ⊢
    refine ⟨hr.2.1, by omega, hr.2.2.1, by omega, fun hwf => by omega⟩
  · simp only [hc, if_false] at h ⊢
    cases hsel : selectCase foldCases c with
    | none =>
      simp only [hsel] at h ⊢
      have hr := writeRunes_some [c] _ _ _ _ h
      have := hr.2.2.2 (by simp)
      simp only [List.length_cons, List.length_nil] at hr this ⊢
      refine ⟨hr.2.1, by omega, hr.2.2.1, by omega, fun hwf => by omega⟩
    | some cl =>
      simp only [hsel] at h ⊢
      have hg := clause_grow (clauseOk_of_mem (selectCase_mem hsel).1)
      have hne : cl.writes ≠ [] := by
        intro h0; rw [h0] at hg; simp at hg
      unfold runClause at h
      by_cases h0 : cl.grow = 0
      · simp only [h0, if_true] at h
        have hr := writeRunes_some cl.writes _ _ _ _ h
        have := hr.2.2.2 hne
        refine ⟨hr.2.1, by omega, hr.2.2.1, by omega, fun hwf => by omega⟩
      · simp only [h0, if_false, RuneSlice.resliceTo] at h
        by_cases hcap : out.len + cl.grow ≤ out.cap
        · simp only [hcap, if_true] at h
          have hr := writeRunes_some cl.writes _ _ _ _ h
          have := hr.2.2.2 hne
          simp only [RuneSlice.cap] at hr this hcap ⊢
          refine ⟨hr.2.1, by omega, hr.2.2.1, by omega, fun _ => by omega⟩
        · simp [hcap] at h

theorem foldWhile_run (input : List Rune) (extra : Nat) :
    ∀ (n pos : Nat) (out : RuneSlice) (op : Nat),
      ∃ starts last, foldWhile input (pos + n) (n + 1 + extra) pos out op = some (starts, last)
        ∧ last.map Prod.fst = foldLoop input n pos out op
        ∧ starts.map IterStart.pos <+: List.range' pos n
        ∧ (last.isSome = true → starts.map IterStart.pos = List.range' pos n) := by
  intro n
  induction n with
  | zero =>
    intro pos out op
    refine ⟨[], some (out, op), ?_, rfl, by simp, by simp⟩
    have : 0 + 1 + extra = extra + 1 := by omega
    rw [this]
    simp [foldWhile]
  | succ n ih =>
    intro pos out op
    have hfuel : n + 1 + 1 + extra = (n + 1 + extra) + 1 := by omega
    have hend : pos + (n + 1) = (pos + 1) + n := by omega
    have hlt : pos < pos + 1 + n := by omega
    rw [hfuel, hend]
    simp only [foldWhile, hlt, if_true, foldLoop, List.range'_succ, List.map_cons]
    cases hin : input[pos]? with
    | none =>
      refine ⟨_, _, rfl, rfl, ?_, by simp⟩
      simp only [List.map_cons, List.map_nil]
      exact List.prefix_iff_eq_append.mpr (by simp)
    | some c =>
      dsimp only
      cases hstep : foldStep c out op with
      | none =>
        dsimp only
        refine ⟨_, _, rfl, rfl, ?_, by simp⟩
        simp only [List.map_cons, List.map_nil]
        exact List.prefix_iff_eq_append.mpr (by simp)
      | some res =>
        obtain ⟨o1, p1⟩ := res
        obtain ⟨starts, last, hrun, hres, hpre, hall⟩ := ih (pos + 1) o1 p1
        dsimp only
        rw [hrun]
        dsimp only
        refine ⟨_, _, rfl, hres, ?_, ?_⟩
        · simp only [List.map_cons]
          exact (List.cons_prefix_cons).mpr ⟨rfl, hpre⟩
        · intro hs
          simp only [List.map_cons, hall hs]

theorem foldWhile_invariant (input : List Rune) (endPos : Nat) :
    ∀ (fuel pos : Nat) (out : RuneSlice) (op : Nat) (starts : List IterStart)
      (last : Option (RuneSlice × Nat)),
      foldWhile input endPos fuel pos out op = some (starts, last) →
      out.len + pos = op + endPos → pos ≤ endPos →
      (∀ s ∈ starts, s.outLen + s.pos = s.outputPos + endPos ∧ s.pos < endPos)
        ∧ ∀ r p, last = some (r, p) → r.len = p := by
  intro fuel
  induction fuel with
  | zero =>
    intro pos out op starts last h
    simp [foldWhile] at h
  | succ fuel ih =>
    intro pos out op starts last h hinv hle
    simp only [foldWhile] at h
    by_cases hlt : pos < endPos
    · simp only [hlt, if_true] at h
      cases hin : input[pos]? with
      | none =>
        simp only [hin, Option.some.injEq, Prod.mk.injEq] at h
        obtain ⟨rfl, rfl⟩ := h
        refine ⟨?_, by simp⟩
        intro s hs
        simp only [List.mem_singleton] at hs
        subst hs
        exact ⟨hinv, hlt⟩
      | some c =>
        simp only [hin] at h
        cases hstep : foldStep c out op with
        | none =>
          simp only [hstep, Option.some.injEq, Prod.mk.injEq] at h
          obtain ⟨rfl, rfl⟩ := h
          refine ⟨?_, by simp⟩
          intro s hs
          simp only [List.mem_singleton] at hs
          subst hs
          exact ⟨hinv, hlt⟩
        | some res =>
          obtain ⟨o1, p1⟩ := res
          simp only [hstep] at h
          have hs := foldStep_some hstep
          cases hrec : foldWhile input endPos fuel (pos + 1) o1 p1 with
          | none => simp [hrec] at h
          | some res2 =>
            obtain ⟨starts2, last2⟩ := res2
            simp only [hrec, Option.some.injEq, Prod.mk.injEq] at h
            obtain ⟨rfl, rfl⟩ := h
            have hr := ih (pos + 1) o1 p1 starts2 last2 hrec (by omega) (by omega)
            refine ⟨?_, hr.2⟩
            intro s hmem
            rcases List.mem_cons.mp hmem with rfl | hmem2
            · exact ⟨hinv, hlt⟩
            · exact hr.1 s hmem2
    · simp only [hlt, if_false, Option.some.injEq, Prod.mk.injEq] at h
      obtain ⟨rfl, rfl⟩ := h
      refine ⟨by simp, ?_⟩
      intro r p hrp
      simp only [Option.some.injEq, Prod.mk.injEq] at hrp
      obtain ⟨rfl, rfl⟩ := hrp
      omega

theorem foldLoop_none_of_cap (input : List Rune) :
    ∀ (n pos : Nat) (out : RuneSlice) (op : Nat), pos + n ≤ input.length →
      out.len = op + n → out.len ≤ out.cap →
      out.cap < op + (((input.drop pos).take n).flatMap foldRune).length →
      foldLoop input n pos out op = none := by
  intro n
  induction n with
  | zero =>
    intro pos out op _ hlen hwf hcap
    simp only [List.take_zero, List.flatMap_nil, List.length_nil] at hcap
    omega
  | succ n ih =>
    intro pos out op hpos hlen hwf hcap
    have hlt : pos < input.length := by omega
    have hdrop : (input.drop pos).take (n + 1) = input[pos] :: (input.drop (pos + 1)).take n := by
      rw [List.drop_eq_getElem_cons hlt, List.take_succ_cons]
    rw [hdrop, List.flatMap_cons, List.length_append] at hcap
    simp only [foldLoop, List.getElem?_eq_getElem hlt]
    cases hstep : foldStep input[pos] out op with
    | none => rfl
    | some res =>
      obtain ⟨o1, p1⟩ := res
      have hs := foldStep_some hstep
      have h5 := hs.2.2.2.2 hwf
      simp only
      exact ih (pos + 1) o1 p1 (by omega) (by omega) (by rw [hs.2.2.1]; omega)
        (by rw [hs.2.2.1, hs.1]; omega)

theorem flatMap_foldRune_length_gt (l : List Rune) (h : ∃ c ∈ l, 2 ≤ (foldRune c).length) :
    l.length < (l.flatMap foldRune).length := by
  induction l with
  | nil => obtain ⟨c, hc, _⟩ := h; simp at hc
  | cons a t ih =>
    obtain ⟨c, hc, hk⟩ := h
    have ha := foldRune_length_pos a
    have ht := flatMap_foldRune_length_ge t
    simp only [List.flatMap_cons, List.length_append, List.length_cons]
    rcases List.mem_cons.mp hc with rfl | hmem
    · omega
    · have := ih ⟨c, hmem, hk⟩
      omega

theorem FilterVia_eq (callee : List Rune → Nat → RuneSlice → Nat → Nat → Option RuneSlice)
    (input : List Nat) (h : input ≠ []) :
    FilterVia callee input
      = (callee (decodeRunes input) 0 (FilterOut input) 0 (decodeRunes input).length).map
          (fun r => encodeRunes r.toList) := by
  have hl : ¬ input.length = 0 := fun h0 => h (List.length_eq_zero.mp h0)
  unfold FilterVia FilterOut
  rw [if_neg hl]
  cases callee (decodeRunes input) 0
      (make (decodeRunes input).length ((decodeRunes input).length * 4)) 0
      (decodeRunes input).length with
  | none => rfl
  | some out => rfl

/-! The claims on the loop and the output storage -/

/-- C22: in the call `Filter` makes (cursor 0, `len(output)` the number of input
code points, capacity four times that), at the start of every iteration
`len(output) - outputPos` is the number of input code points not yet processed,
every position is visited, and on return `len(output)` is the final cursor, the
number of characters written: the returned slice holds exactly the characters
written. -/
theorem foldToASCII_loop_invariant (inp : List Rune) (out : RuneSlice)
    (hlen : out.len = inp.length) (hcap : out.cap = 4 * inp.length) :
    ∃ starts r outputPos,
      foldWhile inp (0 + inp.length) (inp.length + 1) 0 out 0 = some (starts, some (r, outputPos))
        ∧ foldToASCII inp 0 out 0 inp.length = some r
        ∧ starts.map IterStart.pos = List.range' 0 inp.length
        ∧ (∀ s ∈ starts, s.outLen - s.outputPos = inp.length - s.pos ∧ s.pos < inp.length
            ∧ s.outputPos < s.outLen)
        ∧ r.len = outputPos
        ∧ outputPos = (inp.flatMap foldRune).length
        ∧ r.toList = inp.flatMap foldRune := by
  obtain ⟨starts, last, hrun, hres, _, hall⟩ := foldWhile_run inp 0 inp.length 0 out 0
  have hle : (inp.flatMap foldRune).length ≤ out.cap := by
    rw [hcap]; exact flatMap_foldRune_length_le inp
  have hok := foldToASCII_from_start inp out hlen hle
  have hok2 := hok
  unfold foldToASCII at hok2
  rw [hok2] at hres
  cases last with
  | none => simp at hres
  | some rp =>
    obtain ⟨r, p⟩ := rp
    simp only [Option.map_some', Option.some.injEq] at hres
    have hinv := foldWhile_invariant inp (0 + inp.length) _ 0 out 0 starts (some (r, p)) hrun
      (by omega) (by omega)
    have hrp := hinv.2 r p rfl
    refine ⟨starts, r, p, hrun, ?_, hall rfl, ?_, hrp, ?_, ?_⟩
    · rw [hok, ← hres]
    · intro s hs
      have := hinv.1 s hs
      omega
    · rw [← hrp, hres]
    · rw [hres]
      simp [RuneSlice.toList]

/-- The invariant above on the input `a`, U+00C6, U+247D and a slice of length 3
and capacity 12 filled with sevens. -/
theorem foldToASCII_loop_invariant_witness :
    ((RuneSlice.mk (List.replicate 12 7) 3).len = [(0x61 : Rune), 0xC6, 0x247D].length
        ∧ (RuneSlice.mk (List.replicate 12 7) 3).cap = 4 * [(0x61 : Rune), 0xC6, 0x247D].length)
      ∧ ∃ starts r outputPos,
          foldWhile [0x61, 0xC6, 0x247D] (0 + [(0x61 : Rune), 0xC6, 0x247D].length)
              ([(0x61 : Rune), 0xC6, 0x247D].length + 1) 0
              (RuneSlice.mk (List.replicate 12 7) 3) 0 = some (starts, some (r, outputPos))
            ∧ foldToASCII [0x61, 0xC6, 0x247D] 0 (RuneSlice.mk (List.replicate 12 7) 3) 0
                [(0x61 : Rune), 0xC6, 0x247D].length = some r
            ∧ starts.map IterStart.pos = List.range' 0 [(0x61 : Rune), 0xC6, 0x247D].length
            ∧ (∀ s ∈ starts, s.outLen - s.outputPos
                  = [(0x61 : Rune), 0xC6, 0x247D].length - s.pos
                ∧ s.pos < [(0x61 : Rune), 0xC6, 0x247D].length ∧ s.outputPos < s.outLen)
            ∧ r.len = outputPos
            ∧ outputPos = ([(0x61 : Rune), 0xC6, 0x247D].flatMap foldRune).length
            ∧ r.toList = [(0x61 : Rune), 0xC6, 0x247D].flatMap foldRune :=
  ⟨⟨rfl, rfl⟩, foldToASCII_loop_invariant [0x61, 0xC6, 0x247D]
    (RuneSlice.mk (List.replicate 12 7) 3) rfl rfl⟩

/-- C23 as stated fails: for the one-byte input `a`, which needs no expansion,
the slice `Filter` hands to `foldToASCII` has length 1 and capacity 4. -/
theorem Filter_allocates_four_times :
    (∀ callee : List Rune → Nat → RuneSlice → Nat → Nat → Option RuneSlice,
        FilterVia callee [0x61]
          = (callee [0x61] 0 (FilterOut [0x61]) 0 1).map (fun r => encodeRunes r.toList))
      ∧ (FilterOut [0x61]).len = 1 ∧ (FilterOut [0x61]).cap = 4
      ∧ fold [0x61] = some [0x61] :=
  ⟨fun callee => FilterVia_eq callee [0x61] (by decide), by decide, by decide, by decide⟩

/-- C23, amended: on every non-empty input `Filter` calls `foldToASCII` with a
slice whose length is the number of decoded code points and whose capacity is
four times that number; `foldToASCII` returns a slice of the same capacity, its
length within it: the storage is never grown. -/
theorem Filter_storage (input : List Nat) (h : input ≠ []) :
    (∀ callee : List Rune → Nat → RuneSlice → Nat → Nat → Option RuneSlice,
        FilterVia callee input
          = (callee (decodeRunes input) 0 (FilterOut input) 0 (decodeRunes input).length).map
              (fun r => encodeRunes r.toList))
      ∧ (FilterOut input).len = (decodeRunes input).length
      ∧ (FilterOut input).cap = 4 * (decodeRunes input).length
      ∧ ∃ r, foldToASCII (decodeRunes input) 0 (FilterOut input) 0 (decodeRunes input).length
            = some r
          ∧ r.cap = (FilterOut input).cap ∧ r.len ≤ r.cap := by
  have hle := flatMap_foldRune_length_le (decodeRunes input)
  have hcapv : (FilterOut input).cap = 4 * (decodeRunes input).length := by
    simp only [FilterOut, make, RuneSlice.cap, List.length_replicate]
    omega
  have hrun := foldToASCII_from_start (decodeRunes input) (FilterOut input) rfl
    (by rw [hcapv]; exact hle)
  refine ⟨fun callee => FilterVia_eq callee input h, rfl, hcapv, _, hrun, ?_, ?_⟩
  · simp only [RuneSlice.cap, List.length_append, List.length_drop]
    have : (FilterOut input).arr.length = 4 * (decodeRunes input).length := hcapv
    omega
  · simp only [RuneSlice.cap, List.length_append, List.length_drop]
    have : (FilterOut input).arr.length = 4 * (decodeRunes input).length := hcapv
    omega

/-- The statement above on the two bytes of U+00C6. -/
theorem Filter_storage_witness :
    ([0xC3, 0x86] : List Nat) ≠ []
      ∧ (∀ callee : List Rune → Nat → RuneSlice → Nat → Nat → Option RuneSlice,
          FilterVia callee [0xC3, 0x86]
            = (callee (decodeRunes [0xC3, 0x86]) 0 (FilterOut [0xC3, 0x86]) 0
                (decodeRunes [0xC3, 0x86]).length).map (fun r => encodeRunes r.toList))
      ∧ (FilterOut [0xC3, 0x86]).len = (decodeRunes [0xC3, 0x86]).length
      ∧ (FilterOut [0xC3, 0x86]).cap = 4 * (decodeRunes [0xC3, 0x86]).length
      ∧ ∃ r, foldToASCII (decodeRunes [0xC3, 0x86]) 0 (FilterOut [0xC3, 0x86]) 0
              (decodeRunes [0xC3, 0x86]).length = some r
          ∧ r.cap = (FilterOut [0xC3, 0x86]).cap ∧ r.len ≤ r.cap :=
  ⟨by decide, Filter_storage [0xC3, 0x86] (by decide)⟩

/-- C26: for an output slice of length `len(in)` (at most its capacity) and the
cursor at 0, `foldToASCII` returns if and only if the capacity is at least the
number of characters written for `in`; with the capacity equal to `len(in)` it
fails on every input holding a code point written as two or more characters. -/
theorem foldToASCII_capacity (inp : List Rune) (out : RuneSlice)
    (hlen : out.len = inp.length) (hwf : out.len ≤ out.cap) :
    ((foldToASCII inp 0 out 0 inp.length).isSome = true
        ↔ (inp.flatMap foldRune).length ≤ out.cap)
      ∧ (out.cap = inp.length → (∃ c ∈ inp, 2 ≤ (foldRune c).length) →
          foldToASCII inp 0 out 0 inp.length = none) := by
  have hnone : out.cap < (inp.flatMap foldRune).length →
      foldToASCII inp 0 out 0 inp.length = none := by
    intro hlt
    have := foldLoop_none_of_cap inp inp.length 0 out 0 (by omega) (by omega) hwf
      (by simpa using hlt)
    exact this
  refine ⟨⟨?_, ?_⟩, ?_⟩
  · intro hsome
    by_contra hcon
    rw [hnone (by omega)] at hsome
    simp at hsome
  · intro hle
    rw [foldToASCII_from_start inp out hlen hle]
    rfl
  · intro hcap hex
    apply hnone
    have := flatMap_foldRune_length_gt inp hex
    omega

/-- The statement above on the input U+00C6, `a` and a slice of length 2 and
capacity 2, on which the call fails. -/
theorem foldToASCII_capacity_witness :
    ((RuneSlice.mk [0, 0] 2).len = [(0xC6 : Rune), 0x61].length
        ∧ (RuneSlice.mk [0, 0] 2).len ≤ (RuneSlice.mk [0, 0] 2).cap)
      ∧ ((foldToASCII [0xC6, 0x61] 0 (RuneSlice.mk [0, 0] 2) 0
            [(0xC6 : Rune), 0x61].length).isSome = true
          ↔ ([(0xC6 : Rune), 0x61].flatMap foldRune).length ≤ (RuneSlice.mk [0, 0] 2).cap)
      ∧ ((RuneSlice.mk [0, 0] 2).cap = [(0xC6 : Rune), 0x61].length →
          (∃ c ∈ [(0xC6 : Rune), 0x61], 2 ≤ (foldRune c).length) →
          foldToASCII [0xC6, 0x61] 0 (RuneSlice.mk [0, 0] 2) 0
            [(0xC6 : Rune), 0x61].length = none) :=
  ⟨⟨rfl, by decide⟩, foldToASCII_capacity [0xC6, 0x61] (RuneSlice.mk [0, 0] 2) rfl (by decide)⟩

/-! The UTF-8 size of a code point and of its fold -/

theorem foldCases_size_ok : foldCases.all clauseSizeOk = true := by decide!

theorem encodeRune_length_scalar (n : Nat) (h : isScalar (Int.ofNat n) = true) :
    (encodeRune (Int.ofNat n)).length = utf8Size n := by
  simp only [isScalar, Bool.and_eq_true, decide_eq_true_eq, Bool.not_eq_true',
    Bool.and_eq_false_iff, decide_eq_false_iff_not, Int.ofNat_eq_coe] at h
  have h0 : ¬ (Int.ofNat n : Int) < 0 := by simp only [Int.ofNat_eq_coe]; omega
  unfold encodeRune utf8Size
  rw [if_neg h0]
  by_cases c1 : n < 0x80
  · have e1 : (Int.ofNat n : Int) < 0x80 := by simp only [Int.ofNat_eq_coe]; omega
    rw [if_pos e1, if_pos c1]
    rfl
  · have e1 : ¬ (Int.ofNat n : Int) < 0x80 := by simp only [Int.ofNat_eq_coe]; omega
    rw [if_neg e1, if_neg c1]
    by_cases c2 : n < 0x800
    · have e2 : (Int.ofNat n : Int) < 0x800 := by simp only [Int.ofNat_eq_coe]; omega
      rw [if_pos e2, if_pos c2]
      rfl
    · have e2 : ¬ (Int.ofNat n : Int) < 0x800 := by simp only [Int.ofNat_eq_coe]; omega
      have e3 : ¬ ((0xD800 : Int) ≤ Int.ofNat n ∧ (Int.ofNat n : Int) ≤ 0xDFFF) := by
        simp only [Int.ofNat_eq_coe]; omega
      rw [if_neg e2, if_neg e3, if_neg c2]
      by_cases c3 : n < 0x10000
      · have e4 : (Int.ofNat n : Int) < 0x10000 := by simp only [Int.ofNat_eq_coe]; omega
        rw [if_pos e4, if_pos c3]
        rfl
      · have e4 : ¬ (Int.ofNat n : Int) < 0x10000 := by simp only [Int.ofNat_eq_coe]; omega
        have e5 : (Int.ofNat n : Int) ≤ 0x10FFFF := by simp only [Int.ofNat_eq_coe]; omega
        rw [if_neg e4, if_pos e5, if_neg c3]
        rfl

theorem encodeRune_length_pos (r : Rune) : 1 ≤ (encodeRune r).length := by
  unfold encodeRune
  split_ifs <;> simp

theorem encodeRunes_singleton (c : Rune) : encodeRunes [c] = encodeRune c := by
  simp [encodeRunes]

theorem encode_writes_length {c : Rune} {cl : CaseClause}
    (hsel : selectCase foldCases c = some cl) :
    (encodeRunes cl.writes).length = cl.writes.length := by
  apply encodeRunes_ascii_length
  intro w hw
  have := clause_printable (clauseOk_of_mem (selectCase_mem hsel).1) hw
  exact ⟨le_trans (by decide) this.1, lt_of_le_of_lt this.2 (by decide)⟩

theorem fold_size_outside (n : Nat) (hs : isScalar (Int.ofNat n) = true)
    (hr : ¬ (0x247D ≤ n ∧ n ≤ 0x2487)) :
    (foldRune (Int.ofNat n)).length ≤ (encodeRune (Int.ofNat n)).length
      ∧ (encodeRunes (foldRune (Int.ofNat n))).length ≤ (encodeRune (Int.ofNat n)).length := by
  have hpos := encodeRune_length_pos (Int.ofNat n)
  have hself : foldRune (Int.ofNat n) = [Int.ofNat n] →
      (foldRune (Int.ofNat n)).length ≤ (encodeRune (Int.ofNat n)).length
        ∧ (encodeRunes (foldRune (Int.ofNat n))).length
          ≤ (encodeRune (Int.ofNat n)).length := by
    intro h
    rw [h, encodeRunes_singleton]
    exact ⟨hpos, le_refl _⟩
  by_cases hc : (Int.ofNat n : Rune) < 0x80
  · exact hself (foldRune_of_lt hc)
  · cases hsel : selectCase foldCases (Int.ofNat n) with
    | none => exact hself (foldRune_of_select_none hsel)
    | some cl =>
      have hm := selectCase_mem hsel
      have hok := List.all_eq_true.mp (List.all_eq_true.mp foldCases_size_ok cl hm.1) _ hm.2
      simp only [Bool.or_eq_true, Bool.and_eq_true, decide_eq_true_eq] at hok
      rw [foldRune_of_select_some (not_lt.mp hc) hsel, encode_writes_length hsel,
        encodeRune_length_scalar n hs]
      rcases hok with h | h
      · exact ⟨h, h⟩
      · exact absurd h hr

theorem fold_size_parenthesized (n : Nat) (h1 : 0x247D ≤ n) (h2 : n ≤ 0x2487) :
    (foldRune (Int.ofNat n)).length = 4
      ∧ (encodeRunes (foldRune (Int.ofNat n))).length = 4
      ∧ (encodeRune (Int.ofNat n)).length = 3 := by
  have hlen : (foldRune (Int.ofNat n)).length = 4 := by
    rw [foldRune_enclosed n (by omega) (by omega)]
    have a1 : ¬ n ≤ 0x2473 := by omega
    have a2 : n ≤ 0x2487 := h2
    have a3 : ¬ n - 0x2473 < 10 := by omega
    simp only [enclosedExpected, a1, a2, if_true, if_false, decimalDigits, a3,
      List.length_cons, List.length_append, List.length_nil]
  have hs : isScalar (Int.ofNat n) = true := by
    simp only [isScalar, Bool.and_eq_true, decide_eq_true_eq, Bool.not_eq_true',
      Bool.and_eq_false_iff, decide_eq_false_iff_not, Int.ofNat_eq_coe]
    omega
  have hsz : utf8Size n = 3 := by
    have b1 : ¬ n < 0x80 := by omega
    have b2 : ¬ n < 0x800 := by omega
    have b3 : n < 0x10000 := by omega
    simp only [utf8Size, b1, b2, b3, if_true, if_false]
  refine ⟨hlen, ?_, by rw [encodeRune_length_scalar n hs, hsz]⟩
  cases hsel : selectCase foldCases (Int.ofNat n) with
  | none =>
    rw [foldRune_of_select_none hsel] at hlen
    simp at hlen
  | some cl =>
    rw [foldRune_of_select_some (ofNat_ge_80 (by omega)) hsel] at hlen ⊢
    rw [encode_writes_length hsel, hlen]

/-! Decoding of arbitrary bytes -/

theorem decodeRune_cases (b0 : Nat) (rest : List Nat) :
    decodeRune (b0 :: rest) = (0xFFFD, 1)
      ∨ (b0 < 0x80 ∧ decodeRune (b0 :: rest) = (Int.ofNat b0, 1))
      ∨ (∃ b1 tl, rest = b1 :: tl ∧ (0xC2 ≤ b0 ∧ b0 ≤ 0xDF) ∧ (0x80 ≤ b1 ∧ b1 ≤ 0xBF)
          ∧ decodeRune (b0 :: rest) = (Int.ofNat ((b0 % 0x20) * 0x40 + b1 % 0x40), 2))
      ∨ (∃ b1 b2 tl, rest = b1 :: b2 :: tl ∧ (0xE0 ≤ b0 ∧ b0 ≤ 0xEF)
          ∧ ((if b0 = 0xE0 then 0xA0 else 0x80) ≤ b1
            ∧ b1 ≤ (if b0 = 0xED then 0x9F else 0xBF))
          ∧ (0x80 ≤ b2 ∧ b2 ≤ 0xBF)
          ∧ decodeRune (b0 :: rest)
            = (Int.ofNat ((b0 % 0x10) * 0x1000 + (b1 % 0x40) * 0x40 + b2 % 0x40), 3))
      ∨ (∃ b1 b2 b3 tl, rest = b1 :: b2 :: b3 :: tl ∧ (0xF0 ≤ b0 ∧ b0 ≤ 0xF4)
          ∧ ((if b0 = 0xF0 then 0x90 else 0x80) ≤ b1
            ∧ b1 ≤ (if b0 = 0xF4 then 0x8F else 0xBF))
          ∧ (0x80 ≤ b2 ∧ b2 ≤ 0xBF) ∧ (0x80 ≤ b3 ∧ b3 ≤ 0xBF)
          ∧ decodeRune (b0 :: rest)
            = (Int.ofNat ((b0 % 0x08) * 0x40000 + (b1 % 0x40) * 0x1000 + (b2 % 0x40) * 0x40
                + b3 % 0x40), 4)) := by
  by_cases c1 : b0 < 0x80
  · right; left
    exact ⟨c1, by simp only [decodeRune, c1, if_true]⟩
  · by_cases c2 : 0xC2 ≤ b0 ∧ b0 ≤ 0xDF
    · cases rest with
      | nil => left; simp only [decodeRune, c1, c2, if_true, if_false, and_self]
      | cons b1 tl =>
        by_cases k1 : isCont b1 = true
        · right; right; left
          have hb : 0x80 ≤ b1 ∧ b1 ≤ 0xBF := by
            simpa only [isCont, Bool.and_eq_true, decide_eq_true_eq] using k1
          exact ⟨b1, tl, rfl, c2, hb,
            by simp only [decodeRune, c1, c2, k1, if_true, if_false, and_self]⟩
        · left
          simp only [decodeRune, c1, c2, k1, if_true, if_false, and_self, Bool.false_eq_true]
    · by_cases c3 : 0xE0 ≤ b0 ∧ b0 ≤ 0xEF
      · cases rest with
        | nil => left; simp only [decodeRune, c1, c2, c3, if_true, if_false, and_self]
        | cons b1 tl1 =>
          cases tl1 with
          | nil => left; simp only [decodeRune, c1, c2, c3, if_true, if_false, and_self]
          | cons b2 tl =>
            by_cases k : (if b0 = 0xE0 then 0xA0 else 0x80) ≤ b1
                ∧ b1 ≤ (if b0 = 0xED then 0x9F else 0xBF) ∧ isCont b2 = true
            · right; right; right; left
              have hb : 0x80 ≤ b2 ∧ b2 ≤ 0xBF := by
                simpa only [isCont, Bool.and_eq_true, decide_eq_true_eq] using k.2.2
              exact ⟨b1, b2, tl, rfl, c3, ⟨k.1, k.2.1⟩, hb,
                by simp only [decodeRune, c1, c2, c3, k, if_true, if_false, and_self]⟩
            · left
              simp only [decodeRune, c1, c2, c3, k, if_true, if_false, and_self]
      · by_cases c4 : 0xF0 ≤ b0 ∧ b0 ≤ 0xF4
        · cases rest with
          | nil => left; simp only [decodeRune, c1, c2, c3, c4, if_true, if_false, and_self]
          | cons b1 tl1 =>
            cases tl1 with
            | nil => left; simp only [decodeRune, c1, c2, c3, c4, if_true, if_false, and_self]
            | cons b2 tl2 =>
              cases tl2 with
              | nil =>
                left; simp only [decodeRune, c1, c2, c3, c4, if_true, if_false, and_self]
              | cons b3 tl =>
                by_cases k : (if b0 = 0xF0 then 0x90 else 0x80) ≤ b1
                    ∧ b1 ≤ (if b0 = 0xF4 then 0x8F else 0xBF) ∧ isCont b2 = true
                    ∧ isCont b3 = true
                · right; right; right; right
                  have hb2 : 0x80 ≤ b2 ∧ b2 ≤ 0xBF := by
                    simpa only [isCont, Bool.and_eq_true, decide_eq_true_eq] using k.2.2.1
                  have hb3 : 0x80 ≤ b3 ∧ b3 ≤ 0xBF := by
                    simpa only [isCont, Bool.and_eq_true, decide_eq_true_eq] using k.2.2.2
                  exact ⟨b1, b2, b3, tl, rfl, c4, ⟨k.1, k.2.1⟩, hb2, hb3,
                    by simp only [decodeRune, c1, c2, c3, c4, k, if_true, if_false,
                      and_self]⟩
                · left
                  simp only [decodeRune, c1, c2, c3, c4, k, if_true, if_false, and_self]
        · left
          simp only [decodeRune, c1, c2, c3, c4, if_true, if_false, and_self]

theorem decodeRune_scalar (bs : List Nat) : isScalar (decodeRune bs).1 = true := by
  cases bs with
  | nil => decide
  | cons b0 rest =>
    rcases decodeRune_cases b0 rest with h | ⟨h0, h⟩ | ⟨b1, tl, _, h0, h1, h⟩
      | ⟨b1, b2, tl, _, h0, h1, h2, h⟩ | ⟨b1, b2, b3, tl, _, h0, h1, h2, h3, h⟩
    · rw [h]; decide
    · rw [h]
      simp only [isScalar, Bool.and_eq_true, decide_eq_true_eq, Bool.not_eq_true',
        Bool.and_eq_false_iff, decide_eq_false_iff_not, Int.ofNat_eq_coe]
      omega
    · rw [h]
      simp only [isScalar, Bool.and_eq_true, decide_eq_true_eq, Bool.not_eq_true',
        Bool.and_eq_false_iff, decide_eq_false_iff_not, Int.ofNat_eq_coe]
      omega
    · rw [h]
      simp only [isScalar, Bool.and_eq_true, decide_eq_true_eq, Bool.not_eq_true',
        Bool.and_eq_false_iff, decide_eq_false_iff_not, Int.ofNat_eq_coe]
      split at h1 <;> split at h1 <;> omega
    · rw [h]
      simp only [isScalar, Bool.and_eq_true, decide_eq_true_eq, Bool.not_eq_true',
        Bool.and_eq_false_iff, decide_eq_false_iff_not, Int.ofNat_eq_coe]
      split at h1 <;> split at h1 <;> omega

theorem decodeFrom_scalar :
    ∀ (bs : List Nat) (k : Nat), ∀ c ∈ decodeFrom k bs, isScalar c = true := by
  intro bs
  induction bs with
  | nil =>
    intro k c hc
    cases k <;> simp [decodeFrom] at hc
  | cons b rest ih =>
    intro k c hc
    cases k with
    | zero =>
      simp only [decodeFrom, List.mem_cons] at hc
      rcases hc with rfl | hc
      · exact decodeRune_scalar (b :: rest)
      · exact ih _ c hc
    | succ k =>
      simp only [decodeFrom] at hc
      exact ih k c hc

theorem decodeRune_valid (b0 : Nat) (rest : List Nat) :
    decodeRune (b0 :: rest) = (0xFFFD, 1)
      ∨ ((decodeRune (b0 :: rest)).2 = (encodeRune (decodeRune (b0 :: rest)).1).length
        ∧ encodeRune (decodeRune (b0 :: rest)).1 <+: b0 :: rest) := by
  rcases decodeRune_cases b0 rest with h | ⟨h0, h⟩ | ⟨b1, tl, hr, h0, h1, h⟩
    | ⟨b1, b2, tl, hr, h0, h1, h2, h⟩ | ⟨b1, b2, b3, tl, hr, h0, h1, h2, h3, h⟩
  · exact Or.inl h
  · right
    rw [h]
    have e0 : ¬ (Int.ofNat b0 : Int) < 0 := by simp only [Int.ofNat_eq_coe]; omega
    have e1 : (Int.ofNat b0 : Int) < 0x80 := by simp only [Int.ofNat_eq_coe]; omega
    have he : encodeRune (Int.ofNat b0) = [b0] := by
      unfold encodeRune
      rw [if_neg e0, if_pos e1]
      rfl
    rw [he]
    exact ⟨rfl, List.prefix_iff_eq_append.mpr (by simp)⟩
  · right
    rw [h, hr]
    have e0 : ¬ (Int.ofNat (b0 % 0x20 * 0x40 + b1 % 0x40) : Int) < 0 := by
      simp only [Int.ofNat_eq_coe]; omega
    have e1 : ¬ (Int.ofNat (b0 % 0x20 * 0x40 + b1 % 0x40) : Int) < 0x80 := by
      simp only [Int.ofNat_eq_coe]; omega
    have e2 : (Int.ofNat (b0 % 0x20 * 0x40 + b1 % 0x40) : Int) < 0x800 := by
      simp only [Int.ofNat_eq_coe]; omega
    have a1 : 0xC0 + (b0 % 0x20 * 0x40 + b1 % 0x40) / 0x40 = b0 := by omega
    have a2 : 0x80 + (b0 % 0x20 * 0x40 + b1 % 0x40) % 0x40 = b1 := by omega
    have he : encodeRune (Int.ofNat (b0 % 0x20 * 0x40 + b1 % 0x40)) = [b0, b1] := by
      unfold encodeRune
      rw [if_neg e0, if_neg e1, if_pos e2]
      have htn : (Int.ofNat (b0 % 0x20 * 0x40 + b1 % 0x40)).toNat
          = b0 % 0x20 * 0x40 + b1 % 0x40 := rfl
      rw [htn, a1, a2]
    rw [he]
    exact ⟨rfl, List.prefix_iff_eq_append.mpr (by simp)⟩
  · right
    rw [h, hr]
    have hb1 : 0x80 ≤ b1 ∧ b1 ≤ 0xBF := by
      split at h1 <;> split at h1 <;> omega
    have hsur : ¬ (b0 = 0xED ∧ 0xA0 ≤ b1) := by
      split at h1 <;> split at h1 <;> omega
    have hlow : ¬ (b0 = 0xE0 ∧ b1 < 0xA0) := by
      split at h1 <;> split at h1 <;> omega
    have e0 : ¬ (Int.ofNat (b0 % 0x10 * 0x1000 + b1 % 0x40 * 0x40 + b2 % 0x40) : Int) < 0 := by
      simp only [Int.ofNat_eq_coe]; omega
    have e1 : ¬ (Int.ofNat (b0 % 0x10 * 0x1000 + b1 % 0x40 * 0x40 + b2 % 0x40) : Int)
        < 0x80 := by
      simp only [Int.ofNat_eq_coe]; omega
    have e2 : ¬ (Int.ofNat (b0 % 0x10 * 0x1000 + b1 % 0x40 * 0x40 + b2 % 0x40) : Int)
        < 0x800 := by
      simp only [Int.ofNat_eq_coe]; omega
    have e3 : ¬ ((0xD800 : Int)
          ≤ Int.ofNat (b0 % 0x10 * 0x1000 + b1 % 0x40 * 0x40 + b2 % 0x40)
        ∧ (Int.ofNat (b0 % 0x10 * 0x1000 + b1 % 0x40 * 0x40 + b2 % 0x40) : Int)
          ≤ 0xDFFF) := by
      simp only [Int.ofNat_eq_coe]; omega
    have e4 : (Int.ofNat (b0 % 0x10 * 0x1000 + b1 % 0x40 * 0x40 + b2 % 0x40) : Int)
        < 0x10000 := by
      simp only [Int.ofNat_eq_coe]; omega
    have a1 : 0xE0 + (b0 % 0x10 * 0x1000 + b1 % 0x40 * 0x40 + b2 % 0x40) / 0x1000 = b0 := by
      omega
    have a2 : 0x80 + (b0 % 0x10 * 0x1000 + b1 % 0x40 * 0x40 + b2 % 0x40) / 0x40 % 0x40
        = b1 := by omega
    have a3 : 0x80 + (b0 % 0x10 * 0x1000 + b1 % 0x40 * 0x40 + b2 % 0x40) % 0x40 = b2 := by
      omega
    have he : encodeRune (Int.ofNat (b0 % 0x10 * 0x1000 + b1 % 0x40 * 0x40 + b2 % 0x40))
        = [b0, b1, b2] := by
      unfold encodeRune
      rw [if_neg e0, if_neg e1, if_neg e2, if_neg e3, if_pos e4]
      have htn : (Int.ofNat (b0 % 0x10 * 0x1000 + b1 % 0x40 * 0x40 + b2 % 0x40)).toNat
          = b0 % 0x10 * 0x1000 + b1 % 0x40 * 0x40 + b2 % 0x40 := rfl
      rw [htn, a1, a2, a3]
    rw [he]
    exact ⟨rfl, List.prefix_iff_eq_append.mpr (by simp)⟩
  · right
    rw [h, hr]
    have hb1 : 0x80 ≤ b1 ∧ b1 ≤ 0xBF := by
      split at h1 <;> split at h1 <;> omega
    have hhigh : ¬ (b0 = 0xF4 ∧ 0x90 ≤ b1) := by
      split at h1 <;> split at h1 <;> omega
    have hlow : ¬ (b0 = 0xF0 ∧ b1 < 0x90) := by
      split at h1 <;> split at h1 <;> omega
    have e0 : ¬ (Int.ofNat (b0 % 0x08 * 0x40000 + b1 % 0x40 * 0x1000 + b2 % 0x40 * 0x40
        + b3 % 0x40) : Int) < 0 := by
      simp only [Int.ofNat_eq_coe]; omega
    have e1 : ¬ (Int.ofNat (b0 % 0x08 * 0x40000 + b1 % 0x40 * 0x1000 + b2 % 0x40 * 0x40
        + b3 % 0x40) : Int) < 0x80 := by
      simp only [Int.ofNat_eq_coe]; omega
    have e2 : ¬ (Int.ofNat (b0 % 0x08 * 0x40000 + b1 % 0x40 * 0x1000 + b2 % 0x40 * 0x40
        + b3 % 0x40) : Int) < 0x800 := by
      simp only [Int.ofNat_eq_coe]; omega
    have e3 : ¬ ((0xD800 : Int)
          ≤ Int.ofNat (b0 % 0x08 * 0x40000 + b1 % 0x40 * 0x1000 + b2 % 0x40 * 0x40
            + b3 % 0x40)
        ∧ (Int.ofNat (b0 % 0x08 * 0x40000 + b1 % 0x40 * 0x1000 + b2 % 0x40 * 0x40
            + b3 % 0x40) : Int) ≤ 0xDFFF) := by
      simp only [Int.ofNat_eq_coe]; omega
    have e4 : ¬ (Int.ofNat (b0 % 0x08 * 0x40000 + b1 % 0x40 * 0x1000 + b2 % 0x40 * 0x40
        + b3 % 0x40) : Int) < 0x10000 := by
      simp only [Int.ofNat_eq_coe]; omega
    have e5 : (Int.ofNat (b0 % 0x08 * 0x40000 + b1 % 0x40 * 0x1000 + b2 % 0x40 * 0x40
        + b3 % 0x40) : Int) ≤ 0x10FFFF := by
      simp only [Int.ofNat_eq_coe]; omega
    have a1 : 0xF0 + (b0 % 0x08 * 0x40000 + b1 % 0x40 * 0x1000 + b2 % 0x40 * 0x40
        + b3 % 0x40) / 0x40000 = b0 := by omega
    have a2 : 0x80 + (b0 % 0x08 * 0x40000 + b1 % 0x40 * 0x1000 + b2 % 0x40 * 0x40
        + b3 % 0x40) / 0x1000 % 0x40 = b1 := by omega
    have a3 : 0x80 + (b0 % 0x08 * 0x40000 + b1 % 0x40 * 0x1000 + b2 % 0x40 * 0x40
        + b3 % 0x40) / 0x40 % 0x40 = b2 := by omega
    have a4 : 0x80 + (b0 % 0x08 * 0x40000 + b1 % 0x40 * 0x1000 + b2 % 0x40 * 0x40
        + b3 % 0x40) % 0x40 = b3 := by omega
    have he : encodeRune (Int.ofNat (b0 % 0x08 * 0x40000 + b1 % 0x40 * 0x1000
        + b2 % 0x40 * 0x40 + b3 % 0x40)) = [b0, b1, b2, b3] := by
      unfold encodeRune
      rw [if_neg e0, if_neg e1, if_neg e2, if_neg e3, if_neg e4, if_pos e5]
      have htn : (Int.ofNat (b0 % 0x08 * 0x40000 + b1 % 0x40 * 0x1000 + b2 % 0x40 * 0x40
          + b3 % 0x40)).toNat
          = b0 % 0x08 * 0x40000 + b1 % 0x40 * 0x1000 + b2 % 0x40 * 0x40 + b3 % 0x40 := rfl
      rw [htn, a1, a2, a3, a4]
    rw [he]
    exact ⟨rfl, List.prefix_iff_eq_append.mpr (by simp)⟩

theorem scalar_of_ascii (d : Int) (h1 : 0 ≤ d) (h2 : d < 0x80) : isScalar d = true := by
  simp only [isScalar, Bool.and_eq_true, decide_eq_true_eq, Bool.not_eq_true',
    Bool.and_eq_false_iff, decide_eq_false_iff_not]
  omega

theorem foldRune_scalar {c : Rune} (hc : isScalar c = true) :
    ∀ w ∈ foldRune c, isScalar w = true := by
  intro w hw
  by_cases hlt : c < 0x80
  · rw [foldRune_of_lt hlt] at hw
    rw [List.mem_singleton.mp hw]; exact hc
  · cases hsel : selectCase foldCases c with
    | none =>
      rw [foldRune_of_select_none hsel] at hw
      rw [List.mem_singleton.mp hw]; exact hc
    | some cl =>
      rw [foldRune_of_select_some (not_lt.mp hlt) hsel] at hw
      have hp := clause_printable (clauseOk_of_mem (selectCase_mem hsel).1) hw
      exact scalar_of_ascii w (le_trans (by decide) hp.1) (lt_of_le_of_lt hp.2 (by decide))

theorem flatMap_foldRune_scalar {l : List Rune} (h : ∀ c ∈ l, isScalar c = true) :
    ∀ w ∈ l.flatMap foldRune, isScalar w = true := by
  intro w hw
  obtain ⟨c, hc, hwc⟩ := List.mem_flatMap.mp hw
  exact foldRune_scalar (h c hc) w hwc

/-! The window of `foldToASCII` -/

theorem foldLoop_window (input : List Rune) :
    ∀ (n pos : Nat) (pre mid post : List Rune) (len : Nat), pos + n ≤ input.length →
      mid.length = (((input.drop pos).take n).flatMap foldRune).length →
      pre.length + n ≤ len →
      len + (((input.drop pos).take n).flatMap foldRune).length
        ≤ (pre ++ mid ++ post).length + n →
      foldLoop input n pos ⟨pre ++ mid ++ post, len⟩ pre.length
        = some ⟨pre ++ ((input.drop pos).take n).flatMap foldRune ++ post,
            len + (((input.drop pos).take n).flatMap foldRune).length - n⟩ := by
  intro n
  induction n with
  | zero =>
    intro pos pre mid post len _ hmid _ _
    have : mid = [] := List.length_eq_zero.mp (by simpa using hmid)
    subst this
    simp [foldLoop]
  | succ n ih =>
    intro pos pre mid post len hpos hmid hlen hcap
    have hlt : pos < input.length := by omega
    have hdrop : (input.drop pos).take (n + 1) = input[pos] :: (input.drop (pos + 1)).take n := by
      rw [List.drop_eq_getElem_cons hlt, List.take_succ_cons]
    rw [hdrop, List.flatMap_cons] at hmid hcap ⊢
    rw [List.length_append] at hmid hcap
    have hge := flatMap_foldRune_length_ge ((input.drop (pos + 1)).take n)
    have htk : ((input.drop (pos + 1)).take n).length = n := by
      rw [List.length_take, List.length_drop]; omega
    have hk := foldRune_length_pos input[pos]
    have hm1 : (mid.take (foldRune input[pos]).length).length = (foldRune input[pos]).length := by
      rw [List.length_take]; omega
    have hm2 : (mid.drop (foldRune input[pos]).length).length
        = (((input.drop (pos + 1)).take n).flatMap foldRune).length := by
      rw [List.length_drop]; omega
    have harr : pre ++ mid ++ post = pre ++ mid.take (foldRune input[pos]).length
        ++ (mid.drop (foldRune input[pos]).length ++ post) := by
      rw [List.append_assoc pre (List.take _ mid), ← List.append_assoc (List.take _ mid),
        List.take_append_drop, List.append_assoc]
    have hcaplen : (pre ++ mid ++ post).length
        = pre.length + ((foldRune input[pos]).length
          + (((input.drop (pos + 1)).take n).flatMap foldRune).length) + post.length := by
      simp only [List.length_append, hmid]
    have hstep := foldStep_append input[pos] pre (mid.take (foldRune input[pos]).length)
      (mid.drop (foldRune input[pos]).length ++ post) len hm1 (by omega)
      (by rw [← harr, hcaplen]; omega)
    have hrec := ih (pos + 1) (pre ++ foldRune input[pos])
      (mid.drop (foldRune input[pos]).length) post
      (len + (foldRune input[pos]).length - 1) (by omega) hm2
      (by rw [List.length_append]; omega)
      (by
        simp only [List.length_append, hm2]
        rw [hcaplen] at hcap
        omega)
    simp only [foldLoop, List.getElem?_eq_getElem hlt]
    rw [harr, hstep]
    dsimp only
    have hpos2 : pre.length + (foldRune input[pos]).length
        = (pre ++ foldRune input[pos]).length := by
      rw [List.length_append]
    rw [hpos2, ← List.append_assoc, hrec]
    have hfin : len + (foldRune input[pos]).length - 1
          + (((input.drop (pos + 1)).take n).flatMap foldRune).length - n
        = len + (foldRune input[pos] ++ ((input.drop (pos + 1)).take n).flatMap foldRune).length
          - (n + 1) := by
      rw [List.length_append]; omega
    rw [hfin]
    simp only [List.append_assoc]

theorem foldToASCII_window_eq (input : List Rune) (inputPos : Nat) (out : RuneSlice)
    (outputPos length : Nat) (hin : inputPos + length ≤ input.length)
    (hout : outputPos + length ≤ out.len)
    (hcap : out.len + (((input.drop inputPos).take length).flatMap foldRune).length
      ≤ out.cap + length) :
    foldToASCII input inputPos out outputPos length
      = some ⟨out.arr.take outputPos ++ ((input.drop inputPos).take length).flatMap foldRune
            ++ out.arr.drop
              (outputPos + (((input.drop inputPos).take length).flatMap foldRune).length),
          out.len + (((input.drop inputPos).take length).flatMap foldRune).length - length⟩ := by
  have hwl : ((input.drop inputPos).take length).length = length := by
    rw [List.length_take, List.length_drop]; omega
  have hge := flatMap_foldRune_length_ge ((input.drop inputPos).take length)
  rw [hwl] at hge
  unfold RuneSlice.cap at hcap
  have hpre : (out.arr.take outputPos).length = outputPos := by
    rw [List.length_take]; omega
  have hmid : ((out.arr.drop outputPos).take
        (((input.drop inputPos).take length).flatMap foldRune).length).length
      = (((input.drop inputPos).take length).flatMap foldRune).length := by
    rw [List.length_take, List.length_drop]; omega
  have harr : out.arr = out.arr.take outputPos
      ++ (out.arr.drop outputPos).take
          (((input.drop inputPos).take length).flatMap foldRune).length
      ++ out.arr.drop
          (outputPos + (((input.drop inputPos).take length).flatMap foldRune).length) := by
    rw [List.append_assoc, ← List.drop_drop, List.take_append_drop, List.take_append_drop]
  have h := foldLoop_window input length inputPos (out.arr.take outputPos)
    ((out.arr.drop outputPos).take
      (((input.drop inputPos).take length).flatMap foldRune).length)
    (out.arr.drop (outputPos + (((input.drop inputPos).take length).flatMap foldRune).length))
    out.len hin hmid (by rw [hpre]; exact hout) (by rw [← harr]; exact hcap)
  rw [← harr, hpre] at h
  unfold foldToASCII
  cases out with
  | mk arr len => exact h

/-! The last claims -/

/-- C31: for a Unicode scalar value `c` outside U+247D..U+2487 the fold of `c`
has at most as many characters, and the bytes `Filter` returns for the encoding
of `c` are at most as many, as the UTF-8 encoding of `c` has bytes; for `d` in
U+247D..U+2487 the fold has four characters and `Filter` returns four bytes
against three bytes for `d`. -/
theorem fold_utf8_size_per_rune (c d : Rune) (hs : isScalar c = true)
    (hc : ¬ (0x247D ≤ c ∧ c ≤ 0x2487)) (hd : 0x247D ≤ d ∧ d ≤ 0x2487) :
    (∃ out, fold [c] = some out ∧ out = foldRune c
        ∧ Filter (encodeRune c) = some (encodeRunes out)
        ∧ out.length ≤ (encodeRune c).length
        ∧ (encodeRunes out).length ≤ (encodeRune c).length)
      ∧ ∃ out, fold [d] = some out ∧ out = foldRune d
          ∧ Filter (encodeRune d) = some (encodeRunes out)
          ∧ out.length = 4 ∧ (encodeRunes out).length = 4 ∧ (encodeRune d).length = 3 := by
  have hfilter : ∀ x : Rune, isScalar x = true →
      Filter (encodeRune x) = some (encodeRunes (foldRune x)) := by
    intro x hx
    have hdec : decodeRunes (encodeRune x) = [x] := by
      have := decodeRunes_encodeRunes [x] (by
        intro y hy
        rw [List.mem_singleton.mp hy]; exact hx)
      rwa [encodeRunes_singleton] at this
    rw [Filter_eq, hdec, fold_single, Option.map_some']
  refine ⟨?_, ?_⟩
  · have h0 : (0 : Int) ≤ c := by
      simp only [isScalar, Bool.and_eq_true, decide_eq_true_eq] at hs
      exact hs.1.1
    obtain ⟨n, rfl⟩ := Int.eq_ofNat_of_zero_le h0
    have hn : ¬ (0x247D ≤ n ∧ n ≤ 0x2487) := by
      intro hn
      apply hc
      have l1 : (0x247D : Int) ≤ (n : Int) := by omega
      have l2 : (n : Int) ≤ (0x2487 : Int) := by omega
      exact ⟨l1, l2⟩
    have hsz := fold_size_outside n hs hn
    exact ⟨_, fold_single _, rfl, hfilter _ hs, hsz.1, hsz.2⟩
  · have h0 : (0 : Int) ≤ d := le_trans (by decide) hd.1
    obtain ⟨n, rfl⟩ := Int.eq_ofNat_of_zero_le h0
    have l1 : (0x247D : Int) ≤ (n : Int) := hd.1
    have l2 : (n : Int) ≤ (0x2487 : Int) := hd.2
    have hsz := fold_size_parenthesized n (by omega) (by omega)
    have hsd : isScalar (Int.ofNat n) = true := by
      simp only [isScalar, Bool.and_eq_true, decide_eq_true_eq, Bool.not_eq_true',
        Bool.and_eq_false_iff, decide_eq_false_iff_not, Int.ofNat_eq_coe]
      omega
    exact ⟨_, fold_single _, rfl, hfilter _ hsd, hsz.1, hsz.2.1, hsz.2.2⟩

/-- The statement above at U+00E9, two bytes folded to one character, and at
U+247D, the parenthesized number ten. -/
theorem fold_utf8_size_per_rune_witness :
    (isScalar 0xE9 = true ∧ ¬ ((0x247D : Rune) ≤ 0xE9 ∧ (0xE9 : Rune) ≤ 0x2487)
        ∧ ((0x247D : Rune) ≤ 0x247D ∧ (0x247D : Rune) ≤ 0x2487))
      ∧ (∃ out, fold [0xE9] = some out ∧ out = foldRune 0xE9
          ∧ Filter (encodeRune 0xE9) = some (encodeRunes out)
          ∧ out.length ≤ (encodeRune 0xE9).length
          ∧ (encodeRunes out).length ≤ (encodeRune 0xE9).length)
      ∧ ∃ out, fold [0x247D] = some out ∧ out = foldRune 0x247D
          ∧ Filter (encodeRune 0x247D) = some (encodeRunes out)
          ∧ out.length = 4 ∧ (encodeRunes out).length = 4
          ∧ (encodeRune 0x247D).length = 3 :=
  ⟨by decide, fold_utf8_size_per_rune 0xE9 0x247D (by decide) (by decide) (by decide)⟩

/-- C32: on every byte sequence `Filter` returns the UTF-8 encoding of a
sequence of Unicode scalar values, which decodes to that sequence; the runes
decoded from the input are scalar values; at every position the decoder either
gives U+FFFD with width 1 or a rune whose encoding is the bytes it passes over;
U+FFFD matches no case, is written unchanged and encoded as EF BF BD, and
`Filter` maps the byte FF to these three bytes. -/
theorem Filter_well_formed (b : List Nat) :
    (∃ cs, (∀ c ∈ cs, isScalar c = true) ∧ Filter b = some (encodeRunes cs)
        ∧ decodeRunes (encodeRunes cs) = cs)
      ∧ (∀ c ∈ decodeRunes b, isScalar c = true)
      ∧ (∀ (b0 : Nat) (rest : List Nat),
          decodeRune (b0 :: rest) = (0xFFFD, 1)
            ∨ ((decodeRune (b0 :: rest)).2 = (encodeRune (decodeRune (b0 :: rest)).1).length
              ∧ encodeRune (decodeRune (b0 :: rest)).1 <+: b0 :: rest))
      ∧ selectCase foldCases 0xFFFD = none ∧ foldRune 0xFFFD = [0xFFFD]
      ∧ encodeRune 0xFFFD = [0xEF, 0xBF, 0xBD]
      ∧ Filter [0xFF] = some [0xEF, 0xBF, 0xBD] := by
  have hdec : ∀ c ∈ decodeRunes b, isScalar c = true := decodeFrom_scalar b 0
  have hout := flatMap_foldRune_scalar hdec
  have hnone : selectCase foldCases 0xFFFD = none :=
    selectCase_none_of_not_covered (by decide)
  refine ⟨⟨_, hout, ?_, decodeRunes_encodeRunes _ hout⟩, hdec, decodeRune_valid, hnone,
    foldRune_of_select_none hnone, by decide, by decide!⟩
  rw [Filter_eq, fold_eq, Option.map_some']

/-- C33: for `inputPos + length` within the input, `outputPos + length` within
`len(output)` and the capacity holding `len(output) + (T - length)`, where `T`
is the number of characters written for the window of the input, `foldToASCII`
returns a slice `r` with `len(r) = len(output) + (T - length)` whose elements
from `outputPos` to `outputPos + T` are the concatenation of the folds of the
code points of the window and whose elements below `outputPos` are those of
`output`; the result is the same for every input with the same window. -/
theorem foldToASCII_window (input : List Rune) (inputPos : Nat) (out : RuneSlice)
    (outputPos length : Nat) (hin : inputPos + length ≤ input.length)
    (hout : outputPos + length ≤ out.len)
    (hcap : out.len + (((input.drop inputPos).take length).flatMap foldRune).length
      ≤ out.cap + length) :
    ∃ r, foldToASCII input inputPos out outputPos length = some r
      ∧ r.len + length
          = out.len + (((input.drop inputPos).take length).flatMap foldRune).length
      ∧ outputPos + (((input.drop inputPos).take length).flatMap foldRune).length ≤ r.len
      ∧ (r.toList.drop outputPos).take
            (((input.drop inputPos).take length).flatMap foldRune).length
          = ((input.drop inputPos).take length).flatMap foldRune
      ∧ (∀ i, i < outputPos → r.toList[i]? = out.toList[i]?)
      ∧ ∀ input2 : List Rune, inputPos + length ≤ input2.length →
          (input2.drop inputPos).take length = (input.drop inputPos).take length →
          foldToASCII input2 inputPos out outputPos length = some r := by
  have hwl : ((input.drop inputPos).take length).length = length := by
    rw [List.length_take, List.length_drop]; omega
  have hge := flatMap_foldRune_length_ge ((input.drop inputPos).take length)
  rw [hwl] at hge
  have hcap2 := hcap
  unfold RuneSlice.cap at hcap2
  have hpre : (out.arr.take outputPos).length = outputPos := by
    rw [List.length_take]; omega
  have hpf : (out.arr.take outputPos
        ++ ((input.drop inputPos).take length).flatMap foldRune).length
      = outputPos + (((input.drop inputPos).take length).flatMap foldRune).length := by
    rw [List.length_append, hpre]
  refine ⟨_, foldToASCII_window_eq input inputPos out outputPos length hin hout hcap,
    ?_, ?_, ?_, ?_, ?_⟩
  · show out.len + (((input.drop inputPos).take length).flatMap foldRune).length - length
        + length = _
    omega
  · show _ ≤ out.len + (((input.drop inputPos).take length).flatMap foldRune).length - length
    omega
  · show (List.drop outputPos (List.take
        (out.len + (((input.drop inputPos).take length).flatMap foldRune).length - length)
        (out.arr.take outputPos ++ ((input.drop inputPos).take length).flatMap foldRune
          ++ out.arr.drop
            (outputPos + (((input.drop inputPos).take length).flatMap foldRune).length)))).take
        (((input.drop inputPos).take length).flatMap foldRune).length = _
    have hle : (out.arr.take outputPos
          ++ ((input.drop inputPos).take length).flatMap foldRune).length
        ≤ out.len + (((input.drop inputPos).take length).flatMap foldRune).length - length := by
      rw [hpf]; omega
    rw [List.take_append_eq_append_take, List.take_of_length_le hle, List.append_assoc,
      List.drop_left' hpre, List.take_left' rfl]
  · intro i hi
    show (List.take
        (out.len + (((input.drop inputPos).take length).flatMap foldRune).length - length)
        (out.arr.take outputPos ++ ((input.drop inputPos).take length).flatMap foldRune
          ++ out.arr.drop
            (outputPos + (((input.drop inputPos).take length).flatMap foldRune).length)))[i]?
      = (List.take out.len out.arr)[i]?
    rw [List.getElem?_take_of_lt (by omega), List.getElem?_take_of_lt (by omega),
      List.append_assoc, List.getElem?_append_left (by rw [hpre]; exact hi),
      List.getElem?_take_of_lt hi]
  · intro input2 hin2 hw
    have h2 := foldToASCII_window_eq input2 inputPos out outputPos length hin2 hout
      (by rw [hw]; exact hcap)
    rw [h2, hw]

/-- The statement above for the window U+00C6, `B` at positions 1 and 2 of a
four-rune input, written from index 1 of a slice of length 4 and capacity 8. -/
theorem foldToASCII_window_witness :
    (1 + 2 ≤ [(0x41 : Rune), 0xC6, 0x42, 0x247D].length
        ∧ 1 + 2 ≤ (RuneSlice.mk [11, 12, 13, 14, 15, 16, 17, 18] 4).len
        ∧ (RuneSlice.mk [11, 12, 13, 14, 15, 16, 17, 18] 4).len
            + ((([(0x41 : Rune), 0xC6, 0x42, 0x247D].drop 1).take 2).flatMap foldRune).length
          ≤ (RuneSlice.mk [11, 12, 13, 14, 15, 16, 17, 18] 4).cap + 2)
      ∧ ∃ r, foldToASCII [0x41, 0xC6, 0x42, 0x247D] 1
            (RuneSlice.mk [11, 12, 13, 14, 15, 16, 17, 18] 4) 1 2 = some r
          ∧ r.len + 2 = (RuneSlice.mk [11, 12, 13, 14, 15, 16, 17, 18] 4).len
              + ((([(0x41 : Rune), 0xC6, 0x42, 0x247D].drop 1).take 2).flatMap foldRune).length
          ∧ 1 + ((([(0x41 : Rune), 0xC6, 0x42, 0x247D].drop 1).take 2).flatMap foldRune).length
              ≤ r.len
          ∧ (r.toList.drop 1).take
                ((([(0x41 : Rune), 0xC6, 0x42, 0x247D].drop 1).take 2).flatMap foldRune).length
              = (([(0x41 : Rune), 0xC6, 0x42, 0x247D].drop 1).take 2).flatMap foldRune
          ∧ (∀ i, i < 1 → r.toList[i]?
              = (RuneSlice.mk [11, 12, 13, 14, 15, 16, 17, 18] 4).toList[i]?)
          ∧ ∀ input2 : List Rune, 1 + 2 ≤ input2.length →
              (input2.drop 1).take 2 = ([(0x41 : Rune), 0xC6, 0x42, 0x247D].drop 1).take 2 →
              foldToASCII input2 1 (RuneSlice.mk [11, 12, 13, 14, 15, 16, 17, 18] 4) 1 2
                = some r :=
  ⟨by decide!, foldToASCII_window [0x41, 0xC6, 0x42, 0x247D] 1
    (RuneSlice.mk [11, 12, 13, 14, 15, 16, 17, 18] 4) 1 2 (by decide) (by decide)
    (by decide!)⟩


/-- C21: on every call whose window lies within the input and whose output
slice has room for it (`inputPos + length` within the input, `outputPos +
length` within `len(output)`, the capacity holding the characters written), as
on every call `Filter` makes, the loop of `foldToASCII` ends within `length + 1`
tests of its condition and returns the result of `foldToASCII`; the iterations
entered are those of the positions `inputPos`, `inputPos + 1`, ...,
`inputPos + length - 1` in increasing order, each once: the body runs exactly
`length` times. -/
theorem foldToASCII_terminates (input : List Rune) (inputPos : Nat) (out : RuneSlice)
    (outputPos length extra : Nat) (hin : inputPos + length ≤ input.length)
    (hout : outputPos + length ≤ out.len)
    (hcap : out.len + (((input.drop inputPos).take length).flatMap foldRune).length
      ≤ out.cap + length) :
    (∃ starts r cursor,
        foldWhile input (inputPos + length) (length + 1 + extra) inputPos out outputPos
          = some (starts, some (r, cursor))
        ∧ foldToASCII input inputPos out outputPos length = some r
        ∧ starts.map IterStart.pos = List.range' inputPos length
        ∧ starts.length = length)
      ∧ ∃ starts r cursor,
          foldWhile input (0 + input.length) (input.length + 1 + extra) 0
            (make input.length (input.length * 4)) 0 = some (starts, some (r, cursor))
          ∧ foldToASCII input 0 (make input.length (input.length * 4)) 0 input.length = some r
          ∧ starts.map IterStart.pos = List.range' 0 input.length
          ∧ starts.length = input.length := by
  have key : ∀ (ip : Nat) (o : RuneSlice) (op len : Nat), ip + len ≤ input.length →
      op + len ≤ o.len →
      o.len + (((input.drop ip).take len).flatMap foldRune).length ≤ o.cap + len →
      ∃ starts r cursor,
        foldWhile input (ip + len) (len + 1 + extra) ip o op = some (starts, some (r, cursor))
        ∧ foldToASCII input ip o op len = some r
        ∧ starts.map IterStart.pos = List.range' ip len
        ∧ starts.length = len := by
    intro ip o op len h1 h2 h3
    obtain ⟨starts, last, hrun, hres, _, hall⟩ := foldWhile_run input extra len ip o op
    have hok := foldToASCII_window_eq input ip o op len h1 h2 h3
    have hok2 := hok
    unfold foldToASCII at hok2
    rw [hok2] at hres
    cases last with
    | none => simp at hres
    | some rp =>
      obtain ⟨r, p⟩ := rp
      simp only [Option.map_some', Option.some.injEq] at hres
      have hpos := hall rfl
      refine ⟨starts, r, p, hrun, by rw [hok, ← hres], hpos, ?_⟩
      have := congrArg List.length hpos
      rwa [List.length_map, List.length_range'] at this
  refine ⟨key inputPos out outputPos length hin hout hcap, ?_⟩
  have hle := flatMap_foldRune_length_le input
  exact key 0 (make input.length (input.length * 4)) 0 input.length (by omega)
    (by simp only [make]; omega)
    (by
      simp only [make, RuneSlice.cap, List.length_replicate, List.drop_zero, List.take_length]
      omega)

/-- The statement above for the window U+00C6, `B` at positions 1 and 2 of a
four-rune input, written from index 1 of a slice of length 4 and capacity 8. -/
theorem foldToASCII_terminates_witness :
    (1 + 2 ≤ [(0x41 : Rune), 0xC6, 0x42, 0x247D].length
        ∧ 1 + 2 ≤ (RuneSlice.mk [11, 12, 13, 14, 15, 16, 17, 18] 4).len
        ∧ (RuneSlice.mk [11, 12, 13, 14, 15, 16, 17, 18] 4).len
            + ((([(0x41 : Rune), 0xC6, 0x42, 0x247D].drop 1).take 2).flatMap foldRune).length
          ≤ (RuneSlice.mk [11, 12, 13, 14, 15, 16, 17, 18] 4).cap + 2)
      ∧ (∃ starts r cursor,
          foldWhile [0x41, 0xC6, 0x42, 0x247D] (1 + 2) (2 + 1 + 0) 1
              (RuneSlice.mk [11, 12, 13, 14, 15, 16, 17, 18] 4) 1
            = some (starts, some (r, cursor))
          ∧ foldToASCII [0x41, 0xC6, 0x42, 0x247D] 1
              (RuneSlice.mk [11, 12, 13, 14, 15, 16, 17, 18] 4) 1 2 = some r
          ∧ starts.map IterStart.pos = List.range' 1 2
          ∧ starts.length = 2)
      ∧ ∃ starts r cursor,
          foldWhile [0x41, 0xC6, 0x42, 0x247D] (0 + [(0x41 : Rune), 0xC6, 0x42, 0x247D].length)
              ([(0x41 : Rune), 0xC6, 0x42, 0x247D].length + 1 + 0) 0
              (make [(0x41 : Rune), 0xC6, 0x42, 0x247D].length
                ([(0x41 : Rune), 0xC6, 0x42, 0x247D].length * 4)) 0
            = some (starts, some (r, cursor))
          ∧ foldToASCII [0x41, 0xC6, 0x42, 0x247D] 0
              (make [(0x41 : Rune), 0xC6, 0x42, 0x247D].length
                ([(0x41 : Rune), 0xC6, 0x42, 0x247D].length * 4)) 0
              [(0x41 : Rune), 0xC6, 0x42, 0x247D].length = some r
          ∧ starts.map IterStart.pos = List.range' 0 [(0x41 : Rune), 0xC6, 0x42, 0x247D].length
          ∧ starts.length = [(0x41 : Rune), 0xC6, 0x42, 0x247D].length :=
  ⟨by decide!, foldToASCII_terminates [0x41, 0xC6, 0x42, 0x247D] 1
    (RuneSlice.mk [11, 12, 13, 14, 15, 16, 17, 18] 4) 1 2 0 (by decide) (by decide)
    (by decide!)⟩

end AsciiFolding
